import Mathlib

/-!
Shallow embedding of the silentsand height-field carving engine
(`src/sw.js`, main script portion) and proofs about its specification.

Conventions of the embedding:
* JS `Float32Array` grids become functions `Nat → ℝ`, indexed by the
  source's flattening convention `idx = y*W + x`; mutation becomes
  `Function.update` threaded through folds that mirror the source loops.
* JS numbers are modelled as real numbers.  `Math.floor`, `Math.ceil` and
  `Math.round` become `Int.floor`, `Int.ceil` and `jsRound` (round half
  toward plus infinity, the JS behaviour).  Division by zero in ℝ yields 0
  rather than the JS NaN/Infinity; the only places this matters are the
  degenerate inputs `radius = 0` for `rebuildTineProfile` (JS computes
  `0/0 = NaN` there) and `spread = 0` for `rebuildGaussKernel`, so theorems
  about those functions assume `1 ≤ r` where the behaviour is consulted.
* `Math.random()` driven code (noise generation, reset jitter) takes the
  random samples as an explicit oracle argument `Nat → ℝ`.
-/

namespace SilentSand

noncomputable section

/-- JS Math.round: floor (x + 0.5), ties toward plus infinity. -/
def jsRound (a : ℝ) : ℤ := ⌊a + 0.5⌋

/-- The index list [-r, ..., r] walked by the JS loops
`for (let v = -r; v <= r; v++)`; empty when r < 0. -/
def offsetRange (r : ℤ) : List ℤ :=
  (List.range (2 * r + 1).toNat).map (fun i : ℕ => (i : ℤ) - r)

/-- Cell enumeration order of the pass-1 double loop: dy outer, dx inner.
Elements are (dx, dy). -/
def boxCells (r : ℤ) : List (ℤ × ℤ) :=
  (offsetRange r).flatMap (fun dy => (offsetRange r).map (fun dx => (dx, dy)))

/-- In-bounds test `0 <= px < W && 0 <= py < H` shared by all grid accesses. -/
def inB (W H : ℕ) (px py : ℤ) : Prop :=
  0 ≤ px ∧ px < (W : ℤ) ∧ 0 ≤ py ∧ py < (H : ℤ)

instance (W H : ℕ) (px py : ℤ) : Decidable (inB W H px py) := by
  unfold inB; infer_instance

/-- The source's flattening convention `idx = y*W + x`. -/
def flatIdx (W : ℕ) (px py : ℤ) : ℕ := (py * (W : ℤ) + px).toNat

/-- The per-cell parallel arrays of the grid: `sandHeight`, `sandR`,
`sandG`, `sandB` from the source. -/
structure Grid where
  sandHeight : ℕ → ℝ
  sandR : ℕ → ℝ
  sandG : ℕ → ℝ
  sandB : ℕ → ℝ

/-- Cached slider values and canvas dimensions (the JS globals `W`, `H` and
the `cached.*` slider mirror). -/
structure Cfg where
  W : ℕ
  H : ℕ
  depth : ℝ
  rim : ℝ
  blend : ℝ
  fwdD : ℝ
  sideD : ℝ
  gapMul : ℝ
  spread : ℕ
  tineCount : ℕ
  mirrorV : Bool
  mirrorH : Bool
  mirrorD : Bool
  alignCenter : Bool
  rakeAngle : ℝ

/-- `getDiggingColor(h, out)`: depth-to-color keyframe mapping used by
digging-mode carving. -/
def getDiggingColor (h : ℝ) : ℝ × ℝ × ℝ :=
  let dug := 2.0 - h
  let normDug := if dug > 1.89 then 1 else if dug < 0 then 0 else dug / 1.89
  if normDug < 0.25 then
    (210, 190, 160)
  else if normDug < 0.50 then
    let t := (normDug - 0.25) / 0.25
    (210 + t * (190 - 210), 190 + t * (100 - 190), 160 + t * (50 - 160))
  else if normDug < 0.75 then
    let t := (normDug - 0.50) / 0.25
    (190 + t * (80 - 190), 100 + t * (55 - 100), 50 + t * (40 - 50))
  else
    let t := (normDug - 0.75) / 0.25
    (80 + t * (60 - 80), 55 + t * (120 - 55), 40 + t * (60 - 40))

/-- `rebuildTineProfile`: the value the profile LUT stores for offset
(dx, dy) at radius r (depth/rim from the sliders).  Offsets outside the
radius hold the sentinel -1; the consumer treats any negative value as
sentinel (`targetHeight < 0`). -/
def tineProfileVal (depth rim : ℝ) (r dx dy : ℤ) : ℝ :=
  let dist2 := dx * dx + dy * dy
  if dist2 > r * r then -1
  else
    let t := Real.sqrt (dist2 : ℝ) / (r : ℝ)
    if t < 0.6 then
      let u := t / 0.6
      1.0 - depth * (1 - u * u * u)
    else if t < 0.85 then
      let u := (t - 0.6) / 0.25
      1.0 + u * rim
    else
      let u := (t - 0.85) / 0.15
      (1.0 + rim) - u * rim

/-- `rebuildGaussKernel`: entries (sx, sy, weight), sy-major enumeration,
restricted to the disk sx*sx + sy*sy <= r*r, gaussian weights with
sigma = 0.75 r, then globally normalized.  The raw (pre-normalization)
entries. -/
def gaussRaw (r : ℕ) : List (ℤ × ℤ × ℝ) :=
  let sigma : ℝ := (r : ℝ) * 0.75
  let invTwoSigma2 : ℝ := 1 / (2 * sigma * sigma)
  (offsetRange r).flatMap (fun sy =>
    (offsetRange r).filterMap (fun sx =>
      if sx * sx + sy * sy > (r : ℤ) * (r : ℤ) then none
      else some (sx, sy, Real.exp (-((sx * sx + sy * sy : ℤ) : ℝ) * invTwoSigma2))))

/-- Total raw kernel weight (the JS `total` accumulator). -/
def gaussTotal (r : ℕ) : ℝ := ((gaussRaw r).map (fun e => e.2.2)).sum

/-- The normalized kernel: every raw weight multiplied by `1/total`. -/
def rebuildGaussKernel (r : ℕ) : List (ℤ × ℤ × ℝ) :=
  (gaussRaw r).map (fun e => (e.1, e.2.1, e.2.2 * (1 / gaussTotal r)))

/-- The dirty rectangle tracker state (`dirtyMinX .. dirtyMaxY`,
`dirtyEmpty`). -/
structure DirtyRect where
  minX : ℤ
  minY : ℤ
  maxX : ℤ
  maxY : ℤ
  dirtyEmpty : Bool

/-- `markDirty(x, y, radius)`: union the clamped bounding box of the
footprint into the tracked rectangle. -/
def markDirty (W H : ℕ) (d : DirtyRect) (x y radius : ℝ) : DirtyRect :=
  let r := ⌈radius⌉
  let x0 := max 0 (⌊x⌋ - r)
  let y0 := max 0 (⌊y⌋ - r)
  let x1 := min ((W : ℤ) - 1) (⌈x⌉ + r)
  let y1 := min ((H : ℤ) - 1) (⌈y⌉ + r)
  if d.dirtyEmpty then ⟨x0, y0, x1, y1, false⟩
  else ⟨min d.minX x0, min d.minY y0, max d.maxX x1, max d.maxY y1, false⟩

/-- `markFullDirty()`. -/
def markFullDirty (W H : ℕ) : DirtyRect := ⟨0, 0, (W : ℤ) - 1, (H : ℤ) - 1, false⟩

/-- One recorded displacement of pass 1 (`dispIdx/dispAmount/dispSrcR/G/B`). -/
structure Disp where
  idx : ℕ
  amount : ℝ
  sR : ℝ
  sG : ℝ
  sB : ℝ

/-- Stroke-direction normalization at the top of `carveTine`: unit vector
when the squared length exceeds 1e-6, the zero vector otherwise. -/
def normalizeDir (dirX dirY : ℝ) : ℝ × ℝ :=
  let dirLenSq := dirX * dirX + dirY * dirY
  if dirLenSq > 0.000001 then
    (dirX / Real.sqrt dirLenSq, dirY / Real.sqrt dirLenSq)
  else (0, 0)

/-- One pass-1 loop iteration of `carveTine` for the box offset (dx, dy):
bounds checks, profile lookup, digging-mode subtractive carving with
immediate recolor, or normal-mode blend toward the target, and the
recording of the displaced amount. -/
def pass1Step (C : Cfg) (dig : Bool) (r ix iy : ℤ)
    (st : Grid × List Disp) (c : ℤ × ℤ) : Grid × List Disp :=
  let px := ix + c.1
  let py := iy + c.2
  if ¬ inB C.W C.H px py then st
  else
    let targetHeight := tineProfileVal C.depth C.rim r c.1 c.2
    if targetHeight < 0 then st
    else
      let idx := flatIdx C.W px py
      let g := st.1
      let currentH := g.sandHeight idx
      if dig then
        if targetHeight ≥ 1.0 then st
        else
          let depthFactor := (2.0 - currentH) / 1.9
          let hardness := 1.0 + depthFactor * 3.0
          let removeAmount := (1.0 - targetHeight) * C.blend / hardness
          let newH0 := currentH - removeAmount
          let newH := if newH0 < 0.1 then 0.1 else newH0
          let col := getDiggingColor newH
          let g1 : Grid :=
            { g with
              sandR := Function.update g.sandR idx col.1
              sandG := Function.update g.sandG idx col.2.1
              sandB := Function.update g.sandB idx col.2.2 }
          if currentH > newH then
            ({ g1 with sandHeight := Function.update g1.sandHeight idx newH },
             st.2 ++ [⟨idx, currentH - newH, col.1, col.2.1, col.2.2⟩])
          else (g1, st.2)
      else
        let newH := currentH * (1 - C.blend) + targetHeight * C.blend
        if currentH > newH then
          ({ g with sandHeight := Function.update g.sandHeight idx newH },
           st.2 ++ [⟨idx, currentH - newH, g.sandR idx, g.sandG idx, g.sandB idx⟩])
        else st

/-- The three deposit centers of one displacement with their amounts:
forward (70%) and the two side centers (15% each), rounded to integer
cells. -/
def depositCenters (W : ℕ) (nd perp : ℝ × ℝ) (fwdDist sideDist : ℝ)
    (d : Disp) : List (ℤ × ℤ × ℝ) :=
  let srcPx : ℕ := d.idx % W
  let srcPy : ℕ := d.idx / W
  [(jsRound ((srcPx : ℝ) + nd.1 * fwdDist), jsRound ((srcPy : ℝ) + nd.2 * fwdDist),
    d.amount * 0.70),
   (jsRound ((srcPx : ℝ) + perp.1 * sideDist), jsRound ((srcPy : ℝ) + perp.2 * sideDist),
    d.amount * 0.15),
   (jsRound ((srcPx : ℝ) - perp.1 * sideDist), jsRound ((srcPy : ℝ) - perp.2 * sideDist),
    d.amount * 0.15)]

/-- One kernel-entry write of pass 2: bounds check, fractional amount,
height increase clamped at 1.5, height-weighted color mix guarded by the
`added > 0.0001 && totalH > 0.001` test. -/
def depositEntryStep (C : Cfg) (sR sG sB : ℝ) (cx cy : ℤ) (invClipped amount : ℝ)
    (g : Grid) (k : ℤ × ℤ × ℝ) : Grid :=
  let px := cx + k.1
  let py := cy + k.2.1
  if ¬ inB C.W C.H px py then g
  else
    let frac := k.2.2 * invClipped
    let cellAmount := amount * frac
    let cellIdx := flatIdx C.W px py
    let destH := g.sandHeight cellIdx
    let totalH := min (destH + cellAmount) 1.5
    let added := totalH - destH
    let g1 :=
      if added > 0.0001 ∧ totalH > 0.001 then
        { g with
          sandR := Function.update g.sandR cellIdx ((g.sandR cellIdx * destH + sR * added) / totalH)
          sandG := Function.update g.sandG cellIdx ((g.sandG cellIdx * destH + sG * added) / totalH)
          sandB := Function.update g.sandB cellIdx ((g.sandB cellIdx * destH + sB * added) / totalH) }
      else g
    { g1 with sandHeight := Function.update g1.sandHeight cellIdx totalH }

/-- The sum of in-bounds kernel weights at a deposit center (the JS
`clippedTotal` loop). -/
def clippedTotal (C : Cfg) (kernel : List (ℤ × ℤ × ℝ)) (cx cy : ℤ) : ℝ :=
  ((kernel.filter (fun k => decide (inB C.W C.H (cx + k.1) (cy + k.2.1)))).map
    (fun k => k.2.2)).sum

/-- Processing of one deposit center: interior fast path, boundary
renormalization with the negligible-total skip, the kernel write loop and
the dirty mark. -/
def depositAt (C : Cfg) (kernel : List (ℤ × ℤ × ℝ)) (sR sG sB : ℝ)
    (gd : Grid × DirtyRect) (c : ℤ × ℤ × ℝ) : Grid × DirtyRect :=
  let cx := c.1
  let cy := c.2.1
  let amount := c.2.2
  let isInterior := (C.spread : ℤ) ≤ cx ∧ cx ≤ (C.W : ℤ) - 1 - C.spread ∧
      (C.spread : ℤ) ≤ cy ∧ cy ≤ (C.H : ℤ) - 1 - C.spread
  if isInterior then
    (kernel.foldl (depositEntryStep C sR sG sB cx cy 1.0 amount) gd.1,
     markDirty C.W C.H gd.2 (cx : ℝ) (cy : ℝ) ((C.spread : ℝ) + 2))
  else
    let ct := clippedTotal C kernel cx cy
    if ct < 0.001 then gd
    else
      (kernel.foldl (depositEntryStep C sR sG sB cx cy (1 / ct) amount) gd.1,
       markDirty C.W C.H gd.2 (cx : ℝ) (cy : ℝ) ((C.spread : ℝ) + 2))

/-- Pass-2 handling of one recorded displacement: the three deposit
centers in source order. -/
def pass2Step (C : Cfg) (kernel : List (ℤ × ℤ × ℝ)) (nd perp : ℝ × ℝ)
    (fwdDist sideDist : ℝ) (gd : Grid × DirtyRect) (d : Disp) : Grid × DirtyRect :=
  (depositCenters C.W nd perp fwdDist sideDist d).foldl
    (depositAt C kernel d.sR d.sG d.sB) gd

/-- Pass 1 of `carveTine` as a whole: fold of `pass1Step` over the box. -/
def carvePass1 (C : Cfg) (dig : Bool) (g : Grid) (r ix iy : ℤ) :
    Grid × List Disp :=
  (boxCells r).foldl (pass1Step C dig r ix iy) (g, [])

/-- `carveTine(x, y, radius, dirX, dirY)` acting on grid and dirty
rectangle.  In digging mode pass 2 is skipped entirely. -/
def carveTine (C : Cfg) (dig : Bool) (gd : Grid × DirtyRect)
    (x y radius dirX dirY : ℝ) : Grid × DirtyRect :=
  let r := ⌊radius⌋
  let ix := jsRound x
  let iy := jsRound y
  let nd := normalizeDir dirX dirY
  let perp : ℝ × ℝ := (-nd.2, nd.1)
  let p1 := carvePass1 C dig gd.1 r ix iy
  let d1 := markDirty C.W C.H gd.2 (ix : ℝ) (iy : ℝ) ((r : ℝ) + 2)
  if dig then (p1.1, d1)
  else
    let kernel := rebuildGaussKernel C.spread
    let fwdDist := (r : ℝ) * C.fwdD
    let sideDist := (r : ℝ) * C.sideD
    p1.2.foldl (pass2Step C kernel nd perp fwdDist sideDist) (p1.1, d1)

/-- An undo/redo/digging snapshot (`getCurrentState()` result: copies of
the four grid arrays). -/
structure Snapshot where
  h : ℕ → ℝ
  r : ℕ → ℝ
  g : ℕ → ℝ
  b : ℕ → ℝ

/-- The mutable application state around the grid: digging flag, digging
snapshot, undo/redo stacks (newest last, as in the JS arrays), noise map
and dirty tracker. -/
structure AppState where
  grid : Grid
  noiseMap : ℕ → ℝ
  diggingMode : Bool
  savedGardenState : Option Snapshot
  undoStack : List Snapshot
  redoStack : List Snapshot
  dirty : DirtyRect

/-- `getCurrentState()`. -/
def getCurrentState (g : Grid) : Snapshot := ⟨g.sandHeight, g.sandR, g.sandG, g.sandB⟩

/-- `MAX_UNDO`. -/
def MAX_UNDO : ℕ := 10

/-- Restore the grid arrays from a snapshot (the four `TypedArray.set`
calls). -/
def setFromSnapshot (sn : Snapshot) : Grid := ⟨sn.h, sn.r, sn.g, sn.b⟩

/-- `saveState()`: clear the redo stack, evict the oldest undo entry at
capacity, push the current state. -/
def saveState (s : AppState) : AppState :=
  { s with
    redoStack := []
    undoStack :=
      (if MAX_UNDO ≤ s.undoStack.length then s.undoStack.drop 1 else s.undoStack) ++
        [getCurrentState s.grid] }

/-- `undo()`: no-op on an empty stack; otherwise push the current state on
the redo stack, pop the newest undo snapshot into the grid, mark all
dirty. -/
def undo (W H : ℕ) (s : AppState) : AppState :=
  match s.undoStack.getLast? with
  | none => s
  | some st =>
      { s with
        redoStack := s.redoStack ++ [getCurrentState s.grid]
        undoStack := s.undoStack.dropLast
        grid := setFromSnapshot st
        dirty := markFullDirty W H }

/-- `redo()`: symmetric to `undo`, with the `MAX_UNDO` eviction on the
undo push. -/
def redo (W H : ℕ) (s : AppState) : AppState :=
  match s.redoStack.getLast? with
  | none => s
  | some st =>
      { s with
        undoStack :=
          (if MAX_UNDO ≤ s.undoStack.length then s.undoStack.drop 1 else s.undoStack) ++
            [getCurrentState s.grid]
        redoStack := s.redoStack.dropLast
        grid := setFromSnapshot st
        dirty := markFullDirty W H }

/-- The default sand color `SAND_COLORS[0]` = (210, 190, 160). -/
def sandDefault : ℝ × ℝ × ℝ := (210, 190, 160)

/-- `clearSand()` (reset to flat): guarded out in digging mode; saves an
undo state, refills the grid with height 1.0 plus clamped random jitter
and the default color, regenerates the noise map, marks all dirty.  The
`Math.random()` samples are the oracle arguments. -/
def clearSand (W H : ℕ) (s : AppState) (rand noiseOracle : ℕ → ℝ) : AppState :=
  if s.diggingMode then s
  else
    let s1 := saveState s
    let N := W * H
    { s1 with
      grid :=
        { sandHeight := fun i => if i < N then
            max 0.1 (min 1.5 (1.0 + (rand i - 0.5) * 0.3)) else s1.grid.sandHeight i
          sandR := fun i => if i < N then sandDefault.1 else s1.grid.sandR i
          sandG := fun i => if i < N then sandDefault.2.1 else s1.grid.sandG i
          sandB := fun i => if i < N then sandDefault.2.2 else s1.grid.sandB i }
      noiseMap := fun i => if i < N then noiseOracle i else s1.noiseMap i
      dirty := markFullDirty W H }

/-- `enterDiggingMode()`: snapshot the garden, clear undo/redo, fill the
grid to height 2.0 and the default sand tone, regenerate noise (oracle
argument; the quote mask is out of the grid model), set the digging flag,
mark all dirty. -/
def enterDiggingMode (W H : ℕ) (s : AppState) (noiseOracle : ℕ → ℝ) : AppState :=
  let N := W * H
  { s with
    savedGardenState := some (getCurrentState s.grid)
    undoStack := []
    redoStack := []
    grid :=
      { sandHeight := fun i => if i < N then 2.0 else s.grid.sandHeight i
        sandR := fun i => if i < N then sandDefault.1 else s.grid.sandR i
        sandG := fun i => if i < N then sandDefault.2.1 else s.grid.sandG i
        sandB := fun i => if i < N then sandDefault.2.2 else s.grid.sandB i }
    noiseMap := fun i => if i < N then noiseOracle i else s.noiseMap i
    diggingMode := true
    dirty := markFullDirty W H }

/-- `exitDiggingMode()`: restore the grid from the entry snapshot, drop
snapshot and quote mask, clear the digging flag and both history stacks,
mark all dirty.  With no snapshot present the JS code would dereference
null, so the embedding returns `none` there. -/
def exitDiggingMode (W H : ℕ) (s : AppState) : Option AppState :=
  match s.savedGardenState with
  | none => none
  | some sn =>
      some { s with
        grid := setFromSnapshot sn
        savedGardenState := none
        diggingMode := false
        undoStack := []
        redoStack := []
        dirty := markFullDirty W H }

/-- A `carveTine` call on the application state (grid and dirty tracker;
the digging flag selects the mode). -/
def carveTineApp (C : Cfg) (s : AppState) (x y radius dirX dirY : ℝ) : AppState :=
  let gd := carveTine C s.diggingMode (s.grid, s.dirty) x y radius dirX dirY
  { s with grid := gd.1, dirty := gd.2 }

/-- Arguments of one `carveTine` call. -/
structure CarveCall where
  x : ℝ
  y : ℝ
  radius : ℝ
  dirX : ℝ
  dirY : ℝ

/-- A sequence of `carveTine` calls. -/
def applyCarves (C : Cfg) (s : AppState) (calls : List CarveCall) : AppState :=
  calls.foldl (fun s c => carveTineApp C s c.x c.y c.radius c.dirX c.dirY) s

/-- The core operations of the engine, with `Math.random()` oracles where
the source draws random numbers.  `enterDig`/`exitDig` carry the toggle
guard of the `digBtn` click handler (enter only from Normal, exit only
from Digging). -/
inductive Op where
  | carve (x y radius dirX dirY : ℝ)
  | reset (rand noiseOracle : ℕ → ℝ)
  | save
  | undoOp
  | redoOp
  | enterDig (noiseOracle : ℕ → ℝ)
  | exitDig

/-- One core operation acting on the application state. -/
def step (C : Cfg) (s : AppState) : Op → AppState
  | .carve x y radius dirX dirY => carveTineApp C s x y radius dirX dirY
  | .reset rand noiseOracle => clearSand C.W C.H s rand noiseOracle
  | .save => saveState s
  | .undoOp => undo C.W C.H s
  | .redoOp => redo C.W C.H s
  | .enterDig noiseOracle =>
      if s.diggingMode then s else enterDiggingMode C.W C.H s noiseOracle
  | .exitDig =>
      if s.diggingMode then (exitDiggingMode C.W C.H s).getD s else s

/-- One point of the symmetry expansion (`getSymmetryPoints` records). -/
structure SymPoint where
  x : ℝ
  y : ℝ
  dirX : ℝ
  dirY : ℝ
  perpX : ℝ
  perpY : ℝ

/-- The mirrorV reflection of a point record. -/
def mirrorVPoint (W : ℕ) (p : SymPoint) : SymPoint :=
  ⟨((W : ℝ) - 1) - p.x, p.y, -p.dirX, p.dirY, -p.perpX, p.perpY⟩

/-- The mirrorH reflection of a point record (note the source reflects y
around H, not H-1). -/
def mirrorHPoint (H : ℕ) (p : SymPoint) : SymPoint :=
  ⟨p.x, (H : ℝ) - p.y, p.dirX, -p.dirY, p.perpX, -p.perpY⟩

/-- The mirrorD transform: swap normalized coordinates, aspect-corrected
axis swap of direction and perpendicular with renormalization to the
original magnitude. -/
def mirrorDPoint (W H : ℕ) (p : SymPoint) : SymPoint :=
  let hw := (W : ℝ) / 2
  let hh := (H : ℝ) / 2
  let ar := (W : ℝ) / (H : ℝ)
  let iar := (H : ℝ) / (W : ℝ)
  let nx := (p.x - hw) / hw
  let ny := (p.y - hh) / hh
  let sx := ny * hw + hw
  let sy := nx * hh + hh
  let sdx0 := p.dirY * ar
  let sdy0 := p.dirX * iar
  let dlen := Real.sqrt (sdx0 * sdx0 + sdy0 * sdy0)
  let sd :=
    if dlen > 0.0001 then
      let olen := Real.sqrt (p.dirX * p.dirX + p.dirY * p.dirY)
      (sdx0 / dlen * olen, sdy0 / dlen * olen)
    else (sdx0, sdy0)
  let spx0 := p.perpY * ar
  let spy0 := p.perpX * iar
  let plen := Real.sqrt (spx0 * spx0 + spy0 * spy0)
  let sp :=
    if plen > 0.0001 then
      let olen := Real.sqrt (p.perpX * p.perpX + p.perpY * p.perpY)
      (spx0 / plen * olen, spy0 / plen * olen)
    else (spx0, spy0)
  ⟨sx, sy, sd.1, sd.2, sp.1, sp.2⟩

/-- The deduplication pass at the end of `getSymmetryPoints`: keep the
first point, then every point whose squared distance to all kept points
is at least 1. -/
def dedupPoints : List SymPoint → List SymPoint
  | [] => []
  | p :: rest =>
      rest.foldl (fun acc q =>
        if acc.any (fun k => (q.x - k.x) * (q.x - k.x) + (q.y - k.y) * (q.y - k.y) < 1)
        then acc else acc ++ [q]) [p]

/-- `getSymmetryPoints`: sequential doubling by each active axis, then
deduplication. -/
def getSymmetryPoints (C : Cfg) (p0 : SymPoint) : List SymPoint :=
  let pts := [p0]
  let pts := if C.mirrorV then pts ++ pts.map (mirrorVPoint C.W) else pts
  let pts := if C.mirrorH then pts ++ pts.map (mirrorHPoint C.H) else pts
  let pts := if C.mirrorD then pts ++ pts.map (mirrorDPoint C.W C.H) else pts
  dedupPoints pts

/-- `getRakePerp()`. -/
def getRakePerp (C : Cfg) : ℝ × ℝ := (Real.cos C.rakeAngle, Real.sin C.rakeAngle)

/-- `getPerpAt(x, y)`: radial direction from canvas center in alignment
mode (with the degenerate-center fallback (1,0)), rake perpendicular
otherwise. -/
def getPerpAt (C : Cfg) (x y : ℝ) : ℝ × ℝ :=
  if C.alignCenter then
    let dx := x - (C.W : ℝ) / 2
    let dy := y - (C.H : ℝ) / 2
    let len := Real.sqrt (dx * dx + dy * dy)
    if len > 0.001 then (dx / len, dy / len) else (1, 0)
  else getRakePerp C

/-- `getRakeTineOffsets(tineRadius)`: tine offsets along the perpendicular,
centered around 0. -/
def getRakeTineOffsets (count : ℕ) (gap tineRadius : ℝ) : List ℝ :=
  (List.range count).map (fun i : ℕ => ((i : ℝ) - ((count : ℝ) - 1) / 2) * (gap * tineRadius))

/-- `carveRake`: one `carveTine` per tine offset along the perpendicular. -/
def carveRake (C : Cfg) (dig : Bool) (gd : Grid × DirtyRect)
    (x y tineRadius dirX dirY perpX perpY : ℝ) : Grid × DirtyRect :=
  (getRakeTineOffsets C.tineCount C.gapMul tineRadius).foldl
    (fun gd off => carveTine C dig gd (x + perpX * off) (y + perpY * off) tineRadius dirX dirY)
    gd

/-- `carveRakeSymmetric`: direct rake carve when no axis is active,
otherwise one rake carve per symmetry point. -/
def carveRakeSymmetric (C : Cfg) (dig : Bool) (gd : Grid × DirtyRect)
    (x y tineRadius dirX dirY : ℝ) : Grid × DirtyRect :=
  if ¬ C.mirrorV ∧ ¬ C.mirrorH ∧ ¬ C.mirrorD then
    let pp := getPerpAt C x y
    carveRake C dig gd x y tineRadius dirX dirY pp.1 pp.2
  else
    let pp := getPerpAt C x y
    (getSymmetryPoints C ⟨x, y, dirX, dirY, pp.1, pp.2⟩).foldl
      (fun gd p => carveRake C dig gd p.x p.y tineRadius p.dirX p.dirY p.perpX p.perpY)
      gd

/-! ## Kernel lemmas -/

theorem mem_offsetRange {r a : ℤ} : a ∈ offsetRange r ↔ -r ≤ a ∧ a ≤ r := by
  simp only [offsetRange, List.mem_map, List.mem_range]
  constructor
  · rintro ⟨i, hi, rfl⟩
    omega
  · rintro ⟨h1, h2⟩
    exact ⟨(a + r).toNat, by omega, by omega⟩

theorem mem_gaussRaw {r : ℕ} {sx sy : ℤ} {w : ℝ} :
    (sx, sy, w) ∈ gaussRaw r ↔
      sx * sx + sy * sy ≤ (r : ℤ) * r ∧
        w = Real.exp (-((sx * sx + sy * sy : ℤ) : ℝ) *
          (1 / (2 * ((r : ℝ) * 0.75) * ((r : ℝ) * 0.75)))) := by
  simp only [gaussRaw, List.mem_flatMap, List.mem_filterMap]
  constructor
  · rintro ⟨dy, hdy, dx, hdx, hsome⟩
    by_cases hle : dx * dx + dy * dy > (r : ℤ) * r
    · rw [if_pos hle] at hsome
      cases hsome
    · rw [if_neg hle] at hsome
      simp only [Option.some.injEq, Prod.mk.injEq] at hsome
      obtain ⟨rfl, rfl, rfl⟩ := hsome
      exact ⟨by omega, rfl⟩
  · rintro ⟨hle, rfl⟩
    have hx : -(r : ℤ) ≤ sx ∧ sx ≤ r := by
      constructor <;> nlinarith
    have hy : -(r : ℤ) ≤ sy ∧ sy ≤ r := by
      constructor <;> nlinarith
    refine ⟨sy, mem_offsetRange.2 hy, sx, mem_offsetRange.2 hx, ?_⟩
    rw [if_neg (by omega)]

theorem gaussRaw_w_nonneg {r : ℕ} {k : ℤ × ℤ × ℝ} (hk : k ∈ gaussRaw r) :
    0 ≤ k.2.2 := by
  obtain ⟨sx, sy, w⟩ := k
  rw [mem_gaussRaw] at hk
  rw [hk.2]
  positivity

theorem gaussTotal_ge_one (r : ℕ) : 1 ≤ gaussTotal r := by
  have hmem : ((0 : ℤ), (0 : ℤ), (1 : ℝ)) ∈ gaussRaw r := by
    rw [mem_gaussRaw]
    refine ⟨by positivity, ?_⟩
    norm_num
  have h1 : (1 : ℝ) ∈ (gaussRaw r).map (fun e => e.2.2) := by
    exact List.mem_map.2 ⟨_, hmem, rfl⟩
  exact List.single_le_sum (by
    intro x hx
    obtain ⟨e, he, rfl⟩ := List.mem_map.1 hx
    exact gaussRaw_w_nonneg he) _ h1

theorem gaussTotal_pos (r : ℕ) : 0 < gaussTotal r :=
  lt_of_lt_of_le one_pos (gaussTotal_ge_one r)

theorem kernel_weights_sum (r : ℕ) :
    ((rebuildGaussKernel r).map (fun e => e.2.2)).sum = 1 := by
  unfold rebuildGaussKernel
  rw [List.map_map]
  have : ((gaussRaw r).map ((fun e : ℤ × ℤ × ℝ => e.2.2) ∘
      (fun e : ℤ × ℤ × ℝ => (e.1, e.2.1, e.2.2 * (1 / gaussTotal r))))) =
      (gaussRaw r).map (fun e => e.2.2 * (1 / gaussTotal r)) := rfl
  rw [this, List.sum_map_mul_right]
  show gaussTotal r * (1 / gaussTotal r) = 1
  rw [mul_one_div]
  exact div_self (gaussTotal_pos r).ne'

theorem kernel_w_nonneg {r : ℕ} {k : ℤ × ℤ × ℝ} (hk : k ∈ rebuildGaussKernel r) :
    0 ≤ k.2.2 := by
  unfold rebuildGaussKernel at hk
  obtain ⟨e, he, rfl⟩ := List.mem_map.1 hk
  have h1 := gaussRaw_w_nonneg he
  have h2 := (gaussTotal_pos r).le
  positivity

theorem kernel_w_pos {r : ℕ} {k : ℤ × ℤ × ℝ} (hk : k ∈ rebuildGaussKernel r) :
    0 < k.2.2 := by
  unfold rebuildGaussKernel at hk
  obtain ⟨e, he, rfl⟩ := List.mem_map.1 hk
  obtain ⟨sx, sy, w⟩ := e
  rw [mem_gaussRaw] at he
  show 0 < w * (1 / gaussTotal r)
  rw [he.2]
  have := gaussTotal_pos r
  positivity

theorem kernel_offset_bound {r : ℕ} {k : ℤ × ℤ × ℝ} (hk : k ∈ rebuildGaussKernel r) :
    -(r : ℤ) ≤ k.1 ∧ k.1 ≤ r ∧ -(r : ℤ) ≤ k.2.1 ∧ k.2.1 ≤ r := by
  unfold rebuildGaussKernel at hk
  obtain ⟨e, he, rfl⟩ := List.mem_map.1 hk
  obtain ⟨sx, sy, w⟩ := e
  rw [mem_gaussRaw] at he
  have := he.1
  refine ⟨by nlinarith, by nlinarith, by nlinarith, by nlinarith⟩

theorem mem_rebuildGaussKernel {r : ℕ} {sx sy : ℤ} {w : ℝ} :
    (sx, sy, w) ∈ rebuildGaussKernel r ↔
      ∃ w0, (sx, sy, w0) ∈ gaussRaw r ∧ w = w0 * (1 / gaussTotal r) := by
  unfold rebuildGaussKernel
  rw [List.mem_map]
  constructor
  · rintro ⟨⟨ex, ey, ew⟩, he, heq⟩
    simp only [Prod.mk.injEq] at heq
    obtain ⟨rfl, rfl, rfl⟩ := heq
    exact ⟨ew, he, rfl⟩
  · rintro ⟨w0, hw0, rfl⟩
    exact ⟨(sx, sy, w0), hw0, rfl⟩

/-- The C6 property at one spread radius: the kernel contains exactly the
offsets of the integer disk of that radius, each weight is the gaussian
value with sigma = 0.75 r normalized by the raw total, and the normalized
weights sum to 1 within 1e-4. -/
def KernelSpec (r : ℕ) : Prop :=
  (∀ sx sy : ℤ, (∃ w, (sx, sy, w) ∈ rebuildGaussKernel r) ↔
      sx * sx + sy * sy ≤ (r : ℤ) * r) ∧
  (∀ sx sy : ℤ, ∀ w : ℝ, (sx, sy, w) ∈ rebuildGaussKernel r →
      w = Real.exp (-((sx * sx + sy * sy : ℤ) : ℝ) / (2 * (0.75 * (r : ℝ)) ^ 2)) *
        (1 / gaussTotal r)) ∧
  |((rebuildGaussKernel r).map (fun e => e.2.2)).sum - 1| ≤ 0.0001

/-- C6: for every spread radius, the kernel built by KernelCache contains
exactly the integer offsets (sx, sy) with sx^2 + sy^2 <= radius^2, each
weight proportional to exp (-(sx^2 + sy^2) / (2 sigma^2)) with
sigma = 0.75 radius, and after normalization the weights sum to 1.0
within 1e-4 (here: exactly 1). -/
theorem C6_kernel_normalization (r : ℕ) (hr : 1 ≤ r) : KernelSpec r := by
  refine ⟨?_, ?_, ?_⟩
  · intro sx sy
    constructor
    · rintro ⟨w, hw⟩
      obtain ⟨w0, hw0, -⟩ := mem_rebuildGaussKernel.1 hw
      exact (mem_gaussRaw.1 hw0).1
    · intro hle
      refine ⟨Real.exp (-((sx * sx + sy * sy : ℤ) : ℝ) *
          (1 / (2 * ((r : ℝ) * 0.75) * ((r : ℝ) * 0.75)))) * (1 / gaussTotal r), ?_⟩
      exact mem_rebuildGaussKernel.2 ⟨_, mem_gaussRaw.2 ⟨hle, rfl⟩, rfl⟩
  · intro sx sy w hw
    obtain ⟨w0, hw0, rfl⟩ := mem_rebuildGaussKernel.1 hw
    rw [(mem_gaussRaw.1 hw0).2]
    ring_nf
  · rw [kernel_weights_sum]
    norm_num

theorem C6_kernel_normalization_witness : 1 ≤ 2 ∧ KernelSpec 2 :=
  ⟨by norm_num, C6_kernel_normalization 2 (by norm_num)⟩

/-! ## Digging round-trip -/

theorem applyCarves_saved (C : Cfg) (calls : List CarveCall) :
    ∀ s : AppState, (applyCarves C s calls).savedGardenState = s.savedGardenState := by
  induction calls with
  | nil => intro s; rfl
  | cons c cs ih =>
      intro s
      show (applyCarves C (carveTineApp C s c.x c.y c.radius c.dirX c.dirY) cs).savedGardenState
          = s.savedGardenState
      rw [ih]
      rfl

theorem applyCarves_digging (C : Cfg) (calls : List CarveCall) :
    ∀ s : AppState, (applyCarves C s calls).diggingMode = s.diggingMode := by
  induction calls with
  | nil => intro s; rfl
  | cons c cs ih =>
      intro s
      show (applyCarves C (carveTineApp C s c.x c.y c.radius c.dirX c.dirY) cs).diggingMode
          = s.diggingMode
      rw [ih]
      rfl

/-- C3: for any grid state S, entering Digging mode, performing arbitrarily
many digging-mode carveTine calls, and exiting Digging mode leaves the
height, colorR, colorG and colorB arrays exactly equal to their values in
S; the snapshot taken at entry is unaffected by the carves and is restored
exactly on exit. -/
theorem C3_dig_exit_restores_grid (C : Cfg) (s : AppState) (noiseOracle : ℕ → ℝ)
    (calls : List CarveCall) :
    ∃ s', exitDiggingMode C.W C.H
        (applyCarves C (enterDiggingMode C.W C.H s noiseOracle) calls) = some s' ∧
      (∀ i < C.W * C.H,
        s'.grid.sandHeight i = s.grid.sandHeight i ∧
        s'.grid.sandR i = s.grid.sandR i ∧
        s'.grid.sandG i = s.grid.sandG i ∧
        s'.grid.sandB i = s.grid.sandB i) := by
  have hsaved := applyCarves_saved C calls (enterDiggingMode C.W C.H s noiseOracle)
  have henter : (enterDiggingMode C.W C.H s noiseOracle).savedGardenState =
      some (getCurrentState s.grid) := rfl
  rw [henter] at hsaved
  refine ⟨{ applyCarves C (enterDiggingMode C.W C.H s noiseOracle) calls with
      grid := setFromSnapshot (getCurrentState s.grid)
      savedGardenState := none
      diggingMode := false
      undoStack := []
      redoStack := []
      dirty := markFullDirty C.W C.H }, ?_, ?_⟩
  · unfold exitDiggingMode
    rw [hsaved]
  · intro i _
    exact ⟨rfl, rfl, rfl, rfl⟩

/-- C10: an immediate enter/exit round trip of Digging mode restores the
height and three color arrays from the entry snapshot, while the noise
array keeps the values regenerated when Digging mode was entered (it is
not part of the snapshot), so it does not in general return to its
pre-entry values. -/
theorem C10_exit_keeps_regenerated_noise (W H : ℕ) (s : AppState)
    (noiseOracle : ℕ → ℝ) :
    ∃ s', exitDiggingMode W H (enterDiggingMode W H s noiseOracle) = some s' ∧
      (∀ i < W * H,
        s'.grid.sandHeight i = s.grid.sandHeight i ∧
        s'.grid.sandR i = s.grid.sandR i ∧
        s'.grid.sandG i = s.grid.sandG i ∧
        s'.grid.sandB i = s.grid.sandB i ∧
        s'.noiseMap i = noiseOracle i) := by
  refine ⟨_, rfl, ?_⟩
  intro i hi
  refine ⟨rfl, rfl, rfl, rfl, ?_⟩
  show (if i < W * H then noiseOracle i else s.noiseMap i) = noiseOracle i
  rw [if_pos hi]

/-! ## Degenerate inputs -/

theorem offsetRange_of_neg {r : ℤ} (h : r < 0) : offsetRange r = [] := by
  unfold offsetRange
  rw [Int.toNat_of_nonpos (by omega)]
  rfl

theorem boxCells_of_neg {r : ℤ} (h : r < 0) : boxCells r = [] := by
  unfold boxCells
  rw [offsetRange_of_neg h]
  rfl

theorem normalizeDir_zero : normalizeDir 0 0 = (0, 0) := by
  unfold normalizeDir
  norm_num

/-- C9 counterexample: with a zero-length stroke direction the engine does
not fall back to a default axis direction for displacement; the normalized
direction it uses is the zero vector, which is none of the four unit axis
directions. -/
theorem C9_counterexample :
    normalizeDir 0 0 = (0, 0) ∧
      ¬ ∃ a ∈ [((1 : ℝ), (0 : ℝ)), (-1, 0), (0, 1), (0, -1)], normalizeDir 0 0 = a := by
  refine ⟨normalizeDir_zero, ?_⟩
  rintro ⟨a, ha, heq⟩
  rw [normalizeDir_zero] at heq
  fin_cases ha <;> simp only [Prod.ext_iff, Prod.fst_zero, Prod.snd_zero] at heq <;>
    norm_num at heq

/-- C9 (amended): carveTine handles degenerate input locally: with a
zero-length stroke direction the displacement direction falls back to the
zero vector (deposit centers stay at their source cells), and a negative
radius yields an empty profile box and a carve that leaves every grid cell
unchanged.  (radius in [0, 1) floors to r = 0, where the JS profile
computes 0/0 = NaN so the carve is outside the real-valued embedding;
in normal mode it also mutates nothing.) -/
theorem C9_degenerate_inputs (C : Cfg) (dig : Bool) (g : Grid) (d : DirtyRect)
    (x y radius dirX dirY : ℝ) (h : radius < 0) :
    normalizeDir 0 0 = (0, 0) ∧
      (carveTine C dig (g, d) x y radius dirX dirY).1 = g := by
  refine ⟨normalizeDir_zero, ?_⟩
  have hr : (⌊radius⌋ : ℤ) < 0 := Int.floor_lt.2 (by exact_mod_cast h)
  simp only [carveTine, carvePass1, boxCells_of_neg hr, List.foldl_nil]
  cases dig <;> simp

theorem C9_degenerate_inputs_witness :
    (-1 : ℝ) < 0 ∧
      (normalizeDir 0 0 = (0, 0) ∧
        (carveTine ⟨10, 1, 0.3, 0, 1, 50, 50, 1, 1, 1, true, false, false, false, 0⟩
          false (⟨fun _ => 1, fun _ => 210, fun _ => 190, fun _ => 160⟩,
            ⟨0, 0, 0, 0, true⟩) 0 0 (-1) 0 0).1 =
          ⟨fun _ => 1, fun _ => 210, fun _ => 190, fun _ => 160⟩) :=
  ⟨by norm_num,
   C9_degenerate_inputs ⟨10, 1, 0.3, 0, 1, 50, 50, 1, 1, 1, true, false, false, false, 0⟩
      false ⟨fun _ => 1, fun _ => 210, fun _ => 190, fun _ => 160⟩
      ⟨0, 0, 0, 0, true⟩ 0 0 (-1) 0 0 (by norm_num)⟩

/-! ## Pass-1 pointwise characterization -/

/-- Flat index of the cell a box offset addresses. -/
def cellIdx (W : ℕ) (ix iy : ℤ) (c : ℤ × ℤ) : ℕ := flatIdx W (ix + c.1) (iy + c.2)

/-- In-bounds test for the cell a box offset addresses. -/
def cellIn (W H : ℕ) (ix iy : ℤ) (c : ℤ × ℤ) : Prop := inB W H (ix + c.1) (iy + c.2)

instance (W H : ℕ) (ix iy : ℤ) (c : ℤ × ℤ) : Decidable (cellIn W H ix iy c) := by
  unfold cellIn; infer_instance

/-- The per-cell outcome of one pass-1 iteration as a pure function of the
pre-iteration cell values: (new height, new colors, recorded displacement). -/
def pass1Cell (C : Cfg) (dig : Bool) (r : ℤ) (c : ℤ × ℤ) (idx : ℕ)
    (currentH cR cG cB : ℝ) : ℝ × (ℝ × ℝ × ℝ) × Option Disp :=
  let target := tineProfileVal C.depth C.rim r c.1 c.2
  if target < 0 then (currentH, (cR, cG, cB), none)
  else if dig then
    if target ≥ 1.0 then (currentH, (cR, cG, cB), none)
    else
      let depthFactor := (2.0 - currentH) / 1.9
      let hardness := 1.0 + depthFactor * 3.0
      let removeAmount := (1.0 - target) * C.blend / hardness
      let newH0 := currentH - removeAmount
      let newH := if newH0 < 0.1 then 0.1 else newH0
      let col := getDiggingColor newH
      if currentH > newH then
        (newH, col, some ⟨idx, currentH - newH, col.1, col.2.1, col.2.2⟩)
      else (currentH, col, none)
  else
    let newH := currentH * (1 - C.blend) + target * C.blend
    if currentH > newH then
      (newH, (cR, cG, cB), some ⟨idx, currentH - newH, cR, cG, cB⟩)
    else (currentH, (cR, cG, cB), none)

theorem pass1Step_eq (C : Cfg) (dig : Bool) (r ix iy : ℤ) (st : Grid × List Disp)
    (c : ℤ × ℤ) :
    pass1Step C dig r ix iy st c =
      if cellIn C.W C.H ix iy c then
        let idx := cellIdx C.W ix iy c
        let pc := pass1Cell C dig r c idx (st.1.sandHeight idx) (st.1.sandR idx)
          (st.1.sandG idx) (st.1.sandB idx)
        (⟨Function.update st.1.sandHeight idx pc.1,
          Function.update st.1.sandR idx pc.2.1.1,
          Function.update st.1.sandG idx pc.2.1.2.1,
          Function.update st.1.sandB idx pc.2.1.2.2⟩,
         st.2 ++ pc.2.2.toList)
      else st := by
  unfold pass1Step pass1Cell cellIn cellIdx
  by_cases hin : inB C.W C.H (ix + c.1) (iy + c.2)
  · rw [if_neg (not_not.2 hin), if_pos hin]
    dsimp only
    split_ifs <;> simp_all [Function.update_eq_self]
  · rw [if_pos hin, if_neg hin]

/-- The four array values of a grid at one index. -/
def gridAt (g : Grid) (i : ℕ) : ℝ × ℝ × ℝ × ℝ :=
  (g.sandHeight i, g.sandR i, g.sandG i, g.sandB i)

/-- Pass-1 per-cell outcome evaluated on the values a grid holds at the
addressed cell. -/
def pass1CellAt (C : Cfg) (dig : Bool) (r ix iy : ℤ) (g : Grid) (c : ℤ × ℤ) :
    ℝ × (ℝ × ℝ × ℝ) × Option Disp :=
  pass1Cell C dig r c (cellIdx C.W ix iy c) (g.sandHeight (cellIdx C.W ix iy c))
    (g.sandR (cellIdx C.W ix iy c)) (g.sandG (cellIdx C.W ix iy c))
    (g.sandB (cellIdx C.W ix iy c))

/-- The displacement pass 1 records for one box offset (none when skipped
or out of bounds). -/
def pass1DispAt (C : Cfg) (dig : Bool) (r ix iy : ℤ) (g : Grid) (c : ℤ × ℤ) :
    Option Disp :=
  if cellIn C.W C.H ix iy c then (pass1CellAt C dig r ix iy g c).2.2 else none

/-- The grid values pass 1 leaves at the cell addressed by a box offset. -/
def pass1OutAt (C : Cfg) (dig : Bool) (r ix iy : ℤ) (g : Grid) (c : ℤ × ℤ) :
    ℝ × ℝ × ℝ × ℝ :=
  ((pass1CellAt C dig r ix iy g c).1, (pass1CellAt C dig r ix iy g c).2.1.1,
   (pass1CellAt C dig r ix iy g c).2.1.2.1, (pass1CellAt C dig r ix iy g c).2.1.2.2)

theorem pass1_fold_spec (C : Cfg) (dig : Bool) (r ix iy : ℤ) (g : Grid) :
    ∀ (cells : List (ℤ × ℤ)) (g0 : Grid) (L : List Disp),
      (∀ c ∈ cells, cellIn C.W C.H ix iy c →
        gridAt g0 (cellIdx C.W ix iy c) = gridAt g (cellIdx C.W ix iy c)) →
      cells.Pairwise (fun a b => cellIn C.W C.H ix iy a → cellIn C.W C.H ix iy b →
        cellIdx C.W ix iy a ≠ cellIdx C.W ix iy b) →
      (cells.foldl (pass1Step C dig r ix iy) (g0, L)).2 =
          L ++ cells.filterMap (pass1DispAt C dig r ix iy g) ∧
      (∀ c ∈ cells, cellIn C.W C.H ix iy c →
        gridAt (cells.foldl (pass1Step C dig r ix iy) (g0, L)).1 (cellIdx C.W ix iy c) =
          pass1OutAt C dig r ix iy g c) ∧
      (∀ i : ℕ, (∀ c ∈ cells, cellIn C.W C.H ix iy c → cellIdx C.W ix iy c ≠ i) →
        gridAt (cells.foldl (pass1Step C dig r ix iy) (g0, L)).1 i = gridAt g0 i) := by
  intro cells
  induction cells with
  | nil =>
      intro g0 L _ _
      exact ⟨by simp, by simp, fun i _ => rfl⟩
  | cons c cs ih =>
      intro g0 L hagree hpw
      rw [List.foldl_cons]
      have hpwcs := (List.pairwise_cons.1 hpw).2
      have hpwhead := (List.pairwise_cons.1 hpw).1
      by_cases hc : cellIn C.W C.H ix iy c
      · have hg0c : gridAt g0 (cellIdx C.W ix iy c) = gridAt g (cellIdx C.W ix iy c) :=
          hagree c (List.mem_cons_self c cs) hc
        have hstep : pass1Step C dig r ix iy (g0, L) c =
            (⟨Function.update g0.sandHeight (cellIdx C.W ix iy c)
                (pass1CellAt C dig r ix iy g c).1,
              Function.update g0.sandR (cellIdx C.W ix iy c)
                (pass1CellAt C dig r ix iy g c).2.1.1,
              Function.update g0.sandG (cellIdx C.W ix iy c)
                (pass1CellAt C dig r ix iy g c).2.1.2.1,
              Function.update g0.sandB (cellIdx C.W ix iy c)
                (pass1CellAt C dig r ix iy g c).2.1.2.2⟩,
             L ++ (pass1CellAt C dig r ix iy g c).2.2.toList) := by
          rw [pass1Step_eq, if_pos hc]
          have h1 : g0.sandHeight (cellIdx C.W ix iy c) =
              g.sandHeight (cellIdx C.W ix iy c) := congrArg Prod.fst hg0c
          have h2 : g0.sandR (cellIdx C.W ix iy c) =
              g.sandR (cellIdx C.W ix iy c) := congrArg (fun v => v.2.1) hg0c
          have h3 : g0.sandG (cellIdx C.W ix iy c) =
              g.sandG (cellIdx C.W ix iy c) := congrArg (fun v => v.2.2.1) hg0c
          have h4 : g0.sandB (cellIdx C.W ix iy c) =
              g.sandB (cellIdx C.W ix iy c) := congrArg (fun v => v.2.2.2) hg0c
          dsimp only
          rw [h1, h2, h3, h4]
          rfl
        rw [hstep]
        set idxc := cellIdx C.W ix iy c with hidxc
        set pc := pass1CellAt C dig r ix iy g c with hpc
        set g1 : Grid :=
          ⟨Function.update g0.sandHeight idxc pc.1,
           Function.update g0.sandR idxc pc.2.1.1,
           Function.update g0.sandG idxc pc.2.1.2.1,
           Function.update g0.sandB idxc pc.2.1.2.2⟩ with hg1
        have hg1at : ∀ i : ℕ, i ≠ idxc → gridAt g1 i = gridAt g0 i := by
          intro i hi
          show (_, _, _, _) = _
          rw [hg1]
          unfold gridAt
          dsimp only
          rw [Function.update_noteq hi, Function.update_noteq hi,
            Function.update_noteq hi, Function.update_noteq hi]
        have hagree1 : ∀ c' ∈ cs, cellIn C.W C.H ix iy c' →
            gridAt g1 (cellIdx C.W ix iy c') = gridAt g (cellIdx C.W ix iy c') := by
          intro c' hc' hin'
          have hne : cellIdx C.W ix iy c' ≠ idxc :=
            fun h => (hpwhead c' hc' hc hin') h.symm
          rw [hg1at _ hne]
          exact hagree c' (List.mem_cons_of_mem c hc') hin'
        obtain ⟨ihL, ihVal, ihFrame⟩ := ih g1 (L ++ pc.2.2.toList) hagree1 hpwcs
        refine ⟨?_, ?_, ?_⟩
        · rw [ihL, List.filterMap_cons]
          have : pass1DispAt C dig r ix iy g c = pc.2.2 := by
            unfold pass1DispAt
            rw [if_pos hc, hpc]
          rw [this]
          cases pc.2.2 with
          | none => simp
          | some d => simp
        · intro c' hc' hin'
          rcases List.mem_cons.1 hc' with rfl | hmem
          · have hframe := ihFrame idxc (fun c'' hc'' hin'' h =>
              (hpwhead c'' hc'' hin' hin'') h.symm)
            rw [hframe]
            show gridAt g1 idxc = _
            rw [hg1]
            unfold gridAt pass1OutAt
            dsimp only
            rw [Function.update_same, Function.update_same, Function.update_same,
              Function.update_same]
          · exact ihVal c' hmem hin'
        · intro i hi
          have hne : idxc ≠ i := hi c (List.mem_cons_self c cs) hc
          rw [ihFrame i (fun c'' hc'' hin'' => hi c'' (List.mem_cons_of_mem c hc'') hin'')]
          exact hg1at i (fun h => hne h.symm)
      · have hstep : pass1Step C dig r ix iy (g0, L) c = (g0, L) := by
          rw [pass1Step_eq, if_neg hc]
        rw [hstep]
        obtain ⟨ihL, ihVal, ihFrame⟩ := ih g0 L
          (fun c' hc' hin' => hagree c' (List.mem_cons_of_mem c hc') hin') hpwcs
        refine ⟨?_, ?_, ?_⟩
        · rw [ihL, List.filterMap_cons]
          have : pass1DispAt C dig r ix iy g c = none := by
            unfold pass1DispAt
            rw [if_neg hc]
          rw [this]
        · intro c' hc' hin'
          rcases List.mem_cons.1 hc' with rfl | hmem
          · exact absurd hin' hc
          · exact ihVal c' hmem hin'
        · intro i hi
          exact ihFrame i (fun c'' hc'' hin'' => hi c'' (List.mem_cons_of_mem c hc'') hin'')

theorem offsetRange_nodup (r : ℤ) : (offsetRange r).Nodup := by
  unfold offsetRange
  exact (List.nodup_range _).map (fun a b h => by omega)

theorem boxCells_nodup (r : ℤ) : (boxCells r).Nodup := by
  unfold boxCells
  rw [List.nodup_flatMap]
  constructor
  · intro dy _
    exact (offsetRange_nodup r).map (fun a b h => congrArg Prod.fst h)
  · refine (offsetRange_nodup r).imp ?_
    intro a b hab
    intro x hxa hxb
    obtain ⟨dxa, -, rfl⟩ := List.mem_map.1 hxa
    obtain ⟨dxb, -, hb⟩ := List.mem_map.1 hxb
    exact hab (congrArg Prod.snd hb).symm

theorem mem_boxCells {r : ℤ} {c : ℤ × ℤ} :
    c ∈ boxCells r ↔ -r ≤ c.1 ∧ c.1 ≤ r ∧ -r ≤ c.2 ∧ c.2 ≤ r := by
  unfold boxCells
  rw [List.mem_flatMap]
  constructor
  · rintro ⟨dy, hdy, hc⟩
    obtain ⟨dx, hdx, rfl⟩ := List.mem_map.1 hc
    obtain ⟨h1, h2⟩ := mem_offsetRange.1 hdx
    obtain ⟨h3, h4⟩ := mem_offsetRange.1 hdy
    exact ⟨h1, h2, h3, h4⟩
  · rintro ⟨h1, h2, h3, h4⟩
    exact ⟨c.2, mem_offsetRange.2 ⟨h3, h4⟩,
      List.mem_map.2 ⟨c.1, mem_offsetRange.2 ⟨h1, h2⟩, rfl⟩⟩

theorem flatIdx_inj {W H : ℕ} {px py qx qy : ℤ} (hp : inB W H px py)
    (hq : inB W H qx qy) (h : flatIdx W px py = flatIdx W qx qy) :
    px = qx ∧ py = qy := by
  obtain ⟨hp1, hp2, hp3, hp4⟩ := hp
  obtain ⟨hq1, hq2, hq3, hq4⟩ := hq
  have hWpos : (0 : ℤ) < (W : ℤ) := lt_of_le_of_lt hp1 hp2
  have hpe : py * (W : ℤ) + px = qy * (W : ℤ) + qx := by
    have h0p : (0 : ℤ) ≤ py * (W : ℤ) + px :=
      add_nonneg (mul_nonneg hp3 hWpos.le) hp1
    have h0q : (0 : ℤ) ≤ qy * (W : ℤ) + qx :=
      add_nonneg (mul_nonneg hq3 hWpos.le) hq1
    unfold flatIdx at h
    omega
  have hpy : py = qy := by
    by_contra hne
    rcases lt_or_gt_of_ne hne with hlt | hgt
    · have hle : (py + 1) * (W : ℤ) ≤ qy * (W : ℤ) :=
        mul_le_mul_of_nonneg_right (by omega) hWpos.le
      nlinarith
    · have hle : (qy + 1) * (W : ℤ) ≤ py * (W : ℤ) :=
        mul_le_mul_of_nonneg_right (by omega) hWpos.le
      nlinarith
  exact ⟨by rw [hpy] at hpe; omega, hpy⟩

theorem flatIdx_lt {W H : ℕ} {px py : ℤ} (hp : inB W H px py) :
    flatIdx W px py < W * H := by
  obtain ⟨hp1, hp2, hp3, hp4⟩ := hp
  have hWpos : (0 : ℤ) < (W : ℤ) := lt_of_le_of_lt hp1 hp2
  have hb : py * (W : ℤ) + px < (W : ℤ) * (H : ℤ) := by
    have hle : (py + 1) * (W : ℤ) ≤ (H : ℤ) * (W : ℤ) :=
      mul_le_mul_of_nonneg_right (by omega) hWpos.le
    nlinarith
  unfold flatIdx
  have h0p : (0 : ℤ) ≤ py * (W : ℤ) + px :=
    add_nonneg (mul_nonneg hp3 hWpos.le) hp1
  omega

theorem boxCells_pairwise_idx (C : Cfg) (r ix iy : ℤ) :
    (boxCells r).Pairwise (fun a b => cellIn C.W C.H ix iy a →
      cellIn C.W C.H ix iy b → cellIdx C.W ix iy a ≠ cellIdx C.W ix iy b) := by
  refine (boxCells_nodup r).imp ?_
  intro a b hab hina hinb hidx
  obtain ⟨h1, h2⟩ := flatIdx_inj hina hinb hidx
  exact hab (Prod.ext (by omega) (by omega))

/-- The pass-1 characterization specialized to `carvePass1`. -/
theorem carvePass1_spec (C : Cfg) (dig : Bool) (r ix iy : ℤ) (g : Grid) :
    (carvePass1 C dig g r ix iy).2 =
        (boxCells r).filterMap (pass1DispAt C dig r ix iy g) ∧
      (∀ c ∈ boxCells r, cellIn C.W C.H ix iy c →
        gridAt (carvePass1 C dig g r ix iy).1 (cellIdx C.W ix iy c) =
          pass1OutAt C dig r ix iy g c) ∧
      (∀ i : ℕ, (∀ c ∈ boxCells r, cellIn C.W C.H ix iy c →
          cellIdx C.W ix iy c ≠ i) →
        gridAt (carvePass1 C dig g r ix iy).1 i = gridAt g i) := by
  have h := pass1_fold_spec C dig r ix iy g (boxCells r) g []
    (fun _ _ _ => rfl) (boxCells_pairwise_idx C r ix iy)
  refine ⟨?_, h.2.1, h.2.2⟩
  unfold carvePass1
  rw [h.1]
  simp

/-! ## C5: digging-mode carving -/

/-- The digging-mode per-cell height update as the specification states it:
skip sentinel and rim targets, hardness 1 + 3 clamp((2 - h)/1.9, 0, 1),
removal (1 - target) blend / hardness, floor clamp at 0.1. -/
def diggingSpecHeight (blend target h : ℝ) : ℝ :=
  if target < 0 then h
  else if target ≥ 1.0 then h
  else
    let hardness := 1.0 + 3.0 * min 1 (max 0 ((2.0 - h) / 1.9))
    max 0.1 (h - (1.0 - target) * blend / hardness)

theorem pass1Cell_dig_skip (C : Cfg) (r : ℤ) (c : ℤ × ℤ) (idx : ℕ)
    (h cR cG cB : ℝ)
    (hskip : tineProfileVal C.depth C.rim r c.1 c.2 < 0 ∨
      tineProfileVal C.depth C.rim r c.1 c.2 ≥ 1.0) :
    pass1Cell C true r c idx h cR cG cB = (h, (cR, cG, cB), none) := by
  unfold pass1Cell
  rcases hskip with hs | hs
  · rw [if_pos hs]
  · by_cases hneg : tineProfileVal C.depth C.rim r c.1 c.2 < 0
    · rw [if_pos hneg]
    · rw [if_neg hneg]
      simp only [eq_self_iff_true, if_true]
      rw [if_pos hs]

theorem pass1Cell_dig_height (C : Cfg) (r : ℤ) (c : ℤ × ℤ) (idx : ℕ)
    (h cR cG cB : ℝ) (hh1 : 0.1 ≤ h) (hh2 : h ≤ 2.0) (hb : 0 ≤ C.blend) :
    (pass1Cell C true r c idx h cR cG cB).1 =
      diggingSpecHeight C.blend (tineProfileVal C.depth C.rim r c.1 c.2) h := by
  unfold pass1Cell diggingSpecHeight
  set target := tineProfileVal C.depth C.rim r c.1 c.2 with htarget
  by_cases hneg : target < 0
  · rw [if_pos hneg, if_pos hneg]
  · rw [if_neg hneg, if_neg hneg]
    simp only [eq_self_iff_true, if_true]
    by_cases hrim : target ≥ 1.0
    · rw [if_pos hrim, if_pos hrim]
    · rw [if_neg hrim, if_neg hrim]
      have hD0 : (0 : ℝ) ≤ (2.0 - h) / 1.9 := by
        apply div_nonneg <;> linarith
      have hD1 : (2.0 - h) / 1.9 ≤ 1 := by
        rw [div_le_one (by norm_num)]
        linarith
      have hclamp : min 1 (max 0 ((2.0 - h) / 1.9)) = (2.0 - h) / 1.9 := by
        rw [max_eq_right hD0, min_eq_right hD1]
      rw [hclamp]
      have hhard : (1.0 : ℝ) + 3.0 * ((2.0 - h) / 1.9) = 1.0 + (2.0 - h) / 1.9 * 3.0 := by
        ring
      rw [hhard]
      set hard := (1.0 : ℝ) + (2.0 - h) / 1.9 * 3.0 with hhardd
      have hhpos : 0 < hard := by
        rw [hhardd]
        nlinarith
      set ra := (1.0 - target) * C.blend / hard with hra
      have hra0 : 0 ≤ ra := by
        rw [hra]
        apply div_nonneg _ hhpos.le
        apply mul_nonneg _ hb
        linarith
      by_cases hlow : h - ra < 0.1
      · rw [if_pos hlow]
        by_cases hgt : h > 0.1
        · rw [if_pos hgt, max_eq_left (by linarith)]
        · rw [if_neg hgt, max_eq_left (by linarith)]
          linarith
      · rw [if_neg hlow]
        by_cases hgt : h > h - ra
        · rw [if_pos hgt, max_eq_right (by linarith)]
        · rw [if_neg hgt, max_eq_right (by linarith)]
          have : ra = 0 := by linarith
          rw [this]
          ring

theorem diggingSpecHeight_le (blend target h : ℝ) (hh1 : 0.1 ≤ h)
    (hb : 0 ≤ blend) : diggingSpecHeight blend target h ≤ h := by
  unfold diggingSpecHeight
  by_cases hneg : target < 0
  · rw [if_pos hneg]
  · rw [if_neg hneg]
    by_cases hrim : target ≥ 1.0
    · rw [if_pos hrim]
    · rw [if_neg hrim]
      dsimp only
      have hc0 : (0 : ℝ) ≤ min 1 (max 0 ((2.0 - h) / 1.9)) :=
        le_min (by norm_num) (le_max_left _ _)
      have hhpos : (0 : ℝ) < 1.0 + 3.0 * min 1 (max 0 ((2.0 - h) / 1.9)) := by
        nlinarith
      have hra0 : 0 ≤ (1.0 - target) * blend /
          (1.0 + 3.0 * min 1 (max 0 ((2.0 - h) / 1.9))) := by
        apply div_nonneg _ hhpos.le
        apply mul_nonneg _ hb
        linarith
      exact max_le (by linarith) (by linarith)

theorem exists_cell_of_lt {W H : ℕ} {i : ℕ} (hi : i < W * H) :
    ∃ px py : ℤ, inB W H px py ∧ flatIdx W px py = i := by
  have hW : 0 < W := by
    rcases Nat.eq_zero_or_pos W with h | h
    · subst h; omega
    · exact h
  refine ⟨(i % W : ℕ), (i / W : ℕ), ?_, ?_⟩
  · refine ⟨by positivity, ?_, by positivity, ?_⟩
    · exact_mod_cast Nat.mod_lt i hW
    · have := (Nat.div_lt_iff_lt_mul hW).2 (by rw [Nat.mul_comm H W]; exact hi)
      exact_mod_cast this
  · unfold flatIdx
    have : ((i / W : ℕ) : ℤ) * (W : ℤ) + ((i % W : ℕ) : ℤ) = (i : ℤ) := by
      push_cast
      have := Nat.div_add_mod i W
      push_cast at this
      linarith
    rw [this]
    exact Int.toNat_natCast i

/-- Dispatcher: the pass-1 result at an arbitrary in-bounds cell, by the
in-box / out-of-box case split. -/
theorem carvePass1_at (C : Cfg) (dig : Bool) (r ix iy : ℤ) (g : Grid)
    (px py : ℤ) (hin : inB C.W C.H px py) :
    gridAt (carvePass1 C dig g r ix iy).1 (flatIdx C.W px py) =
      (if (px - ix, py - iy) ∈ boxCells r then
        pass1OutAt C dig r ix iy g (px - ix, py - iy)
      else gridAt g (flatIdx C.W px py)) := by
  obtain ⟨-, hval, hframe⟩ := carvePass1_spec C dig r ix iy g
  have e1 : ix + (px - ix) = px := by ring
  have e2 : iy + (py - iy) = py := by ring
  by_cases hc : (px - ix, py - iy) ∈ boxCells r
  · rw [if_pos hc]
    have hcin : cellIn C.W C.H ix iy (px - ix, py - iy) := by
      show inB C.W C.H (ix + (px - ix)) (iy + (py - iy))
      rw [e1, e2]
      exact hin
    have hidx : cellIdx C.W ix iy (px - ix, py - iy) = flatIdx C.W px py := by
      show flatIdx C.W (ix + (px - ix)) (iy + (py - iy)) = flatIdx C.W px py
      rw [e1, e2]
    have hv := hval _ hc hcin
    rw [hidx] at hv
    exact hv
  · rw [if_neg hc]
    apply hframe
    intro c' hc' hin' heq
    have hin'2 : inB C.W C.H (ix + c'.1) (iy + c'.2) := hin'
    obtain ⟨ha, hb⟩ := flatIdx_inj hin'2 hin heq
    apply hc
    have hce : c' = (px - ix, py - iy) := Prod.ext (by omega) (by omega)
    rw [← hce]
    exact hc'

theorem tineProfileVal_sentinel {depth rim : ℝ} {r dx dy : ℤ} (hr : 0 ≤ r)
    (h : ¬(-r ≤ dx ∧ dx ≤ r ∧ -r ≤ dy ∧ dy ≤ r)) :
    tineProfileVal depth rim r dx dy = -1 := by
  have hgt : dx * dx + dy * dy > r * r := by
    by_contra hle
    push_neg at hle
    have hdx2 : dx * dx ≤ r * r := by nlinarith [mul_self_nonneg dy]
    have hdy2 : dy * dy ≤ r * r := by nlinarith [mul_self_nonneg dx]
    refine h ⟨?_, ?_, ?_, ?_⟩ <;>
      nlinarith [mul_self_nonneg (dx + r), mul_self_nonneg (dx - r),
        mul_self_nonneg (dy + r), mul_self_nonneg (dy - r)]
  unfold tineProfileVal
  rw [if_pos hgt]

/-- The C5 property of one digging-mode carveTine call: every in-bounds
cell's height follows the spec formula (skip sentinel and rim targets,
depth-progressive hardness with the clamp, removal, 0.1 floor), cells with
sentinel or rim target are left entirely unchanged, and no cell anywhere
gains height (redistribution is skipped). -/
def DiggingCarveSpec (C : Cfg) (g : Grid) (d : DirtyRect)
    (x y radius dirX dirY : ℝ) : Prop :=
  (∀ px py : ℤ, inB C.W C.H px py →
    (carveTine C true (g, d) x y radius dirX dirY).1.sandHeight (flatIdx C.W px py) =
      diggingSpecHeight C.blend
        (tineProfileVal C.depth C.rim ⌊radius⌋ (px - jsRound x) (py - jsRound y))
        (g.sandHeight (flatIdx C.W px py))) ∧
  (∀ px py : ℤ, inB C.W C.H px py →
    (tineProfileVal C.depth C.rim ⌊radius⌋ (px - jsRound x) (py - jsRound y) < 0 ∨
      tineProfileVal C.depth C.rim ⌊radius⌋ (px - jsRound x) (py - jsRound y) ≥ 1.0) →
    gridAt (carveTine C true (g, d) x y radius dirX dirY).1 (flatIdx C.W px py) =
      gridAt g (flatIdx C.W px py)) ∧
  (∀ i, i < C.W * C.H →
    (carveTine C true (g, d) x y radius dirX dirY).1.sandHeight i ≤ g.sandHeight i)

/-- C5: while Digging mode is active, carveTine acts on each in-bounds
cell with a non-sentinel profile target as the specification states
(targets at or above 1.0 skipped entirely, hardness
1 + 3 clamp((2 - h)/1.9, 0, 1), removeAmount (1 - target) blend/hardness,
new height max(0.1, h - removeAmount)), and redistribution is skipped so
no cell on the grid gains height. -/
theorem C5_digging_carve (C : Cfg) (g : Grid) (d : DirtyRect)
    (x y radius dirX dirY : ℝ) (hr : 1 ≤ ⌊radius⌋)
    (hv : ∀ i, i < C.W * C.H → 0.1 ≤ g.sandHeight i ∧ g.sandHeight i ≤ 2.0)
    (hb : 0 ≤ C.blend) :
    DiggingCarveSpec C g d x y radius dirX dirY := by
  have hcg : (carveTine C true (g, d) x y radius dirX dirY).1 =
      (carvePass1 C true g ⌊radius⌋ (jsRound x) (jsRound y)).1 := rfl
  have hA : ∀ px py : ℤ, inB C.W C.H px py →
      (carveTine C true (g, d) x y radius dirX dirY).1.sandHeight (flatIdx C.W px py) =
        diggingSpecHeight C.blend
          (tineProfileVal C.depth C.rim ⌊radius⌋ (px - jsRound x) (py - jsRound y))
          (g.sandHeight (flatIdx C.W px py)) := by
    intro px py hin
    have hkey := carvePass1_at C true ⌊radius⌋ (jsRound x) (jsRound y) g px py hin
    have hidxlt := flatIdx_lt hin
    by_cases hc : (px - jsRound x, py - jsRound y) ∈ boxCells ⌊radius⌋
    · rw [if_pos hc] at hkey
      have hh := congrArg Prod.fst hkey
      rw [hcg]
      refine hh.trans ?_
      unfold pass1OutAt pass1CellAt
      dsimp only
      have hidx : cellIdx C.W (jsRound x) (jsRound y) (px - jsRound x, py - jsRound y) =
          flatIdx C.W px py := by
        show flatIdx C.W (jsRound x + (px - jsRound x)) (jsRound y + (py - jsRound y)) =
          flatIdx C.W px py
        congr 1 <;> ring
      rw [hidx]
      exact pass1Cell_dig_height C ⌊radius⌋ _ _ _ _ _ _
        (hv _ hidxlt).1 (hv _ hidxlt).2 hb
    · rw [if_neg hc] at hkey
      have hh := congrArg Prod.fst hkey
      rw [hcg]
      refine hh.trans ?_
      have hsent : tineProfileVal C.depth C.rim ⌊radius⌋ (px - jsRound x)
          (py - jsRound y) = -1 := by
        apply tineProfileVal_sentinel (by omega)
        intro hbnd
        exact hc (mem_boxCells.2 hbnd)
      rw [hsent]
      unfold diggingSpecHeight
      rw [if_pos (by norm_num)]
      rfl
  refine ⟨hA, ?_, ?_⟩
  · intro px py hin hskip
    have hkey := carvePass1_at C true ⌊radius⌋ (jsRound x) (jsRound y) g px py hin
    rw [hcg]
    by_cases hc : (px - jsRound x, py - jsRound y) ∈ boxCells ⌊radius⌋
    · rw [if_pos hc] at hkey
      refine hkey.trans ?_
      unfold pass1OutAt pass1CellAt
      have hidx : cellIdx C.W (jsRound x) (jsRound y) (px - jsRound x, py - jsRound y) =
          flatIdx C.W px py := by
        show flatIdx C.W (jsRound x + (px - jsRound x)) (jsRound y + (py - jsRound y)) =
          flatIdx C.W px py
        congr 1 <;> ring
      rw [hidx, pass1Cell_dig_skip C ⌊radius⌋ _ _ _ _ _ _ hskip]
      rfl
    · rw [if_neg hc] at hkey
      exact hkey
  · intro i hi
    obtain ⟨px, py, hin, hfe⟩ := exists_cell_of_lt hi
    rw [← hfe]
    rw [hA px py hin]
    exact diggingSpecHeight_le _ _ _ (by rw [hfe]; exact (hv _ hi).1) hb

theorem C5_digging_carve_witness :
    (1 ≤ ⌊(1 : ℝ)⌋) ∧
      (∀ i, i < 1 * 1 →
        (0.1 : ℝ) ≤ (fun _ : ℕ => (2 : ℝ)) i ∧ (fun _ : ℕ => (2 : ℝ)) i ≤ 2.0) ∧
      DiggingCarveSpec ⟨1, 1, 0.3, 0.1, 1, 1.2, 0.8, 1, 1, 1, false, false, false, false, 0⟩
        ⟨fun _ => 2, fun _ => 210, fun _ => 190, fun _ => 160⟩
        ⟨0, 0, 0, 0, true⟩ 0 0 1 0 0 :=
  ⟨by norm_num, fun i _ => by norm_num,
   C5_digging_carve ⟨1, 1, 0.3, 0.1, 1, 1.2, 0.8, 1, 1, 1, false, false, false, false, 0⟩
      ⟨fun _ => 2, fun _ => 210, fun _ => 190, fun _ => 160⟩
      ⟨0, 0, 0, 0, true⟩ 0 0 1 0 0 (by norm_num)
      (fun i _ => by norm_num) (by norm_num)⟩

/-! ## Pass-2 pointwise characterization -/

/-- A clamped deposit of amount a on height h: the net effect of pass-2
writes at one cell (`min (h + a) 1.5`, with no write at all when the cell
receives nothing). -/
def applyD (h a : ℝ) : ℝ := if 0 < a then min (h + a) 1.5 else h

theorem applyD_applyD {h a b : ℝ} (ha : 0 ≤ a) (hb : 0 ≤ b) :
    applyD (applyD h a) b = applyD h (a + b) := by
  unfold applyD
  rcases eq_or_lt_of_le ha with ha0 | hap
  · rw [← ha0, if_neg (lt_irrefl 0), zero_add]
  · rcases eq_or_lt_of_le hb with hb0 | hbp
    · rw [← hb0, if_neg (lt_irrefl 0)]
      norm_num
    · rw [if_pos hap, if_pos hbp, if_pos (by linarith : (0 : ℝ) < a + b)]
      rcases le_or_lt (h + a) 1.5 with hc | hc
      · rw [min_eq_left hc, min_def, min_def]
        split_ifs <;> linarith
      · rw [min_eq_right hc.le, min_eq_right (by linarith), min_eq_right (by linarith)]

theorem applyD_le (h a : ℝ) (ha : 0 ≤ a) : applyD h a ≤ h + a := by
  unfold applyD
  split_ifs with hp
  · exact min_le_left _ _
  · linarith

theorem le_applyD (h a : ℝ) (hh : h ≤ 1.5) : h ≤ applyD h a := by
  unfold applyD
  split_ifs with hp
  · exact le_min (by linarith) hh
  · exact le_refl h

theorem applyD_le_clamp (h a : ℝ) (hh : h ≤ 1.5) : applyD h a ≤ 1.5 := by
  unfold applyD
  split_ifs with hp
  · exact min_le_right _ _
  · exact hh

/-- The amount one kernel entry of one deposit adds to one cell. -/
def entryContrib (C : Cfg) (cx cy : ℤ) (invClipped amount : ℝ)
    (k : ℤ × ℤ × ℝ) (i : ℕ) : ℝ :=
  if inB C.W C.H (cx + k.1) (cy + k.2.1) ∧ flatIdx C.W (cx + k.1) (cy + k.2.1) = i then
    amount * (k.2.2 * invClipped)
  else 0

theorem entryContrib_nonneg (C : Cfg) (cx cy : ℤ) {invClipped amount : ℝ}
    (k : ℤ × ℤ × ℝ) (i : ℕ) (h : 0 ≤ amount * (k.2.2 * invClipped)) :
    0 ≤ entryContrib C cx cy invClipped amount k i := by
  unfold entryContrib
  split_ifs with hc
  · exact h
  · exact le_refl 0

theorem depositEntryStep_height (C : Cfg) (sR sG sB : ℝ) (cx cy : ℤ)
    {invClipped amount : ℝ} (g : Grid) (k : ℤ × ℤ × ℝ)
    (hpos : 0 < amount * (k.2.2 * invClipped)) (i : ℕ) :
    (depositEntryStep C sR sG sB cx cy invClipped amount g k).sandHeight i =
      applyD (g.sandHeight i) (entryContrib C cx cy invClipped amount k i) := by
  by_cases hb : inB C.W C.H (cx + k.1) (cy + k.2.1)
  · by_cases hi : flatIdx C.W (cx + k.1) (cy + k.2.1) = i
    · have hRHS : entryContrib C cx cy invClipped amount k i =
          amount * (k.2.2 * invClipped) := by
        unfold entryContrib
        rw [if_pos ⟨hb, hi⟩]
      rw [hRHS]
      unfold applyD
      rw [if_pos hpos]
      unfold depositEntryStep
      rw [if_neg (not_not.2 hb)]
      dsimp only
      rw [← hi]
      split_ifs with hcol <;> simp only [Function.update_same]
    · have hRHS : entryContrib C cx cy invClipped amount k i = 0 := by
        unfold entryContrib
        rw [if_neg (fun hh => hi hh.2)]
      rw [hRHS]
      unfold applyD
      rw [if_neg (lt_irrefl 0)]
      unfold depositEntryStep
      rw [if_neg (not_not.2 hb)]
      dsimp only
      split_ifs with hcol <;>
        simp only [Function.update_noteq (fun hh : i = _ => hi hh.symm)]
  · have hRHS : entryContrib C cx cy invClipped amount k i = 0 := by
      unfold entryContrib
      rw [if_neg (fun hh => hb hh.1)]
    rw [hRHS]
    unfold applyD depositEntryStep
    rw [if_neg (lt_irrefl 0), if_pos hb]

theorem depositEntryStep_frame (C : Cfg) (sR sG sB : ℝ) (cx cy : ℤ)
    (invClipped amount : ℝ) (g : Grid) (k : ℤ × ℤ × ℝ) (i : ℕ)
    (hi : ¬(inB C.W C.H (cx + k.1) (cy + k.2.1) ∧
      flatIdx C.W (cx + k.1) (cy + k.2.1) = i)) :
    gridAt (depositEntryStep C sR sG sB cx cy invClipped amount g k) i = gridAt g i := by
  unfold depositEntryStep
  by_cases hb : inB C.W C.H (cx + k.1) (cy + k.2.1)
  · rw [if_neg (not_not.2 hb)]
    have hne : i ≠ flatIdx C.W (cx + k.1) (cy + k.2.1) :=
      fun hh => hi ⟨hb, hh.symm⟩
    unfold gridAt
    dsimp only
    split_ifs with hcol <;> simp only [Function.update_noteq hne]
  · rw [if_pos hb]

/-- Total contribution of one kernel application at one deposit center to
one cell. -/
def kernelContrib (C : Cfg) (cx cy : ℤ) (invClipped amount : ℝ)
    (kernel : List (ℤ × ℤ × ℝ)) (i : ℕ) : ℝ :=
  (kernel.map (fun k => entryContrib C cx cy invClipped amount k i)).sum

theorem kernelContrib_nonneg (C : Cfg) (cx cy : ℤ) {invClipped amount : ℝ}
    (kernel : List (ℤ × ℤ × ℝ)) (i : ℕ)
    (hpos : ∀ k ∈ kernel, 0 ≤ amount * (k.2.2 * invClipped)) :
    0 ≤ kernelContrib C cx cy invClipped amount kernel i := by
  apply List.sum_nonneg
  intro x hx
  obtain ⟨k, hk, rfl⟩ := List.mem_map.1 hx
  exact entryContrib_nonneg C cx cy k i (hpos k hk)

theorem foldl_depositEntryStep_height (C : Cfg) (sR sG sB : ℝ) (cx cy : ℤ)
    {invClipped amount : ℝ} (kernel : List (ℤ × ℤ × ℝ))
    (hpos : ∀ k ∈ kernel, 0 < amount * (k.2.2 * invClipped)) :
    ∀ (g : Grid) (i : ℕ),
      (kernel.foldl (depositEntryStep C sR sG sB cx cy invClipped amount) g).sandHeight i =
        applyD (g.sandHeight i) (kernelContrib C cx cy invClipped amount kernel i) := by
  induction kernel with
  | nil =>
      intro g i
      unfold kernelContrib applyD
      simp
  | cons k ks ih =>
      intro g i
      rw [List.foldl_cons,
        ih (fun k' hk' => hpos k' (List.mem_cons_of_mem k hk')) _ i,
        depositEntryStep_height C sR sG sB cx cy g k (hpos k (List.mem_cons_self k ks)) i,
        applyD_applyD
          (entryContrib_nonneg C cx cy k i (hpos k (List.mem_cons_self k ks)).le)
          (kernelContrib_nonneg C cx cy ks i
            (fun k' hk' => (hpos k' (List.mem_cons_of_mem k hk')).le))]
      unfold kernelContrib
      rw [List.map_cons, List.sum_cons]

theorem foldl_depositEntryStep_frame (C : Cfg) (sR sG sB : ℝ) (cx cy : ℤ)
    (invClipped amount : ℝ) (kernel : List (ℤ × ℤ × ℝ)) :
    ∀ (g : Grid) (i : ℕ),
      (∀ k ∈ kernel, ¬(inB C.W C.H (cx + k.1) (cy + k.2.1) ∧
        flatIdx C.W (cx + k.1) (cy + k.2.1) = i)) →
      gridAt (kernel.foldl (depositEntryStep C sR sG sB cx cy invClipped amount) g) i =
        gridAt g i := by
  induction kernel with
  | nil => intro g i _; rfl
  | cons k ks ih =>
      intro g i hk
      rw [List.foldl_cons,
        ih _ i (fun k' hk' => hk k' (List.mem_cons_of_mem k hk')),
        depositEntryStep_frame C sR sG sB cx cy invClipped amount g k i
          (hk k (List.mem_cons_self k ks))]

/-- Total contribution of one deposit center (with its interior /
renormalize / skip handling) to one cell. -/
def centerContrib (C : Cfg) (kernel : List (ℤ × ℤ × ℝ)) (c : ℤ × ℤ × ℝ)
    (i : ℕ) : ℝ :=
  if (C.spread : ℤ) ≤ c.1 ∧ c.1 ≤ (C.W : ℤ) - 1 - C.spread ∧
      (C.spread : ℤ) ≤ c.2.1 ∧ c.2.1 ≤ (C.H : ℤ) - 1 - C.spread then
    kernelContrib C c.1 c.2.1 1.0 c.2.2 kernel i
  else if clippedTotal C kernel c.1 c.2.1 < 0.001 then 0
  else kernelContrib C c.1 c.2.1 (1 / clippedTotal C kernel c.1 c.2.1) c.2.2 kernel i

theorem centerContrib_nonneg (C : Cfg) (kernel : List (ℤ × ℤ × ℝ))
    (c : ℤ × ℤ × ℝ) (i : ℕ) (hk : ∀ k ∈ kernel, 0 < k.2.2) (hamt : 0 ≤ c.2.2) :
    0 ≤ centerContrib C kernel c i := by
  unfold centerContrib
  split_ifs with hint hskip
  · exact kernelContrib_nonneg C c.1 c.2.1 kernel i
      (fun k hk' => mul_nonneg hamt (mul_nonneg (hk k hk').le (by norm_num)))
  · exact le_refl 0
  · push_neg at hskip
    have hct : (0 : ℝ) < clippedTotal C kernel c.1 c.2.1 := by
      calc (0 : ℝ) < 0.001 := by norm_num
        _ ≤ _ := hskip
    exact kernelContrib_nonneg C c.1 c.2.1 kernel i
      (fun k hk' => by
        have h1 := hk k hk'
        have h2 : (0 : ℝ) < 1 / clippedTotal C kernel c.1 c.2.1 := by positivity
        exact mul_nonneg hamt (mul_nonneg h1.le h2.le))

theorem depositAt_height (C : Cfg) (kernel : List (ℤ × ℤ × ℝ)) (sR sG sB : ℝ)
    (gd : Grid × DirtyRect) (c : ℤ × ℤ × ℝ)
    (hk : ∀ k ∈ kernel, 0 < k.2.2) (hamt : 0 < c.2.2) (i : ℕ) :
    (depositAt C kernel sR sG sB gd c).1.sandHeight i =
      applyD (gd.1.sandHeight i) (centerContrib C kernel c i) := by
  unfold depositAt centerContrib
  dsimp only
  split_ifs with hint hskip
  · exact foldl_depositEntryStep_height C sR sG sB c.1 c.2.1 kernel
      (fun k hk' => mul_pos hamt (mul_pos (hk k hk') (by norm_num))) gd.1 i
  · rw [applyD]
    rw [if_neg (lt_irrefl 0)]
  · push_neg at hskip
    have hct : (0 : ℝ) < clippedTotal C kernel c.1 c.2.1 := by
      calc (0 : ℝ) < 0.001 := by norm_num
        _ ≤ _ := hskip
    exact foldl_depositEntryStep_height C sR sG sB c.1 c.2.1 kernel
      (fun k hk' => mul_pos hamt (mul_pos (hk k hk')
        (by positivity : (0 : ℝ) < 1 / clippedTotal C kernel c.1 c.2.1))) gd.1 i

theorem depositAt_frame (C : Cfg) (kernel : List (ℤ × ℤ × ℝ)) (sR sG sB : ℝ)
    (gd : Grid × DirtyRect) (c : ℤ × ℤ × ℝ) (i : ℕ)
    (hi : ∀ k ∈ kernel, ¬(inB C.W C.H (c.1 + k.1) (c.2.1 + k.2.1) ∧
      flatIdx C.W (c.1 + k.1) (c.2.1 + k.2.1) = i)) :
    gridAt (depositAt C kernel sR sG sB gd c).1 i = gridAt gd.1 i := by
  unfold depositAt
  dsimp only
  split_ifs with hint hskip
  · exact foldl_depositEntryStep_frame C sR sG sB c.1 c.2.1 1.0 c.2.2 kernel gd.1 i hi
  · rfl
  · exact foldl_depositEntryStep_frame C sR sG sB c.1 c.2.1 _ c.2.2 kernel gd.1 i hi

/-- Total contribution of one recorded displacement (all three deposit
centers) to one cell. -/
def dispContrib (C : Cfg) (kernel : List (ℤ × ℤ × ℝ)) (nd perp : ℝ × ℝ)
    (fwdDist sideDist : ℝ) (d : Disp) (i : ℕ) : ℝ :=
  ((depositCenters C.W nd perp fwdDist sideDist d).map
    (fun c => centerContrib C kernel c i)).sum

/-- Total pass-2 contribution of a displacement list to one cell. -/
def pass2Contrib (C : Cfg) (kernel : List (ℤ × ℤ × ℝ)) (nd perp : ℝ × ℝ)
    (fwdDist sideDist : ℝ) (disps : List Disp) (i : ℕ) : ℝ :=
  (disps.map (fun d => dispContrib C kernel nd perp fwdDist sideDist d i)).sum

theorem depositCenters_amount_pos (W : ℕ) (nd perp : ℝ × ℝ)
    (fwdDist sideDist : ℝ) {d : Disp} (hd : 0 < d.amount) :
    ∀ c ∈ depositCenters W nd perp fwdDist sideDist d, 0 < c.2.2 := by
  intro c hc
  unfold depositCenters at hc
  dsimp only at hc
  rcases List.mem_cons.1 hc with rfl | hc
  · dsimp only; nlinarith
  rcases List.mem_cons.1 hc with rfl | hc
  · dsimp only; nlinarith
  rcases List.mem_cons.1 hc with rfl | hc
  · dsimp only; nlinarith
  cases hc

theorem dispContrib_nonneg (C : Cfg) (kernel : List (ℤ × ℤ × ℝ))
    (nd perp : ℝ × ℝ) (fwdDist sideDist : ℝ) {d : Disp} (i : ℕ)
    (hk : ∀ k ∈ kernel, 0 < k.2.2) (hd : 0 < d.amount) :
    0 ≤ dispContrib C kernel nd perp fwdDist sideDist d i := by
  apply List.sum_nonneg
  intro x hx
  obtain ⟨c, hc, rfl⟩ := List.mem_map.1 hx
  exact centerContrib_nonneg C kernel c i hk
    (depositCenters_amount_pos C.W nd perp fwdDist sideDist hd c hc).le

theorem pass2Step_height (C : Cfg) (kernel : List (ℤ × ℤ × ℝ)) (nd perp : ℝ × ℝ)
    (fwdDist sideDist : ℝ) (gd : Grid × DirtyRect) (d : Disp)
    (hk : ∀ k ∈ kernel, 0 < k.2.2) (hd : 0 < d.amount) (i : ℕ) :
    (pass2Step C kernel nd perp fwdDist sideDist gd d).1.sandHeight i =
      applyD (gd.1.sandHeight i) (dispContrib C kernel nd perp fwdDist sideDist d i) := by
  unfold pass2Step dispContrib
  have hgen : ∀ (centers : List (ℤ × ℤ × ℝ)), (∀ c ∈ centers, 0 < c.2.2) →
      ∀ (gd : Grid × DirtyRect),
      (centers.foldl (depositAt C kernel d.sR d.sG d.sB) gd).1.sandHeight i =
        applyD (gd.1.sandHeight i)
          ((centers.map (fun c => centerContrib C kernel c i)).sum) := by
    intro centers
    induction centers with
    | nil =>
        intro _ gd
        unfold applyD
        rw [List.map_nil, List.sum_nil, if_neg (lt_irrefl 0)]
        rfl
    | cons c cs ih =>
        intro hcs gd
        rw [List.foldl_cons, ih (fun c' hc' => hcs c' (List.mem_cons_of_mem c hc')) _,
          depositAt_height C kernel d.sR d.sG d.sB gd c hk
            (hcs c (List.mem_cons_self c cs)) i,
          applyD_applyD
            (centerContrib_nonneg C kernel c i hk (hcs c (List.mem_cons_self c cs)).le)
            (List.sum_nonneg (fun x hx => by
              obtain ⟨c', hc', rfl⟩ := List.mem_map.1 hx
              exact centerContrib_nonneg C kernel c' i hk
                (hcs c' (List.mem_cons_of_mem c hc')).le)),
          List.map_cons, List.sum_cons]
  exact hgen _ (depositCenters_amount_pos C.W nd perp fwdDist sideDist hd) gd

theorem foldl_pass2Step_height (C : Cfg) (kernel : List (ℤ × ℤ × ℝ))
    (nd perp : ℝ × ℝ) (fwdDist sideDist : ℝ) (disps : List Disp)
    (hk : ∀ k ∈ kernel, 0 < k.2.2) (hd : ∀ d ∈ disps, 0 < d.amount) :
    ∀ (gd : Grid × DirtyRect) (i : ℕ),
      (disps.foldl (pass2Step C kernel nd perp fwdDist sideDist) gd).1.sandHeight i =
        applyD (gd.1.sandHeight i)
          (pass2Contrib C kernel nd perp fwdDist sideDist disps i) := by
  induction disps with
  | nil =>
      intro gd i
      unfold pass2Contrib applyD
      rw [List.map_nil, List.sum_nil, if_neg (lt_irrefl 0)]
      rfl
  | cons d ds ih =>
      intro gd i
      rw [List.foldl_cons, ih (fun d' hd' => hd d' (List.mem_cons_of_mem d hd')) _ i,
        pass2Step_height C kernel nd perp fwdDist sideDist gd d hk
          (hd d (List.mem_cons_self d ds)) i]
      unfold pass2Contrib
      rw [applyD_applyD
          (dispContrib_nonneg C kernel nd perp fwdDist sideDist i hk
            (hd d (List.mem_cons_self d ds)))
          (List.sum_nonneg (fun x hx => by
            obtain ⟨d', hd', rfl⟩ := List.mem_map.1 hx
            exact dispContrib_nonneg C kernel nd perp fwdDist sideDist i hk
              (hd d' (List.mem_cons_of_mem d hd')))),
        List.map_cons, List.sum_cons]

theorem pass1Cell_disp_amount (C : Cfg) (dig : Bool) (r : ℤ) (c : ℤ × ℤ)
    (idx : ℕ) (h cR cG cB : ℝ) {dsp : Disp}
    (hd : (pass1Cell C dig r c idx h cR cG cB).2.2 = some dsp) :
    0 < dsp.amount ∧ dsp.idx = idx := by
  unfold pass1Cell at hd
  dsimp only at hd
  split_ifs at hd
  all_goals cases hd
  any_goals exact ⟨by dsimp only; linarith, rfl⟩

theorem carvePass1_disp_amount (C : Cfg) (dig : Bool) (g : Grid) (r ix iy : ℤ) :
    ∀ d ∈ (carvePass1 C dig g r ix iy).2, 0 < d.amount := by
  intro d hd
  rw [(carvePass1_spec C dig r ix iy g).1] at hd
  obtain ⟨c, -, hc⟩ := List.mem_filterMap.1 hd
  unfold pass1DispAt at hc
  split_ifs at hc
  exact (pass1Cell_disp_amount C dig r c _ _ _ _ _ hc).1

/-- Height of the full normal-mode carveTine result at one cell: the
pass-1 height with the clamped pass-2 deposit total on top. -/
theorem carveTine_normal_height (C : Cfg) (g : Grid) (d : DirtyRect)
    (x y radius dirX dirY : ℝ) (i : ℕ) :
    (carveTine C false (g, d) x y radius dirX dirY).1.sandHeight i =
      applyD ((carvePass1 C false g ⌊radius⌋ (jsRound x) (jsRound y)).1.sandHeight i)
        (pass2Contrib C (rebuildGaussKernel C.spread) (normalizeDir dirX dirY)
          (-(normalizeDir dirX dirY).2, (normalizeDir dirX dirY).1)
          ((⌊radius⌋ : ℝ) * C.fwdD) ((⌊radius⌋ : ℝ) * C.sideD)
          (carvePass1 C false g ⌊radius⌋ (jsRound x) (jsRound y)).2 i) := by
  have hk : ∀ k ∈ rebuildGaussKernel C.spread, 0 < k.2.2 := fun k hk => kernel_w_pos hk
  have hd := carvePass1_disp_amount C false g ⌊radius⌋ (jsRound x) (jsRound y)
  exact foldl_pass2Step_height C (rebuildGaussKernel C.spread) _ _ _ _ _ hk hd _ i

/-! ## C2: mass bound -/

theorem pass1Cell_height_le (C : Cfg) (dig : Bool) (r : ℤ) (c : ℤ × ℤ)
    (idx : ℕ) (h cR cG cB : ℝ) :
    (pass1Cell C dig r c idx h cR cG cB).1 ≤ h := by
  unfold pass1Cell
  dsimp only
  split_ifs <;> (try dsimp only) <;> linarith

theorem pass1Cell_amount_eq (C : Cfg) (dig : Bool) (r : ℤ) (c : ℤ × ℤ)
    (idx : ℕ) (h cR cG cB : ℝ) :
    (pass1Cell C dig r c idx h cR cG cB).1 +
      ((pass1Cell C dig r c idx h cR cG cB).2.2).elim 0 (fun dsp => dsp.amount) = h := by
  unfold pass1Cell
  dsimp only
  split_ifs <;> dsimp only [Option.elim] <;> ring

theorem sum_sub_update (N : ℕ) (f h : ℕ → ℝ) {idx : ℕ} (hidx : idx < N) (v : ℝ) :
    (∑ i ∈ Finset.range N, (f i - Function.update h idx v i)) =
      (∑ i ∈ Finset.range N, (f i - h i)) + (h idx - v) := by
  have hsplit : ∀ i : ℕ, f i - Function.update h idx v i =
      (f i - h i) + (if i = idx then h idx - v else 0) := by
    intro i
    by_cases hi : i = idx
    · subst hi
      rw [Function.update_same, if_pos rfl]
      ring
    · rw [Function.update_noteq hi, if_neg hi]
      ring
  calc (∑ i ∈ Finset.range N, (f i - Function.update h idx v i))
      = ∑ i ∈ Finset.range N, ((f i - h i) + (if i = idx then h idx - v else 0)) :=
        Finset.sum_congr rfl (fun i _ => hsplit i)
    _ = (∑ i ∈ Finset.range N, (f i - h i)) +
          ∑ i ∈ Finset.range N, (if i = idx then h idx - v else 0) :=
        Finset.sum_add_distrib
    _ = (∑ i ∈ Finset.range N, (f i - h i)) + (h idx - v) := by
        rw [Finset.sum_ite_eq' (Finset.range N) idx (fun _ => h idx - v),
          if_pos (Finset.mem_range.2 hidx)]

theorem pass1_fold_mass (C : Cfg) (dig : Bool) (r ix iy : ℤ) (g : Grid) :
    ∀ (cells : List (ℤ × ℤ)) (g0 : Grid) (L : List Disp),
      (∑ i ∈ Finset.range (C.W * C.H), (g.sandHeight i - g0.sandHeight i)) =
          (L.map (fun dsp => dsp.amount)).sum →
      (∑ i ∈ Finset.range (C.W * C.H),
          (g.sandHeight i -
            (cells.foldl (pass1Step C dig r ix iy) (g0, L)).1.sandHeight i)) =
        (((cells.foldl (pass1Step C dig r ix iy) (g0, L)).2).map
          (fun dsp => dsp.amount)).sum := by
  intro cells
  induction cells with
  | nil => intro g0 L hinv; exact hinv
  | cons c cs ih =>
      intro g0 L hinv
      rw [List.foldl_cons, pass1Step_eq]
      by_cases hc : cellIn C.W C.H ix iy c
      · rw [if_pos hc]
        apply ih
        dsimp only
        set idxc := cellIdx C.W ix iy c with hidxc
        set pc := pass1Cell C dig r c idxc (g0.sandHeight idxc) (g0.sandR idxc)
          (g0.sandG idxc) (g0.sandB idxc) with hpc
        have hlt : idxc < C.W * C.H := flatIdx_lt hc
        rw [sum_sub_update (C.W * C.H) g.sandHeight g0.sandHeight hlt pc.1, hinv,
          List.map_append, List.sum_append]
        have hamt := pass1Cell_amount_eq C dig r c idxc (g0.sandHeight idxc)
          (g0.sandR idxc) (g0.sandG idxc) (g0.sandB idxc)
        rw [← hpc] at hamt
        have : ((pc.2.2.toList).map (fun dsp => dsp.amount)).sum =
            (pc.2.2).elim 0 (fun dsp => dsp.amount) := by
          cases pc.2.2 with
          | none => rfl
          | some dsp => simp
        rw [this]
        linarith
      · rw [if_neg hc]
        exact ih g0 L hinv

theorem cellIdx_sub (W : ℕ) (ix iy px py : ℤ) :
    cellIdx W ix iy (px - ix, py - iy) = flatIdx W px py := by
  show flatIdx W (ix + (px - ix)) (iy + (py - iy)) = flatIdx W px py
  congr 1 <;> ring

theorem pass1OutAt_height_le (C : Cfg) (dig : Bool) (r ix iy : ℤ) (g : Grid)
    (c : ℤ × ℤ) :
    (pass1OutAt C dig r ix iy g c).1 ≤ g.sandHeight (cellIdx C.W ix iy c) :=
  pass1Cell_height_le C dig r c (cellIdx C.W ix iy c)
    (g.sandHeight (cellIdx C.W ix iy c)) (g.sandR (cellIdx C.W ix iy c))
    (g.sandG (cellIdx C.W ix iy c)) (g.sandB (cellIdx C.W ix iy c))

theorem carvePass1_height_le (C : Cfg) (dig : Bool) (g : Grid) (r ix iy : ℤ)
    (i : ℕ) (hi : i < C.W * C.H) :
    (carvePass1 C dig g r ix iy).1.sandHeight i ≤ g.sandHeight i := by
  obtain ⟨px, py, hin, rfl⟩ := exists_cell_of_lt hi
  have hkey := carvePass1_at C dig r ix iy g px py hin
  have hh := congrArg Prod.fst hkey
  by_cases hc : (px - ix, py - iy) ∈ boxCells r
  · rw [if_pos hc] at hh
    refine le_of_eq_of_le hh ?_
    have := pass1OutAt_height_le C dig r ix iy g (px - ix, py - iy)
    rw [cellIdx_sub] at this
    exact this
  · rw [if_neg hc] at hh
    exact le_of_eq hh

theorem carvePass1_mass (C : Cfg) (dig : Bool) (g : Grid) (r ix iy : ℤ) :
    (∑ i ∈ Finset.range (C.W * C.H),
        (g.sandHeight i - (carvePass1 C dig g r ix iy).1.sandHeight i)) =
      (((carvePass1 C dig g r ix iy).2).map (fun dsp => dsp.amount)).sum := by
  exact pass1_fold_mass C dig r ix iy g (boxCells r) g [] (by simp)

theorem sum_range_list_sum {α : Type} (N : ℕ) (l : List α) (f : α → ℕ → ℝ) :
    (∑ i ∈ Finset.range N, (l.map (fun k => f k i)).sum) =
      (l.map (fun k => ∑ i ∈ Finset.range N, f k i)).sum := by
  induction l with
  | nil => simp
  | cons k ks ih =>
      simp only [List.map_cons, List.sum_cons]
      rw [Finset.sum_add_distrib, ih]

theorem entryContrib_cell_sum (C : Cfg) (cx cy : ℤ) (invClipped amount : ℝ)
    (k : ℤ × ℤ × ℝ) :
    (∑ i ∈ Finset.range (C.W * C.H), entryContrib C cx cy invClipped amount k i) =
      if inB C.W C.H (cx + k.1) (cy + k.2.1) then amount * (k.2.2 * invClipped)
      else 0 := by
  by_cases hb : inB C.W C.H (cx + k.1) (cy + k.2.1)
  · rw [if_pos hb]
    rw [Finset.sum_eq_single (flatIdx C.W (cx + k.1) (cy + k.2.1))]
    · unfold entryContrib
      rw [if_pos ⟨hb, rfl⟩]
    · intro i _ hne
      unfold entryContrib
      rw [if_neg (fun hh => hne hh.2.symm)]
    · intro habs
      exact absurd (Finset.mem_range.2 (flatIdx_lt hb)) habs
  · rw [if_neg hb]
    apply Finset.sum_eq_zero
    intro i _
    unfold entryContrib
    rw [if_neg (fun hh => hb hh.1)]

theorem clipped_weighted_sum (C : Cfg) (cx cy : ℤ) (inv amt : ℝ) :
    ∀ kernel : List (ℤ × ℤ × ℝ),
      (kernel.map (fun k => if inB C.W C.H (cx + k.1) (cy + k.2.1)
        then amt * (k.2.2 * inv) else 0)).sum =
      amt * inv * clippedTotal C kernel cx cy := by
  intro kernel
  induction kernel with
  | nil =>
      unfold clippedTotal
      simp
  | cons k ks ih =>
      unfold clippedTotal at *
      rw [List.map_cons, List.sum_cons, ih]
      by_cases hb : inB C.W C.H (cx + k.1) (cy + k.2.1)
      · rw [if_pos hb, List.filter_cons_of_pos (by simpa using hb), List.map_cons,
          List.sum_cons]
        ring
      · rw [if_neg hb, List.filter_cons_of_neg (by simpa using hb)]
        ring

theorem centerContrib_cell_sum_le (C : Cfg) (kernel : List (ℤ × ℤ × ℝ))
    (c : ℤ × ℤ × ℝ) (hk : ∀ k ∈ kernel, 0 < k.2.2)
    (hksum : (kernel.map (fun k => k.2.2)).sum = 1) (hamt : 0 ≤ c.2.2) :
    (∑ i ∈ Finset.range (C.W * C.H), centerContrib C kernel c i) ≤ c.2.2 := by
  unfold centerContrib
  split_ifs with hint hskip
  · unfold kernelContrib
    rw [sum_range_list_sum]
    calc (kernel.map (fun k => ∑ i ∈ Finset.range (C.W * C.H),
          entryContrib C c.1 c.2.1 1.0 c.2.2 k i)).sum
        ≤ (kernel.map (fun k => c.2.2 * (k.2.2 * 1.0))).sum := by
          apply List.sum_le_sum
          intro k hkm
          rw [entryContrib_cell_sum]
          split_ifs
          · exact le_refl _
          · exact mul_nonneg hamt (mul_nonneg (hk k hkm).le (by norm_num))
      _ = c.2.2 * (kernel.map (fun k => k.2.2 * 1.0)).sum :=
          List.sum_map_mul_left kernel (fun k => k.2.2 * 1.0) c.2.2
      _ = c.2.2 := by
          have : (kernel.map (fun k : ℤ × ℤ × ℝ => k.2.2 * 1.0)) =
              kernel.map (fun k => k.2.2) := by
            apply List.map_congr_left
            intro k _
            norm_num
          rw [this, hksum, mul_one]
  · rw [Finset.sum_const, smul_zero]
    exact hamt
  · unfold kernelContrib
    rw [sum_range_list_sum]
    have : (kernel.map (fun k => ∑ i ∈ Finset.range (C.W * C.H),
        entryContrib C c.1 c.2.1 (1 / clippedTotal C kernel c.1 c.2.1) c.2.2 k i)) =
        kernel.map (fun k => if inB C.W C.H (c.1 + k.1) (c.2.1 + k.2.1)
          then c.2.2 * (k.2.2 * (1 / clippedTotal C kernel c.1 c.2.1)) else 0) := by
      apply List.map_congr_left
      intro k _
      rw [entryContrib_cell_sum]
    rw [this, clipped_weighted_sum]
    push_neg at hskip
    have hct : (0 : ℝ) < clippedTotal C kernel c.1 c.2.1 := by
      calc (0 : ℝ) < 0.001 := by norm_num
        _ ≤ _ := hskip
    rw [mul_assoc, one_div, inv_mul_cancel₀ hct.ne', mul_one]

theorem pass2Contrib_cell_sum_le (C : Cfg) (kernel : List (ℤ × ℤ × ℝ))
    (nd perp : ℝ × ℝ) (fwdDist sideDist : ℝ) (disps : List Disp)
    (hk : ∀ k ∈ kernel, 0 < k.2.2)
    (hksum : (kernel.map (fun k => k.2.2)).sum = 1)
    (hdisp : ∀ dsp ∈ disps, 0 < dsp.amount) :
    (∑ i ∈ Finset.range (C.W * C.H),
        pass2Contrib C kernel nd perp fwdDist sideDist disps i) ≤
      (disps.map (fun dsp => dsp.amount)).sum := by
  unfold pass2Contrib
  rw [sum_range_list_sum]
  apply List.sum_le_sum
  intro dsp hdm
  unfold dispContrib
  rw [sum_range_list_sum]
  calc ((depositCenters C.W nd perp fwdDist sideDist dsp).map
        (fun c => ∑ i ∈ Finset.range (C.W * C.H), centerContrib C kernel c i)).sum
      ≤ ((depositCenters C.W nd perp fwdDist sideDist dsp).map
          (fun c => c.2.2)).sum := by
        apply List.sum_le_sum
        intro c hc
        exact centerContrib_cell_sum_le C kernel c hk hksum
          (depositCenters_amount_pos C.W nd perp fwdDist sideDist
            (hdisp dsp hdm) c hc).le
    _ = dsp.amount := by
        unfold depositCenters
        dsimp only
        rw [List.map_cons, List.map_cons, List.map_cons, List.map_nil,
          List.sum_cons, List.sum_cons, List.sum_cons, List.sum_nil]
        ring

theorem pass2Contrib_nonneg (C : Cfg) (kernel : List (ℤ × ℤ × ℝ))
    (nd perp : ℝ × ℝ) (fwdDist sideDist : ℝ) (disps : List Disp) (i : ℕ)
    (hk : ∀ k ∈ kernel, 0 < k.2.2) (hdisp : ∀ dsp ∈ disps, 0 < dsp.amount) :
    0 ≤ pass2Contrib C kernel nd perp fwdDist sideDist disps i := by
  apply List.sum_nonneg
  intro v hv
  obtain ⟨dsp, hdm, rfl⟩ := List.mem_map.1 hv
  exact dispContrib_nonneg C kernel nd perp fwdDist sideDist i hk (hdisp dsp hdm)

/-- C2: for a single normal-mode carveTine call, the total of positive
per-cell height deltas (both the net deltas across the whole call, and the
pass-2 gains) is at most the total of the pass-1 removal magnitudes:
redistribution never creates mass; interior deposits use the unit-sum
kernel, boundary deposits renormalize over in-bounds weights only, the
negligible-total skip drops mass, and the 1.5 clamp only loses mass. -/
theorem C2_mass_bound (C : Cfg) (g : Grid) (d : DirtyRect)
    (x y radius dirX dirY : ℝ)
    (hv : ∀ i, i < C.W * C.H → g.sandHeight i ≤ 1.5) :
    (∑ i ∈ Finset.range (C.W * C.H),
        max ((carveTine C false (g, d) x y radius dirX dirY).1.sandHeight i -
          g.sandHeight i) 0) ≤
      ∑ i ∈ Finset.range (C.W * C.H),
        max (g.sandHeight i -
          (carvePass1 C false g ⌊radius⌋ (jsRound x) (jsRound y)).1.sandHeight i)
          0 := by
  have hk : ∀ k ∈ rebuildGaussKernel C.spread, 0 < k.2.2 := fun k hk => kernel_w_pos hk
  have hdisp := carvePass1_disp_amount C false g ⌊radius⌋ (jsRound x) (jsRound y)
  have hstep : ∀ i ∈ Finset.range (C.W * C.H),
      max ((carveTine C false (g, d) x y radius dirX dirY).1.sandHeight i -
        g.sandHeight i) 0 ≤
      pass2Contrib C (rebuildGaussKernel C.spread) (normalizeDir dirX dirY)
        (-(normalizeDir dirX dirY).2, (normalizeDir dirX dirY).1)
        ((⌊radius⌋ : ℝ) * C.fwdD) ((⌊radius⌋ : ℝ) * C.sideD)
        (carvePass1 C false g ⌊radius⌋ (jsRound x) (jsRound y)).2 i := by
    intro i hi
    rw [Finset.mem_range] at hi
    have h2 := carveTine_normal_height C g d x y radius dirX dirY i
    have h1le := carvePass1_height_le C false g ⌊radius⌋ (jsRound x) (jsRound y) i hi
    have h15 : (carvePass1 C false g ⌊radius⌋ (jsRound x) (jsRound y)).1.sandHeight i
        ≤ 1.5 := le_trans h1le (hv i hi)
    have hD := pass2Contrib_nonneg C (rebuildGaussKernel C.spread)
      (normalizeDir dirX dirY)
      (-(normalizeDir dirX dirY).2, (normalizeDir dirX dirY).1)
      ((⌊radius⌋ : ℝ) * C.fwdD) ((⌊radius⌋ : ℝ) * C.sideD)
      (carvePass1 C false g ⌊radius⌋ (jsRound x) (jsRound y)).2 i hk hdisp
    have hup := applyD_le
      ((carvePass1 C false g ⌊radius⌋ (jsRound x) (jsRound y)).1.sandHeight i) _ hD
    rw [h2]
    apply max_le
    · linarith
    · exact hD
  calc (∑ i ∈ Finset.range (C.W * C.H),
        max ((carveTine C false (g, d) x y radius dirX dirY).1.sandHeight i -
          g.sandHeight i) 0)
      ≤ ∑ i ∈ Finset.range (C.W * C.H),
          pass2Contrib C (rebuildGaussKernel C.spread) (normalizeDir dirX dirY)
            (-(normalizeDir dirX dirY).2, (normalizeDir dirX dirY).1)
            ((⌊radius⌋ : ℝ) * C.fwdD) ((⌊radius⌋ : ℝ) * C.sideD)
            (carvePass1 C false g ⌊radius⌋ (jsRound x) (jsRound y)).2 i :=
        Finset.sum_le_sum hstep
    _ ≤ (((carvePass1 C false g ⌊radius⌋ (jsRound x) (jsRound y)).2).map
          (fun dsp => dsp.amount)).sum :=
        pass2Contrib_cell_sum_le C (rebuildGaussKernel C.spread) _ _ _ _ _ hk
          (kernel_weights_sum C.spread) hdisp
    _ = ∑ i ∈ Finset.range (C.W * C.H),
          (g.sandHeight i -
            (carvePass1 C false g ⌊radius⌋ (jsRound x) (jsRound y)).1.sandHeight i) :=
        (carvePass1_mass C false g ⌊radius⌋ (jsRound x) (jsRound y)).symm
    _ = ∑ i ∈ Finset.range (C.W * C.H),
          max (g.sandHeight i -
            (carvePass1 C false g ⌊radius⌋ (jsRound x) (jsRound y)).1.sandHeight i)
            0 := by
        apply Finset.sum_congr rfl
        intro i hi
        rw [Finset.mem_range] at hi
        rw [max_eq_left]
        have := carvePass1_height_le C false g ⌊radius⌋ (jsRound x) (jsRound y) i hi
        linarith

theorem C2_mass_bound_witness :
    (∀ i, i < 1 * 1 → (fun _ : ℕ => (1 : ℝ)) i ≤ 1.5) ∧
      ((∑ i ∈ Finset.range (1 * 1),
          max ((carveTine ⟨1, 1, 0.3, 0.1, 1, 1.2, 0.8, 1, 1, 1, false, false, false,
            false, 0⟩ false
              (⟨fun _ => 1, fun _ => 210, fun _ => 190, fun _ => 160⟩,
                ⟨0, 0, 0, 0, true⟩) 0 0 1 0 0).1.sandHeight i -
            (fun _ : ℕ => (1 : ℝ)) i) 0) ≤
        ∑ i ∈ Finset.range (1 * 1),
          max ((fun _ : ℕ => (1 : ℝ)) i -
            (carvePass1 ⟨1, 1, 0.3, 0.1, 1, 1.2, 0.8, 1, 1, 1, false, false, false,
              false, 0⟩ false ⟨fun _ => 1, fun _ => 210, fun _ => 190, fun _ => 160⟩
              ⌊(1 : ℝ)⌋ (jsRound 0) (jsRound 0)).1.sandHeight i) 0) :=
  ⟨fun i _ => by norm_num,
   C2_mass_bound ⟨1, 1, 0.3, 0.1, 1, 1.2, 0.8, 1, 1, 1, false, false, false, false, 0⟩
      ⟨fun _ => 1, fun _ => 210, fun _ => 190, fun _ => 160⟩ ⟨0, 0, 0, 0, true⟩
      0 0 1 0 0 (fun i _ => by norm_num)⟩

/-! ## C1: range invariant -/

/-- Non-sentinel profile values are at least 0.1 when the sliders are in
range. -/
theorem tineProfileVal_lb (depth rim : ℝ) (r dx dy : ℤ) (hr : 0 ≤ r)
    (hd0 : 0 ≤ depth) (hd9 : depth ≤ 0.9) (hrim : 0 ≤ rim) :
    tineProfileVal depth rim r dx dy = -1 ∨
      0.1 ≤ tineProfileVal depth rim r dx dy := by
  unfold tineProfileVal
  by_cases hgt : dx * dx + dy * dy > r * r
  · left
    rw [if_pos hgt]
  · right
    rw [if_neg hgt]
    dsimp only
    push_neg at hgt
    have ht0 : 0 ≤ Real.sqrt ((dx * dx + dy * dy : ℤ) : ℝ) / (r : ℝ) := by
      apply div_nonneg (Real.sqrt_nonneg _)
      exact_mod_cast hr
    have ht1 : Real.sqrt ((dx * dx + dy * dy : ℤ) : ℝ) / (r : ℝ) ≤ 1 := by
      rcases eq_or_lt_of_le hr with hr0 | hrpos
      · rw [← hr0]
        norm_num
      · rw [div_le_one (by exact_mod_cast hrpos)]
        calc Real.sqrt ((dx * dx + dy * dy : ℤ) : ℝ)
            ≤ Real.sqrt ((r * r : ℤ) : ℝ) :=
              Real.sqrt_le_sqrt (by exact_mod_cast hgt)
          _ = (r : ℝ) := by
              push_cast
              exact Real.sqrt_mul_self (by exact_mod_cast hr)
    set t := Real.sqrt ((dx * dx + dy * dy : ℤ) : ℝ) / (r : ℝ)
    split_ifs with h06 h085
    · have hu0 : 0 ≤ t / 0.6 := by positivity
      have hu1 : t / 0.6 < 1 := by
        rw [div_lt_one (by norm_num)]
        linarith
      have hcube : t / 0.6 * (t / 0.6) * (t / 0.6) ≤ 1 := by nlinarith
      have hcube0 : 0 ≤ t / 0.6 * (t / 0.6) * (t / 0.6) := by positivity
      nlinarith
    · have hu0 : 0 ≤ (t - 0.6) / 0.25 := by
        apply div_nonneg _ (by norm_num)
        linarith
      nlinarith
    · have hu1 : (t - 0.85) / 0.15 ≤ 1 := by
        rw [div_le_one (by norm_num)]
        linarith
      nlinarith

theorem pass1Cell_lb (C : Cfg) (dig : Bool) (r : ℤ) (c : ℤ × ℤ) (idx : ℕ)
    (h cR cG cB : ℝ) (hr : 0 ≤ r) (hh : 0.1 ≤ h)
    (hd0 : 0 ≤ C.depth) (hd9 : C.depth ≤ 0.9) (hrim : 0 ≤ C.rim)
    (hb0 : 0 ≤ C.blend) (hb1 : C.blend ≤ 1) :
    0.1 ≤ (pass1Cell C dig r c idx h cR cG cB).1 := by
  have hlb := tineProfileVal_lb C.depth C.rim r c.1 c.2 hr hd0 hd9 hrim
  unfold pass1Cell
  dsimp only
  by_cases hs : tineProfileVal C.depth C.rim r c.1 c.2 < 0
  · rw [if_pos hs]
    exact hh
  · rw [if_neg hs]
    have ht : 0.1 ≤ tineProfileVal C.depth C.rim r c.1 c.2 := by
      rcases hlb with he | he
      · rw [he] at hs
        norm_num at hs
      · exact he
    cases dig with
    | true =>
        rw [if_pos rfl]
        split_ifs <;>
          first
            | exact hh
            | exact le_rfl
            | (rename_i hx hy; exact le_of_not_lt hx)
    | false =>
        rw [if_neg Bool.false_ne_true]
        split_ifs with h1
        · show 0.1 ≤ h * (1 - C.blend) +
            tineProfileVal C.depth C.rim r c.1 c.2 * C.blend
          nlinarith [mul_nonneg (by linarith : (0:ℝ) ≤ h - 0.1)
              (by linarith : (0:ℝ) ≤ 1 - C.blend),
            mul_nonneg
              (by linarith : (0:ℝ) ≤ tineProfileVal C.depth C.rim r c.1 c.2 - 0.1)
              hb0]
        · exact hh

theorem carvePass1_lb (C : Cfg) (dig : Bool) (g : Grid) (r ix iy : ℤ) (i : ℕ)
    (hi : i < C.W * C.H) (hv : ∀ j, j < C.W * C.H → 0.1 ≤ g.sandHeight j)
    (hd0 : 0 ≤ C.depth) (hd9 : C.depth ≤ 0.9) (hrim : 0 ≤ C.rim)
    (hb0 : 0 ≤ C.blend) (hb1 : C.blend ≤ 1) :
    0.1 ≤ (carvePass1 C dig g r ix iy).1.sandHeight i := by
  obtain ⟨px, py, hin, rfl⟩ := exists_cell_of_lt hi
  have hkey := carvePass1_at C dig r ix iy g px py hin
  have hh := congrArg Prod.fst hkey
  by_cases hc : (px - ix, py - iy) ∈ boxCells r
  · rw [if_pos hc] at hh
    have hr : 0 ≤ r := by
      obtain ⟨ha, hb, _, _⟩ := mem_boxCells.1 hc
      linarith
    refine le_of_le_of_eq ?_ hh.symm
    show 0.1 ≤ (pass1CellAt C dig r ix iy g (px - ix, py - iy)).1
    unfold pass1CellAt
    rw [cellIdx_sub]
    exact pass1Cell_lb C dig r _ _ _ _ _ _ hr (hv _ hi) hd0 hd9 hrim hb0 hb1
  · rw [if_neg hc] at hh
    refine le_of_le_of_eq ?_ hh.symm
    exact hv _ hi

/-- Slider parameter ranges.  Modelled from the spec: the slider bounds
live in index.html, which is not part of src/; the spec states
blend in (0,1] (section 4.3 with the section 8 scenario blend = 1.0) and
its data-model range invariant forces depth at most 0.9 and a nonnegative
rim, since the channel-zone target 1 - depth (1 - u^3) must stay at or
above 0.1. -/
def ParamsOk (C : Cfg) : Prop :=
  0 ≤ C.depth ∧ C.depth ≤ 0.9 ∧ 0 ≤ C.rim ∧ 0 ≤ C.blend ∧ C.blend ≤ 1

/-- All heights of an array section within [lo, hi]. -/
def InRange (lo hi : ℝ) (f : ℕ → ℝ) (N : ℕ) : Prop :=
  ∀ i, i < N → lo ≤ f i ∧ f i ≤ hi

/-- The mode-dependent legal upper height bound. -/
def hiOf (s : AppState) : ℝ := if s.diggingMode then 2.0 else 1.5

/-- The height-range invariant of the application state: grid heights and
every snapshot on the history stacks lie in the active mode's range, and
the digging entry snapshot (when present) holds a Normal-mode grid. -/
def Valid (C : Cfg) (s : AppState) : Prop :=
  InRange 0.1 (hiOf s) s.grid.sandHeight (C.W * C.H) ∧
  (∀ sn ∈ s.undoStack, InRange 0.1 (hiOf s) sn.h (C.W * C.H)) ∧
  (∀ sn ∈ s.redoStack, InRange 0.1 (hiOf s) sn.h (C.W * C.H)) ∧
  (∀ sn, s.savedGardenState = some sn → InRange 0.1 1.5 sn.h (C.W * C.H))

theorem carveTine_normal_range (C : Cfg) (g : Grid) (d : DirtyRect)
    (x y radius dirX dirY : ℝ) (hP : ParamsOk C)
    (hv : InRange 0.1 1.5 g.sandHeight (C.W * C.H)) :
    InRange 0.1 1.5 (carveTine C false (g, d) x y radius dirX dirY).1.sandHeight
      (C.W * C.H) := by
  obtain ⟨hd0, hd9, hrim, hb0, hb1⟩ := hP
  intro i hi
  rw [carveTine_normal_height C g d x y radius dirX dirY i]
  have hlb := carvePass1_lb C false g ⌊radius⌋ (jsRound x) (jsRound y) i hi
    (fun j hj => (hv j hj).1) hd0 hd9 hrim hb0 hb1
  have hub := le_trans
    (carvePass1_height_le C false g ⌊radius⌋ (jsRound x) (jsRound y) i hi)
    (hv i hi).2
  constructor
  · exact le_trans hlb (le_applyD _ _ hub)
  · exact applyD_le_clamp _ _ hub

theorem carveTine_dig_range (C : Cfg) (g : Grid) (d : DirtyRect)
    (x y radius dirX dirY : ℝ) (hP : ParamsOk C)
    (hv : InRange 0.1 2.0 g.sandHeight (C.W * C.H)) :
    InRange 0.1 2.0 (carveTine C true (g, d) x y radius dirX dirY).1.sandHeight
      (C.W * C.H) := by
  obtain ⟨hd0, hd9, hrim, hb0, hb1⟩ := hP
  intro i hi
  have hcg : (carveTine C true (g, d) x y radius dirX dirY).1 =
      (carvePass1 C true g ⌊radius⌋ (jsRound x) (jsRound y)).1 := rfl
  rw [hcg]
  constructor
  · exact carvePass1_lb C true g ⌊radius⌋ (jsRound x) (jsRound y) i hi
      (fun j hj => (hv j hj).1) hd0 hd9 hrim hb0 hb1
  · exact le_trans
      (carvePass1_height_le C true g ⌊radius⌋ (jsRound x) (jsRound y) i hi)
      (hv i hi).2

theorem hiOf_eq_of_mode {s t : AppState} (h : t.diggingMode = s.diggingMode) :
    hiOf t = hiOf s := by
  unfold hiOf
  rw [h]

theorem valid_carveTineApp (C : Cfg) (s : AppState) (x y radius dirX dirY : ℝ)
    (hP : ParamsOk C) (hv : Valid C s) :
    Valid C (carveTineApp C s x y radius dirX dirY) := by
  obtain ⟨hg, hu, hr2, hs2⟩ := hv
  refine ⟨?_, fun sn hsn => hu sn hsn, fun sn hsn => hr2 sn hsn,
    fun sn hsn => hs2 sn hsn⟩
  show InRange 0.1 (hiOf s)
    (carveTine C s.diggingMode (s.grid, s.dirty) x y radius dirX dirY).1.sandHeight
    (C.W * C.H)
  cases hd : s.diggingMode with
  | false =>
      have hhi : hiOf s = 1.5 := by
        unfold hiOf
        rw [hd, if_neg Bool.false_ne_true]
      rw [hhi]
      rw [hhi] at hg
      exact carveTine_normal_range C s.grid s.dirty x y radius dirX dirY hP hg
  | true =>
      have hhi : hiOf s = 2.0 := by
        unfold hiOf
        rw [hd, if_pos rfl]
      rw [hhi]
      rw [hhi] at hg
      exact carveTine_dig_range C s.grid s.dirty x y radius dirX dirY hP hg

theorem valid_saveState (C : Cfg) (s : AppState) (hv : Valid C s) :
    Valid C (saveState s) := by
  obtain ⟨hg, hu, hr2, hs2⟩ := hv
  have hhi : hiOf (saveState s) = hiOf s := hiOf_eq_of_mode rfl
  refine ⟨?_, ?_, ?_, ?_⟩
  · rw [hhi]
    exact hg
  · intro sn hsn
    rw [hhi]
    rcases List.mem_append.1 hsn with hl | hr
    · refine hu sn ?_
      split_ifs at hl with hcap
      · exact List.mem_of_mem_drop hl
      · exact hl
    · rw [List.mem_singleton.1 hr]
      exact hg
  · intro sn hsn
    exact absurd hsn (List.not_mem_nil sn)
  · intro sn hsn
    exact hs2 sn hsn

theorem valid_undo (C : Cfg) (s : AppState) (hv : Valid C s) :
    Valid C (undo C.W C.H s) := by
  obtain ⟨hg, hu, hr2, hs2⟩ := hv
  unfold undo
  cases hlast : s.undoStack.getLast? with
  | none => exact ⟨hg, hu, hr2, hs2⟩
  | some st =>
      refine ⟨?_, ?_, ?_, ?_⟩
      · show InRange 0.1 _ st.h (C.W * C.H)
        refine fun i hi => ?_
        have := hu st (List.mem_of_mem_getLast? hlast) i hi
        exact this
      · intro sn hsn
        exact hu sn (List.mem_of_mem_dropLast hsn)
      · intro sn hsn
        rcases List.mem_append.1 hsn with hl | hr
        · exact hr2 sn hl
        · rw [List.mem_singleton.1 hr]
          exact hg
      · intro sn hsn
        exact hs2 sn hsn

theorem valid_redo (C : Cfg) (s : AppState) (hv : Valid C s) :
    Valid C (redo C.W C.H s) := by
  obtain ⟨hg, hu, hr2, hs2⟩ := hv
  unfold redo
  cases hlast : s.redoStack.getLast? with
  | none => exact ⟨hg, hu, hr2, hs2⟩
  | some st =>
      refine ⟨?_, ?_, ?_, ?_⟩
      · show InRange 0.1 _ st.h (C.W * C.H)
        refine fun i hi => ?_
        have := hr2 st (List.mem_of_mem_getLast? hlast) i hi
        exact this
      · intro sn hsn
        rcases List.mem_append.1 hsn with hl | hr
        · refine hu sn ?_
          split_ifs at hl with hcap
          · exact List.mem_of_mem_drop hl
          · exact hl
        · rw [List.mem_singleton.1 hr]
          exact hg
      · intro sn hsn
        exact hr2 sn (List.mem_of_mem_dropLast hsn)
      · intro sn hsn
        exact hs2 sn hsn

theorem valid_clearSand (C : Cfg) (s : AppState) (rand noiseOracle : ℕ → ℝ)
    (hv : Valid C s) : Valid C (clearSand C.W C.H s rand noiseOracle) := by
  by_cases hd : s.diggingMode = true
  · have heq : clearSand C.W C.H s rand noiseOracle = s := by
      unfold clearSand
      rw [if_pos hd]
    rw [heq]
    exact hv
  · have hds : s.diggingMode = false := by
      cases hmode : s.diggingMode
      · rfl
      · exact absurd hmode hd
    have hnd : ¬(s.diggingMode = true) := hd
    obtain ⟨hg, hu, hr2, hs2⟩ := valid_saveState C s hv
    have hsm : (saveState s).diggingMode = s.diggingMode := rfl
    have hhis : hiOf (saveState s) = 1.5 := by
      rw [hiOf_eq_of_mode hsm]
      unfold hiOf
      rw [hds, if_neg Bool.false_ne_true]
    set T := clearSand C.W C.H s rand noiseOracle with hT
    have hTm : T.diggingMode = s.diggingMode := by
      rw [hT]
      unfold clearSand
      rw [if_neg hnd]
      rfl
    have hhiT : hiOf T = 1.5 := by
      rw [hiOf_eq_of_mode hTm]
      unfold hiOf
      rw [hds, if_neg Bool.false_ne_true]
    have hTh : ∀ i, T.grid.sandHeight i = if i < C.W * C.H then
        max 0.1 (min 1.5 (1.0 + (rand i - 0.5) * 0.3))
      else (saveState s).grid.sandHeight i := by
      intro i
      rw [hT]
      unfold clearSand
      rw [if_neg hnd]
    have hTu : T.undoStack = (saveState s).undoStack := by
      rw [hT]
      unfold clearSand
      rw [if_neg hnd]
    have hTr : T.redoStack = [] := by
      rw [hT]
      unfold clearSand
      rw [if_neg hnd]
      rfl
    have hTs : T.savedGardenState = s.savedGardenState := by
      rw [hT]
      unfold clearSand
      rw [if_neg hnd]
      rfl
    refine ⟨?_, ?_, ?_, ?_⟩
    · intro i hi
      rw [hTh i, if_pos hi, hhiT]
      exact ⟨le_max_left _ _, max_le (by norm_num) (min_le_left _ _)⟩
    · intro sn hsn
      rw [hTu] at hsn
      have hmem := hu sn hsn
      rw [hhis] at hmem
      intro i hi
      rw [hhiT]
      exact hmem i hi
    · intro sn hsn
      rw [hTr] at hsn
      exact absurd hsn (List.not_mem_nil sn)
    · intro sn hsn
      rw [hTs] at hsn
      exact hs2 sn hsn

theorem valid_enterDiggingMode (C : Cfg) (s : AppState) (noiseOracle : ℕ → ℝ)
    (hds : s.diggingMode = false) (hv : Valid C s) :
    Valid C (enterDiggingMode C.W C.H s noiseOracle) := by
  obtain ⟨hg, hu, hr2, hs2⟩ := hv
  have hhi : hiOf (enterDiggingMode C.W C.H s noiseOracle) = 2.0 := by
    have hm : (enterDiggingMode C.W C.H s noiseOracle).diggingMode = true := rfl
    unfold hiOf
    rw [hm, if_pos rfl]
  have hhis : hiOf s = 1.5 := by
    unfold hiOf
    rw [hds, if_neg Bool.false_ne_true]
  refine ⟨?_, ?_, ?_, ?_⟩
  · intro i hi
    show 0.1 ≤ (if i < C.W * C.H then (2.0:ℝ) else s.grid.sandHeight i) ∧
      (if i < C.W * C.H then (2.0:ℝ) else s.grid.sandHeight i) ≤
        hiOf (enterDiggingMode C.W C.H s noiseOracle)
    rw [if_pos hi, hhi]
    norm_num
  · intro sn hsn
    exact absurd hsn (List.not_mem_nil sn)
  · intro sn hsn
    exact absurd hsn (List.not_mem_nil sn)
  · intro sn hsn
    have : sn = getCurrentState s.grid := by
      have : some (getCurrentState s.grid) = some sn := hsn
      exact (Option.some.inj this).symm
    rw [this]
    intro i hi
    have := hg i hi
    rw [hhis] at this
    exact this

theorem valid_exitDig (C : Cfg) (s : AppState) (hv : Valid C s) :
    Valid C ((exitDiggingMode C.W C.H s).getD s) := by
  obtain ⟨hg, hu, hr2, hs2⟩ := hv
  unfold exitDiggingMode
  cases hsome : s.savedGardenState with
  | none => exact ⟨hg, hu, hr2, hs2⟩
  | some sn =>
      have hsnr := hs2 sn hsome
      show Valid C ({ s with
        grid := setFromSnapshot sn
        savedGardenState := none
        diggingMode := false
        undoStack := []
        redoStack := []
        dirty := markFullDirty C.W C.H } : AppState)
      have hhe : hiOf ({ s with
          grid := setFromSnapshot sn
          savedGardenState := none
          diggingMode := false
          undoStack := []
          redoStack := []
          dirty := markFullDirty C.W C.H } : AppState) = 1.5 := by
        unfold hiOf
        rw [if_neg Bool.false_ne_true]
      refine ⟨?_, ?_, ?_, ?_⟩
      · intro i hi
        rw [hhe]
        exact hsnr i hi
      · intro sn2 hsn2
        exact absurd hsn2 (List.not_mem_nil sn2)
      · intro sn2 hsn2
        exact absurd hsn2 (List.not_mem_nil sn2)
      · intro sn2 hsn2
        exact absurd hsn2 (Option.noConfusion)

/-- C1: the height-range invariant of section 2 holds after every core
operation: grid heights and all history snapshots stay within
[0.1, 1.5] in Normal mode and [0.1, 2.0] in Digging mode, and the saved
garden snapshot always holds Normal-range heights; parameters within the
slider ranges. -/
theorem C1_height_range_invariant (C : Cfg) (s : AppState) (op : Op)
    (hP : ParamsOk C) (hv : Valid C s) : Valid C (step C s op) := by
  cases op with
  | carve x y radius dirX dirY =>
      exact valid_carveTineApp C s x y radius dirX dirY hP hv
  | reset rand noiseOracle =>
      exact valid_clearSand C s rand noiseOracle hv
  | save => exact valid_saveState C s hv
  | undoOp => exact valid_undo C s hv
  | redoOp => exact valid_redo C s hv
  | enterDig noiseOracle =>
      show Valid C (if s.diggingMode then s
        else enterDiggingMode C.W C.H s noiseOracle)
      split_ifs with hd
      · exact hv
      · have hds : s.diggingMode = false := by
          cases hmode : s.diggingMode
          · rfl
          · exact absurd hmode hd
        exact valid_enterDiggingMode C s noiseOracle hds hv
  | exitDig =>
      show Valid C (if s.diggingMode then (exitDiggingMode C.W C.H s).getD s
        else s)
      split_ifs with hd
      · exact valid_exitDig C s hv
      · exact hv

theorem C1_height_range_invariant_witness :
    ParamsOk ⟨1, 1, 0.3, 0.1, 1, 1.2, 0.8, 1, 1, 1, false, false, false, false, 0⟩ ∧
    Valid ⟨1, 1, 0.3, 0.1, 1, 1.2, 0.8, 1, 1, 1, false, false, false, false, 0⟩
      ⟨⟨fun _ => 1, fun _ => 210, fun _ => 190, fun _ => 160⟩,
        fun _ => 0, false, none, [], [], ⟨0, 0, 0, 0, true⟩⟩ ∧
    Valid ⟨1, 1, 0.3, 0.1, 1, 1.2, 0.8, 1, 1, 1, false, false, false, false, 0⟩
      (step ⟨1, 1, 0.3, 0.1, 1, 1.2, 0.8, 1, 1, 1, false, false, false, false, 0⟩
        ⟨⟨fun _ => 1, fun _ => 210, fun _ => 190, fun _ => 160⟩,
          fun _ => 0, false, none, [], [], ⟨0, 0, 0, 0, true⟩⟩ .save) := by
  have hP : ParamsOk ⟨1, 1, 0.3, 0.1, 1, 1.2, 0.8, 1, 1, 1, false, false, false,
      false, 0⟩ := by
    show (0:ℝ) ≤ 0.3 ∧ (0.3:ℝ) ≤ 0.9 ∧ (0:ℝ) ≤ 0.1 ∧ (0:ℝ) ≤ 1 ∧ (1:ℝ) ≤ 1
    norm_num
  have hv : Valid ⟨1, 1, 0.3, 0.1, 1, 1.2, 0.8, 1, 1, 1, false, false, false,
      false, 0⟩
      ⟨⟨fun _ => 1, fun _ => 210, fun _ => 190, fun _ => 160⟩,
        fun _ => 0, false, none, [], [], ⟨0, 0, 0, 0, true⟩⟩ := by
    refine ⟨fun i hi => ?_, fun sn hsn => absurd hsn (List.not_mem_nil sn),
      fun sn hsn => absurd hsn (List.not_mem_nil sn),
      fun sn hsn => absurd hsn Option.noConfusion⟩
    show (0.1:ℝ) ≤ 1 ∧ (1:ℝ) ≤ 1.5
    norm_num
  exact ⟨hP, hv,
    C1_height_range_invariant
      ⟨1, 1, 0.3, 0.1, 1, 1.2, 0.8, 1, 1, 1, false, false, false, false, 0⟩
      ⟨⟨fun _ => 1, fun _ => 210, fun _ => 190, fun _ => 160⟩,
        fun _ => 0, false, none, [], [], ⟨0, 0, 0, 0, true⟩⟩ .save hP hv⟩

/-! ## C4: where pass-2 mass lands -/

theorem kernelContrib_ge_entry (C : Cfg) (cx cy : ℤ) (invClipped amount : ℝ)
    (kernel : List (ℤ × ℤ × ℝ)) (i : ℕ) {k : ℤ × ℤ × ℝ} (hk : k ∈ kernel)
    (hpos : ∀ k2 ∈ kernel, 0 ≤ amount * (k2.2.2 * invClipped)) :
    entryContrib C cx cy invClipped amount k i ≤
      kernelContrib C cx cy invClipped amount kernel i := by
  unfold kernelContrib
  refine List.single_le_sum (fun x hx => ?_) _ (List.mem_map.2 ⟨k, hk, rfl⟩)
  obtain ⟨k2, hk2, rfl⟩ := List.mem_map.1 hx
  exact entryContrib_nonneg C cx cy k2 i (hpos k2 hk2)

theorem clippedTotal_ge_entry (C : Cfg) (kernel : List (ℤ × ℤ × ℝ)) (cx cy : ℤ)
    {k : ℤ × ℤ × ℝ} (hk : k ∈ kernel) (hin : inB C.W C.H (cx + k.1) (cy + k.2.1))
    (hnn : ∀ k2 ∈ kernel, 0 ≤ k2.2.2) :
    k.2.2 ≤ clippedTotal C kernel cx cy := by
  unfold clippedTotal
  refine List.single_le_sum (fun x hx => ?_) _
    (List.mem_map.2 ⟨k, List.mem_filter.2 ⟨hk, by simpa using hin⟩, rfl⟩)
  obtain ⟨k2, hk2, rfl⟩ := List.mem_map.1 hx
  exact hnn k2 (List.mem_filter.1 hk2).1

theorem dispContrib_ge_center (C : Cfg) (kernel : List (ℤ × ℤ × ℝ))
    (nd perp : ℝ × ℝ) (fwdDist sideDist : ℝ) (d : Disp) (i : ℕ)
    {c : ℤ × ℤ × ℝ} (hc : c ∈ depositCenters C.W nd perp fwdDist sideDist d)
    (hk : ∀ k ∈ kernel, 0 < k.2.2) (hd : 0 < d.amount) :
    centerContrib C kernel c i ≤
      dispContrib C kernel nd perp fwdDist sideDist d i := by
  unfold dispContrib
  refine List.single_le_sum (fun x hx => ?_) _ (List.mem_map.2 ⟨c, hc, rfl⟩)
  obtain ⟨c2, hc2, rfl⟩ := List.mem_map.1 hx
  exact centerContrib_nonneg C kernel c2 i hk
    (depositCenters_amount_pos C.W nd perp fwdDist sideDist hd c2 hc2).le

theorem pass2Contrib_ge_disp (C : Cfg) (kernel : List (ℤ × ℤ × ℝ))
    (nd perp : ℝ × ℝ) (fwdDist sideDist : ℝ) (disps : List Disp) (i : ℕ)
    {d : Disp} (hd : d ∈ disps) (hk : ∀ k ∈ kernel, 0 < k.2.2)
    (hamt : ∀ d2 ∈ disps, 0 < d2.amount) :
    dispContrib C kernel nd perp fwdDist sideDist d i ≤
      pass2Contrib C kernel nd perp fwdDist sideDist disps i := by
  unfold pass2Contrib
  refine List.single_le_sum (fun x hx => ?_) _ (List.mem_map.2 ⟨d, hd, rfl⟩)
  obtain ⟨d2, hd2, rfl⟩ := List.mem_map.1 hx
  exact dispContrib_nonneg C kernel nd perp fwdDist sideDist i hk (hamt d2 hd2)

theorem gaussRaw_w_le_one {r : ℕ} {e : ℤ × ℤ × ℝ} (he : e ∈ gaussRaw r) :
    e.2.2 ≤ 1 := by
  obtain ⟨sx, sy, w⟩ := e
  rw [mem_gaussRaw] at he
  show w ≤ 1
  rw [he.2]
  calc Real.exp (-((sx * sx + sy * sy : ℤ) : ℝ) *
        (1 / (2 * ((r : ℝ) * 0.75) * ((r : ℝ) * 0.75))))
      ≤ Real.exp 0 := by
        apply Real.exp_le_exp.2
        have h1 : (0 : ℝ) ≤ ((sx * sx + sy * sy : ℤ) : ℝ) := by
          have : (0 : ℤ) ≤ sx * sx + sy * sy :=
            add_nonneg (mul_self_nonneg sx) (mul_self_nonneg sy)
          exact_mod_cast this
        have h2 : (0 : ℝ) ≤ 1 / (2 * ((r : ℝ) * 0.75) * ((r : ℝ) * 0.75)) :=
          one_div_nonneg.2 (by positivity)
        nlinarith
    _ = 1 := Real.exp_zero

theorem gaussTotal_le_card (r : ℕ) : gaussTotal r ≤ ((gaussRaw r).length : ℝ) := by
  unfold gaussTotal
  have h := List.sum_le_card_nsmul ((gaussRaw r).map (fun e => e.2.2)) 1
    (fun x hx => by
      obtain ⟨e, he, rfl⟩ := List.mem_map.1 hx
      exact gaussRaw_w_le_one he)
  rw [List.length_map] at h
  simpa using h

theorem lt_applyD {h a : ℝ} (hh : h < 1.5) (ha : 0 < a) : h < applyD h a := by
  unfold applyD
  rw [if_pos ha]
  exact lt_min (by linarith) hh

/-- A concrete 3 by 1 strip configuration with forward and side deposit
distances zero (all values within the slider ranges). -/
def cfg3 : Cfg := ⟨3, 1, 0.3, 0, 1, 0, 0, 1, 1, 1, false, false, false, false, 0⟩

/-- A flat grid of height 1 in the default sand color. -/
def flat3 : Grid := ⟨fun _ => 1, fun _ => 210, fun _ => 190, fun _ => 160⟩

theorem jsRound_one : jsRound 1 = 1 := by
  unfold jsRound
  norm_num

theorem jsRound_zero : jsRound 0 = 0 := by
  unfold jsRound
  norm_num

theorem normalizeDir_unitX : normalizeDir 1 0 = (1, 0) := by
  unfold normalizeDir
  dsimp only
  rw [if_pos (by norm_num : (1:ℝ) * 1 + 0 * 0 > 0.000001)]
  norm_num [Real.sqrt_one]

theorem tineProfileVal_r1_edge : tineProfileVal 0.3 0 1 (-1) 0 = 1 := by
  unfold tineProfileVal
  norm_num [Real.sqrt_one]

theorem tineProfileVal_r1_center : tineProfileVal 0.3 0 1 0 0 = 0.7 := by
  unfold tineProfileVal
  norm_num [Real.sqrt_zero]

theorem C4_p1_height0 :
    (carvePass1 cfg3 false flat3 1 1 0).1.sandHeight 0 = 1 := by
  have hin : inB 3 1 0 0 := by decide
  have hkey := carvePass1_at cfg3 false 1 1 0 flat3 0 0 hin
  rw [if_pos (by decide : ((0:ℤ) - 1, (0:ℤ) - 0) ∈ boxCells 1)] at hkey
  have hh : (carvePass1 cfg3 false flat3 1 1 0).1.sandHeight 0 =
      (pass1Cell cfg3 false 1 ((0:ℤ) - 1, (0:ℤ) - 0)
        (cellIdx 3 1 0 ((0:ℤ) - 1, (0:ℤ) - 0)) 1 210 190 160).1 :=
    congrArg Prod.fst hkey
  rw [hh]
  unfold pass1Cell
  dsimp only [cfg3]
  rw [show ((0:ℤ) - 1) = -1 by norm_num, show ((0:ℤ) - 0) = 0 by norm_num,
    tineProfileVal_r1_edge]
  norm_num

theorem C4_p1_disp :
    pass1DispAt cfg3 false 1 1 0 flat3 ((0:ℤ), (0:ℤ)) =
      some ⟨1, 0.3, 210, 190, 160⟩ := by
  unfold pass1DispAt
  rw [if_pos (by decide : cellIn cfg3.W cfg3.H 1 0 ((0:ℤ), (0:ℤ)))]
  show (pass1Cell cfg3 false 1 ((0:ℤ), (0:ℤ)) (cellIdx 3 1 0 ((0:ℤ), (0:ℤ)))
    1 210 190 160).2.2 = some ⟨1, 0.3, 210, 190, 160⟩
  unfold pass1Cell
  dsimp only [cfg3]
  rw [tineProfileVal_r1_center, show cellIdx 3 1 0 ((0:ℤ), (0:ℤ)) = 1 from rfl]
  norm_num

theorem C4_centers :
    depositCenters 3 ((1:ℝ), (0:ℝ)) (-(0:ℝ), (1:ℝ)) (((1:ℤ):ℝ) * 0)
      (((1:ℤ):ℝ) * 0) ⟨1, 0.3, 210, 190, 160⟩ =
      [((1:ℤ), (0:ℤ), 0.3 * 0.70), (1, 0, 0.3 * 0.15), (1, 0, 0.3 * 0.15)] := by
  unfold depositCenters
  norm_num [jsRound]

theorem C4_kernel_center_mem :
    ((0:ℤ), (0:ℤ), 1 / gaussTotal 1) ∈ rebuildGaussKernel 1 := by
  refine mem_rebuildGaussKernel.2 ⟨1, ?_, by norm_num⟩
  rw [mem_gaussRaw]
  exact ⟨by norm_num, by norm_num⟩

theorem C4_kernel_left_mem :
    ∃ w : ℝ, 0 < w ∧ ((-1:ℤ), (0:ℤ), w) ∈ rebuildGaussKernel 1 := by
  have hmem : ((-1:ℤ), (0:ℤ),
      Real.exp (-((((-1:ℤ)) * (-1) + 0 * 0 : ℤ) : ℝ) *
        (1 / (2 * (((1:ℕ) : ℝ) * 0.75) * (((1:ℕ) : ℝ) * 0.75)))) *
        (1 / gaussTotal 1)) ∈ rebuildGaussKernel 1 :=
    mem_rebuildGaussKernel.2 ⟨_, mem_gaussRaw.2 ⟨by norm_num, rfl⟩, rfl⟩
  exact ⟨_, kernel_w_pos hmem, hmem⟩

theorem C4_ct_lb :
    (0.001:ℝ) ≤ clippedTotal cfg3 (rebuildGaussKernel 1) 1 0 := by
  have hge := clippedTotal_ge_entry cfg3 (rebuildGaussKernel 1) 1 0
    C4_kernel_center_mem (by decide) (fun k2 hk2 => (kernel_w_pos hk2).le)
  have hT : gaussTotal 1 ≤ 5 := by
    have h := gaussTotal_le_card 1
    rw [show ((gaussRaw 1).length) = 5 from rfl] at h
    exact_mod_cast h
  have hTpos := gaussTotal_pos 1
  calc (0.001:ℝ) ≤ 1 / 5 := by norm_num
    _ ≤ 1 / gaussTotal 1 := one_div_le_one_div_of_le hTpos hT
    _ ≤ _ := hge

theorem C4_center_pos0 :
    0 < centerContrib cfg3 (rebuildGaussKernel 1) ((1:ℤ), (0:ℤ), 0.3 * 0.70) 0 := by
  obtain ⟨w1, hw1pos, hw1⟩ := C4_kernel_left_mem
  have hct := C4_ct_lb
  have hctpos : (0:ℝ) < clippedTotal cfg3 (rebuildGaussKernel 1) 1 0 :=
    lt_of_lt_of_le (by norm_num) hct
  have hentry : 0 < entryContrib cfg3 1 0
      (1 / clippedTotal cfg3 (rebuildGaussKernel 1) 1 0) (0.3 * 0.70)
      ((-1:ℤ), (0:ℤ), w1) 0 := by
    unfold entryContrib
    have hcond : inB cfg3.W cfg3.H (1 + ((-1:ℤ), (0:ℤ), w1).1)
        (0 + ((-1:ℤ), (0:ℤ), w1).2.1) ∧
        flatIdx cfg3.W (1 + ((-1:ℤ), (0:ℤ), w1).1)
          (0 + ((-1:ℤ), (0:ℤ), w1).2.1) = 0 :=
      ⟨show inB 3 1 0 0 by decide, show flatIdx 3 0 0 = 0 from rfl⟩
    rw [if_pos hcond]
    exact mul_pos (by norm_num) (mul_pos hw1pos (one_div_pos.2 hctpos))
  unfold centerContrib
  split_ifs with hint hskip
  · exact absurd hint (by decide)
  · exact absurd hskip (not_lt.2 hct)
  refine lt_of_lt_of_le hentry ?_
  exact kernelContrib_ge_entry cfg3 1 0
    (1 / clippedTotal cfg3 (rebuildGaussKernel 1) 1 0) (0.3 * 0.70)
    (rebuildGaussKernel 1) 0 hw1
    (fun k2 hk2 => mul_nonneg (by norm_num)
      (mul_nonneg (kernel_w_pos hk2).le (one_div_pos.2 hctpos).le))

theorem C4_center_pos1 :
    0 < centerContrib cfg3 (rebuildGaussKernel 1) ((1:ℤ), (0:ℤ), 0.3 * 0.70) 1 := by
  have hct := C4_ct_lb
  have hctpos : (0:ℝ) < clippedTotal cfg3 (rebuildGaussKernel 1) 1 0 :=
    lt_of_lt_of_le (by norm_num) hct
  have hentry : 0 < entryContrib cfg3 1 0
      (1 / clippedTotal cfg3 (rebuildGaussKernel 1) 1 0) (0.3 * 0.70)
      ((0:ℤ), (0:ℤ), 1 / gaussTotal 1) 1 := by
    unfold entryContrib
    have hcond : inB cfg3.W cfg3.H (1 + ((0:ℤ), (0:ℤ), 1 / gaussTotal 1).1)
        (0 + ((0:ℤ), (0:ℤ), 1 / gaussTotal 1).2.1) ∧
        flatIdx cfg3.W (1 + ((0:ℤ), (0:ℤ), 1 / gaussTotal 1).1)
          (0 + ((0:ℤ), (0:ℤ), 1 / gaussTotal 1).2.1) = 1 :=
      ⟨show inB 3 1 1 0 by decide, show flatIdx 3 1 0 = 1 from rfl⟩
    rw [if_pos hcond]
    exact mul_pos (by norm_num)
      (mul_pos (one_div_pos.2 (gaussTotal_pos 1)) (one_div_pos.2 hctpos))
  unfold centerContrib
  split_ifs with hint hskip
  · exact absurd hint (by decide)
  · exact absurd hskip (not_lt.2 hct)
  refine lt_of_lt_of_le hentry ?_
  exact kernelContrib_ge_entry cfg3 1 0
    (1 / clippedTotal cfg3 (rebuildGaussKernel 1) 1 0) (0.3 * 0.70)
    (rebuildGaussKernel 1) 1 C4_kernel_center_mem
    (fun k2 hk2 => mul_nonneg (by norm_num)
      (mul_nonneg (kernel_w_pos hk2).le (one_div_pos.2 hctpos).le))

/-- C4 counterexample: on a flat 3 by 1 strip carved at its center with
zero forward and side deposit distances, the edge cell 0 loses nothing in
pass 1 yet ends up strictly higher after the carve, and the source cell 1
ends up strictly above its pass-1 height: deposits land on cells that
lost nothing and return displaced mass to its own source cell. -/
theorem C4_counterexample :
    (carvePass1 cfg3 false flat3 1 1 0).1.sandHeight 0 = flat3.sandHeight 0 ∧
      flat3.sandHeight 0 <
        (carveTine cfg3 false (flat3, ⟨0, 0, 0, 0, true⟩) 1 0 1 1 0).1.sandHeight 0 ∧
      (carvePass1 cfg3 false flat3 1 1 0).1.sandHeight 1 <
        (carveTine cfg3 false (flat3, ⟨0, 0, 0, 0, true⟩) 1 0 1 1 0).1.sandHeight 1 := by
  have hperp : (-(normalizeDir (1:ℝ) 0).2, (normalizeDir (1:ℝ) 0).1) =
      (-(0:ℝ), (1:ℝ)) := by
    rw [normalizeDir_unitX]
  have hmemd : (⟨1, 0.3, 210, 190, 160⟩ : Disp) ∈
      (carvePass1 cfg3 false flat3 1 1 0).2 := by
    rw [(carvePass1_spec cfg3 false 1 1 0 flat3).1]
    exact List.mem_filterMap.2 ⟨((0:ℤ), (0:ℤ)), by decide, C4_p1_disp⟩
  have hamts := carvePass1_disp_amount cfg3 false flat3 1 1 0
  have hkpos : ∀ k ∈ rebuildGaussKernel 1, 0 < k.2.2 := fun k hk => kernel_w_pos hk
  have hcmem : ((1:ℤ), (0:ℤ), 0.3 * 0.70) ∈ depositCenters 3 ((1:ℝ), (0:ℝ))
      (-(0:ℝ), (1:ℝ)) (((1:ℤ):ℝ) * 0) (((1:ℤ):ℝ) * 0) ⟨1, 0.3, 210, 190, 160⟩ := by
    rw [C4_centers]
    exact List.mem_cons_self _ _
  have hgain : ∀ i : ℕ,
      0 < centerContrib cfg3 (rebuildGaussKernel 1) ((1:ℤ), (0:ℤ), 0.3 * 0.70) i →
      0 < pass2Contrib cfg3 (rebuildGaussKernel 1) ((1:ℝ), (0:ℝ)) (-(0:ℝ), (1:ℝ))
        (((1:ℤ):ℝ) * 0) (((1:ℤ):ℝ) * 0) (carvePass1 cfg3 false flat3 1 1 0).2 i := by
    intro i hpos
    refine lt_of_lt_of_le hpos
      (le_trans
        (dispContrib_ge_center cfg3 (rebuildGaussKernel 1) ((1:ℝ), (0:ℝ))
          (-(0:ℝ), (1:ℝ)) (((1:ℤ):ℝ) * 0) (((1:ℤ):ℝ) * 0)
          ⟨1, 0.3, 210, 190, 160⟩ i hcmem hkpos (by norm_num))
        (pass2Contrib_ge_disp cfg3 (rebuildGaussKernel 1) ((1:ℝ), (0:ℝ))
          (-(0:ℝ), (1:ℝ)) (((1:ℤ):ℝ) * 0) (((1:ℤ):ℝ) * 0)
          (carvePass1 cfg3 false flat3 1 1 0).2 i hmemd hkpos hamts))
  refine ⟨C4_p1_height0, ?_, ?_⟩
  · rw [carveTine_normal_height cfg3 flat3 ⟨0, 0, 0, 0, true⟩ 1 0 1 1 0 0,
      Int.floor_one, jsRound_one, jsRound_zero, hperp, normalizeDir_unitX]
    show (1:ℝ) < applyD ((carvePass1 cfg3 false flat3 1 1 0).1.sandHeight 0)
      (pass2Contrib cfg3 (rebuildGaussKernel 1) ((1:ℝ), (0:ℝ)) (-(0:ℝ), (1:ℝ))
        (((1:ℤ):ℝ) * 0) (((1:ℤ):ℝ) * 0) (carvePass1 cfg3 false flat3 1 1 0).2 0)
    rw [C4_p1_height0]
    exact lt_applyD (by norm_num) (hgain 0 C4_center_pos0)
  · rw [carveTine_normal_height cfg3 flat3 ⟨0, 0, 0, 0, true⟩ 1 0 1 1 0 1,
      Int.floor_one, jsRound_one, jsRound_zero, hperp, normalizeDir_unitX]
    show (carvePass1 cfg3 false flat3 1 1 0).1.sandHeight 1 <
      applyD ((carvePass1 cfg3 false flat3 1 1 0).1.sandHeight 1)
        (pass2Contrib cfg3 (rebuildGaussKernel 1) ((1:ℝ), (0:ℝ)) (-(0:ℝ), (1:ℝ))
          (((1:ℤ):ℝ) * 0) (((1:ℤ):ℝ) * 0) (carvePass1 cfg3 false flat3 1 1 0).2 1)
    have hle : (carvePass1 cfg3 false flat3 1 1 0).1.sandHeight 1 < 1.5 :=
      lt_of_le_of_lt (carvePass1_height_le cfg3 false flat3 1 1 0 1 (by decide))
        (show (1:ℝ) < 1.5 by norm_num)
    exact lt_applyD hle (hgain 1 C4_center_pos1)

/-- C4 amended: in a Normal-mode carveTine call, pass 1 never raises any
cell and pass 2 never lowers any cell (for heights within the legal
range): all losses happen in pass 1 and all gains in pass 2.  The claimed
restriction of deposits to pass-1 source cells is refuted separately. -/
theorem C4_pass_monotonicity (C : Cfg) (g : Grid) (d : DirtyRect)
    (x y radius dirX dirY : ℝ) (i : ℕ) (hi : i < C.W * C.H)
    (hv : ∀ j, j < C.W * C.H → g.sandHeight j ≤ 1.5) :
    (carvePass1 C false g ⌊radius⌋ (jsRound x) (jsRound y)).1.sandHeight i ≤
        g.sandHeight i ∧
      (carvePass1 C false g ⌊radius⌋ (jsRound x) (jsRound y)).1.sandHeight i ≤
        (carveTine C false (g, d) x y radius dirX dirY).1.sandHeight i := by
  refine ⟨carvePass1_height_le C false g ⌊radius⌋ (jsRound x) (jsRound y) i hi, ?_⟩
  rw [carveTine_normal_height C g d x y radius dirX dirY i]
  exact le_applyD _ _ (le_trans
    (carvePass1_height_le C false g ⌊radius⌋ (jsRound x) (jsRound y) i hi) (hv i hi))

theorem C4_pass_monotonicity_witness :
    (0 < 1 * 1) ∧ (∀ j, j < 1 * 1 → (fun _ : ℕ => (1:ℝ)) j ≤ 1.5) ∧
      ((carvePass1 ⟨1, 1, 0.3, 0.1, 1, 1.2, 0.8, 1, 1, 1, false, false, false,
          false, 0⟩ false ⟨fun _ => 1, fun _ => 210, fun _ => 190, fun _ => 160⟩
          ⌊(1:ℝ)⌋ (jsRound 0) (jsRound 0)).1.sandHeight 0 ≤
        (fun _ : ℕ => (1:ℝ)) 0 ∧
      (carvePass1 ⟨1, 1, 0.3, 0.1, 1, 1.2, 0.8, 1, 1, 1, false, false, false,
          false, 0⟩ false ⟨fun _ => 1, fun _ => 210, fun _ => 190, fun _ => 160⟩
          ⌊(1:ℝ)⌋ (jsRound 0) (jsRound 0)).1.sandHeight 0 ≤
        (carveTine ⟨1, 1, 0.3, 0.1, 1, 1.2, 0.8, 1, 1, 1, false, false, false,
          false, 0⟩ false
          (⟨fun _ => 1, fun _ => 210, fun _ => 190, fun _ => 160⟩,
            ⟨0, 0, 0, 0, true⟩) 0 0 1 0 0).1.sandHeight 0) :=
  ⟨by norm_num, fun j _ => by norm_num,
   C4_pass_monotonicity ⟨1, 1, 0.3, 0.1, 1, 1.2, 0.8, 1, 1, 1, false, false,
      false, false, 0⟩ ⟨fun _ => 1, fun _ => 210, fun _ => 190, fun _ => 160⟩
      ⟨0, 0, 0, 0, true⟩ 0 0 1 0 0 0 (by norm_num) (fun j _ => by norm_num)⟩

/-! ## C8: dirty rectangle soundness -/

/-- Membership of a cell in the tracked dirty rectangle. -/
def CellInRect (d : DirtyRect) (px py : ℤ) : Prop :=
  d.dirtyEmpty = false ∧ d.minX ≤ px ∧ px ≤ d.maxX ∧ d.minY ≤ py ∧ py ≤ d.maxY

/-- The dirty-tracking invariant: every in-bounds cell whose stored height
or color differs from the base captured at the last reset lies inside the
tracked rectangle. -/
def DirtyInv (C : Cfg) (base : Grid) (gd : Grid × DirtyRect) : Prop :=
  ∀ px py : ℤ, inB C.W C.H px py →
    gridAt gd.1 (flatIdx C.W px py) ≠ gridAt base (flatIdx C.W px py) →
    CellInRect gd.2 px py

theorem markDirty_mono (W H : ℕ) (d : DirtyRect) (x y radius : ℝ) {px py : ℤ}
    (h : CellInRect d px py) : CellInRect (markDirty W H d x y radius) px py := by
  obtain ⟨he, h1, h2, h3, h4⟩ := h
  unfold markDirty
  dsimp only
  rw [he, if_neg Bool.false_ne_true]
  exact ⟨rfl, le_trans (min_le_left _ _) h1, le_trans h2 (le_max_left _ _),
    le_trans (min_le_left _ _) h3, le_trans h4 (le_max_left _ _)⟩

theorem markDirty_covers (W H : ℕ) (d : DirtyRect) (x y radius : ℝ) {px py : ℤ}
    (hin : inB W H px py) (h1 : ⌊x⌋ - ⌈radius⌉ ≤ px) (h2 : px ≤ ⌈x⌉ + ⌈radius⌉)
    (h3 : ⌊y⌋ - ⌈radius⌉ ≤ py) (h4 : py ≤ ⌈y⌉ + ⌈radius⌉) :
    CellInRect (markDirty W H d x y radius) px py := by
  obtain ⟨hb1, hb2, hb3, hb4⟩ := hin
  unfold markDirty
  dsimp only
  split_ifs with hde
  · exact ⟨rfl, max_le hb1 h1, le_min (by omega) h2, max_le hb3 h3,
      le_min (by omega) h4⟩
  · exact ⟨rfl, le_trans (min_le_right _ _) (max_le hb1 h1),
      le_trans (le_min (by omega) h2) (le_max_right _ _),
      le_trans (min_le_right _ _) (max_le hb3 h3),
      le_trans (le_min (by omega) h4) (le_max_right _ _)⟩

theorem foldl_dirty_preserve {α : Type} (C : Cfg) (base : Grid)
    (f : Grid × DirtyRect → α → Grid × DirtyRect)
    (hf : ∀ gd a, DirtyInv C base gd → DirtyInv C base (f gd a)) :
    ∀ (l : List α) (gd : Grid × DirtyRect),
      DirtyInv C base gd → DirtyInv C base (l.foldl f gd) := by
  intro l
  induction l with
  | nil => intro gd h; exact h
  | cons a as ih => intro gd h; exact ih (f gd a) (hf gd a h)

theorem depositAt_dirty (C : Cfg) (base : Grid) (kernel : List (ℤ × ℤ × ℝ))
    (sR sG sB : ℝ) (gd : Grid × DirtyRect) (c : ℤ × ℤ × ℝ)
    (hker : ∀ k ∈ kernel, -(C.spread : ℤ) ≤ k.1 ∧ k.1 ≤ C.spread ∧
      -(C.spread : ℤ) ≤ k.2.1 ∧ k.2.1 ≤ C.spread)
    (hinv : DirtyInv C base gd) :
    DirtyInv C base (depositAt C kernel sR sG sB gd c) := by
  have hcr : (⌈(C.spread : ℝ) + 2⌉ : ℤ) = (C.spread : ℤ) + 2 := by
    rw [show ((C.spread : ℝ) + 2) = (((C.spread : ℤ) + 2 : ℤ) : ℝ) by push_cast; ring]
    exact Int.ceil_intCast _
  have hwrite : ∀ invC : ℝ,
      DirtyInv C base
        (kernel.foldl (depositEntryStep C sR sG sB c.1 c.2.1 invC c.2.2) gd.1,
         markDirty C.W C.H gd.2 (c.1 : ℝ) (c.2.1 : ℝ) ((C.spread : ℝ) + 2)) := by
    intro invC px py hin hne
    dsimp only at hne ⊢
    by_cases hch : gridAt
        (kernel.foldl (depositEntryStep C sR sG sB c.1 c.2.1 invC c.2.2) gd.1)
        (flatIdx C.W px py) = gridAt gd.1 (flatIdx C.W px py)
    · rw [hch] at hne
      exact markDirty_mono C.W C.H gd.2 _ _ _ (hinv px py hin hne)
    · have hex : ¬ ∀ k ∈ kernel, ¬(inB C.W C.H (c.1 + k.1) (c.2.1 + k.2.1) ∧
          flatIdx C.W (c.1 + k.1) (c.2.1 + k.2.1) = flatIdx C.W px py) :=
        fun hall => hch (foldl_depositEntryStep_frame C sR sG sB c.1 c.2.1
          invC c.2.2 kernel gd.1 (flatIdx C.W px py) hall)
      push_neg at hex
      obtain ⟨k, hk, hkin, hkeq⟩ := hex
      obtain ⟨hpx, hpy⟩ := flatIdx_inj hkin hin hkeq
      obtain ⟨hk1, hk2, hk3, hk4⟩ := hker k hk
      refine markDirty_covers C.W C.H gd.2 (c.1 : ℝ) (c.2.1 : ℝ)
        ((C.spread : ℝ) + 2) hin ?_ ?_ ?_ ?_
      · rw [Int.floor_intCast, hcr]
        omega
      · rw [Int.ceil_intCast, hcr]
        omega
      · rw [Int.floor_intCast, hcr]
        omega
      · rw [Int.ceil_intCast, hcr]
        omega
  unfold depositAt
  dsimp only
  split_ifs with hint hskip
  · exact hwrite 1.0
  · exact hinv
  · exact hwrite (1 / clippedTotal C kernel c.1 c.2.1)

theorem pass2Step_dirty (C : Cfg) (base : Grid) (kernel : List (ℤ × ℤ × ℝ))
    (nd perp : ℝ × ℝ) (fwdDist sideDist : ℝ)
    (hker : ∀ k ∈ kernel, -(C.spread : ℤ) ≤ k.1 ∧ k.1 ≤ C.spread ∧
      -(C.spread : ℤ) ≤ k.2.1 ∧ k.2.1 ≤ C.spread)
    (gd : Grid × DirtyRect) (d : Disp) (hinv : DirtyInv C base gd) :
    DirtyInv C base (pass2Step C kernel nd perp fwdDist sideDist gd d) := by
  unfold pass2Step
  exact foldl_dirty_preserve C base _
    (fun gd2 c h2 => depositAt_dirty C base kernel d.sR d.sG d.sB gd2 c hker h2)
    _ gd hinv

/-- C8: a carveTine call in either mode preserves the dirty-rectangle
invariant: every in-bounds cell whose height or color differs from the
base state at the last reset lies inside the tracked rectangle; pass-1
writes are covered by the radius+2 mark around the tine center and pass-2
writes by the spread+2 marks around each deposit center (the skipped
deposit writes nothing). -/
theorem C8_dirty_rect_invariant (C : Cfg) (base g : Grid) (d : DirtyRect)
    (dig : Bool) (x y radius dirX dirY : ℝ)
    (hinv : DirtyInv C base (g, d)) :
    DirtyInv C base (carveTine C dig (g, d) x y radius dirX dirY) := by
  have hcr : (⌈(⌊radius⌋ : ℝ) + 2⌉ : ℤ) = ⌊radius⌋ + 2 := by
    rw [show ((⌊radius⌋ : ℝ) + 2) = ((⌊radius⌋ + 2 : ℤ) : ℝ) by push_cast; ring]
    exact Int.ceil_intCast _
  have hd1 : DirtyInv C base
      ((carvePass1 C dig g ⌊radius⌋ (jsRound x) (jsRound y)).1,
       markDirty C.W C.H d ((jsRound x : ℤ) : ℝ) ((jsRound y : ℤ) : ℝ)
         ((⌊radius⌋ : ℝ) + 2)) := by
    intro px py hin hne
    dsimp only at hne ⊢
    by_cases hbox : (px - jsRound x, py - jsRound y) ∈ boxCells ⌊radius⌋
    · have hmb := mem_boxCells.1 hbox
      dsimp only at hmb
      obtain ⟨hmb1, hmb2, hmb3, hmb4⟩ := hmb
      refine markDirty_covers C.W C.H d ((jsRound x : ℤ) : ℝ) ((jsRound y : ℤ) : ℝ)
        ((⌊radius⌋ : ℝ) + 2) hin ?_ ?_ ?_ ?_
      · rw [Int.floor_intCast, hcr]
        omega
      · rw [Int.ceil_intCast, hcr]
        omega
      · rw [Int.floor_intCast, hcr]
        omega
      · rw [Int.ceil_intCast, hcr]
        omega
    · have hkey := carvePass1_at C dig ⌊radius⌋ (jsRound x) (jsRound y) g px py hin
      rw [if_neg hbox] at hkey
      rw [hkey] at hne
      exact markDirty_mono C.W C.H d _ _ _ (hinv px py hin hne)
  unfold carveTine
  dsimp only
  split_ifs with hdig
  · exact hd1
  · exact foldl_dirty_preserve C base _
      (fun gd2 dsp h2 => pass2Step_dirty C base (rebuildGaussKernel C.spread) _ _ _ _
        (fun k hk => kernel_offset_bound hk) gd2 dsp h2)
      _ _ hd1

theorem C8_dirty_rect_invariant_witness :
    DirtyInv cfg3 flat3 (flat3, ⟨0, 0, 0, 0, true⟩) ∧
      DirtyInv cfg3 flat3
        (carveTine cfg3 false (flat3, ⟨0, 0, 0, 0, true⟩) 1 0 1 1 0) :=
  ⟨fun _ _ _ hne => absurd rfl hne,
   C8_dirty_rect_invariant cfg3 flat3 flat3 ⟨0, 0, 0, 0, true⟩ false 1 0 1 1 0
     (fun _ _ _ hne => absurd rfl hne)⟩

/-! ## C7: mirrorV symmetry -/

/-- A 10 by 1 strip with long deposit distances (every deposit lands
outside the strip and is skipped). -/
def cfg10 : Cfg := ⟨10, 1, 0.3, 0, 1, 50, 50, 1, 1, 1, true, false, false, false, 0⟩

theorem applyD_zero (h : ℝ) : applyD h 0 = h := by
  unfold applyD
  rw [if_neg (lt_irrefl 0)]

theorem jsRound_intCast (n : ℤ) : jsRound ((n : ℤ) : ℝ) = n := by
  unfold jsRound
  rw [Int.floor_eq_iff]
  constructor <;> norm_num

theorem carvePass1_disp_idx (C : Cfg) (dig : Bool) (g : Grid) (r ix iy : ℤ) :
    ∀ d ∈ (carvePass1 C dig g r ix iy).2, d.idx < C.W * C.H := by
  intro d hd
  rw [(carvePass1_spec C dig r ix iy g).1] at hd
  obtain ⟨c, -, hc⟩ := List.mem_filterMap.1 hd
  unfold pass1DispAt at hc
  split_ifs at hc with hcin
  have hidx := (pass1Cell_disp_amount C dig r c _ _ _ _ _ hc).2
  rw [hidx]
  exact flatIdx_lt hcin

theorem centerContrib_skip (C : Cfg) (c : ℤ × ℤ × ℝ) (i : ℕ)
    (hout : ∀ k ∈ rebuildGaussKernel C.spread,
      ¬ inB C.W C.H (c.1 + k.1) (c.2.1 + k.2.1)) :
    centerContrib C (rebuildGaussKernel C.spread) c i = 0 := by
  have h00 : ((0:ℤ), (0:ℤ), 1 * (1 / gaussTotal C.spread)) ∈
      rebuildGaussKernel C.spread := by
    refine mem_rebuildGaussKernel.2 ⟨1, mem_gaussRaw.2 ⟨?_, by norm_num⟩, rfl⟩
    positivity
  have hct : clippedTotal C (rebuildGaussKernel C.spread) c.1 c.2.1 = 0 := by
    unfold clippedTotal
    rw [List.filter_eq_nil_iff.2 (fun k hk => by simpa using hout k hk)]
    rfl
  have hnotint : ¬ ((C.spread : ℤ) ≤ c.1 ∧ c.1 ≤ (C.W : ℤ) - 1 - C.spread ∧
      (C.spread : ℤ) ≤ c.2.1 ∧ c.2.1 ≤ (C.H : ℤ) - 1 - C.spread) := by
    intro hint
    obtain ⟨h1, h2, h3, h4⟩ := hint
    refine hout _ h00 ?_
    show inB C.W C.H (c.1 + 0) (c.2.1 + 0)
    exact ⟨by omega, by omega, by omega, by omega⟩
  unfold centerContrib
  rw [if_neg hnotint, if_pos (by rw [hct]; norm_num)]

theorem normalizeDir_unitY : normalizeDir 0 1 = (0, 1) := by
  unfold normalizeDir
  dsimp only
  rw [if_pos (by norm_num : (0:ℝ) * 0 + 1 * 1 > 0.000001)]
  norm_num [Real.sqrt_one]

theorem normalizeDir_negZeroY : normalizeDir (-0) 1 = (0, 1) := by
  unfold normalizeDir
  dsimp only
  rw [if_pos (by norm_num : (-0:ℝ) * -0 + 1 * 1 > 0.000001)]
  norm_num [Real.sqrt_one]

theorem C7_contrib_zero (disps : List Disp) (hidx : ∀ d ∈ disps, d.idx < 10)
    (i : ℕ) :
    pass2Contrib cfg10 (rebuildGaussKernel 1) ((0:ℝ), (1:ℝ)) ((-1:ℝ), (0:ℝ))
      (((1:ℤ):ℝ) * 50) (((1:ℤ):ℝ) * 50) disps i = 0 := by
  unfold pass2Contrib
  apply List.sum_eq_zero
  intro x hx
  obtain ⟨d, hd, rfl⟩ := List.mem_map.1 hx
  unfold dispContrib
  apply List.sum_eq_zero
  intro y hy
  obtain ⟨c, hc, rfl⟩ := List.mem_map.1 hy
  have hW := hidx d hd
  unfold depositCenters at hc
  dsimp only at hc
  have hbound : ∀ k ∈ rebuildGaussKernel 1,
      (-1:ℤ) ≤ k.1 ∧ k.1 ≤ 1 ∧ (-1:ℤ) ≤ k.2.1 ∧ k.2.1 ≤ 1 :=
    fun k hk => kernel_offset_bound hk
  rcases List.mem_cons.1 hc with rfl | hc
  · -- forward center: lands at row 50, far below the strip
    have hcy : jsRound (((d.idx / 10 : ℕ) : ℝ) + 1 * (((1:ℤ):ℝ) * 50)) = 50 := by
      rw [Nat.div_eq_of_lt hW]
      have : (((0:ℕ) : ℝ)) + 1 * (((1:ℤ):ℝ) * 50) = ((50 : ℤ) : ℝ) := by
        push_cast
        ring
      rw [this, jsRound_intCast]
    refine centerContrib_skip cfg10 _ _ (fun k hk hin => ?_)
    obtain ⟨hb1, hb2, hb3, hb4⟩ := hbound k hk
    have hin2 : (0:ℤ) ≤ jsRound (((d.idx % 10 : ℕ) : ℝ) + 0 * (((1:ℤ):ℝ) * 50)) + k.1 ∧
        jsRound (((d.idx % 10 : ℕ) : ℝ) + 0 * (((1:ℤ):ℝ) * 50)) + k.1 < 10 ∧
        (0:ℤ) ≤ jsRound (((d.idx / 10 : ℕ) : ℝ) + 1 * (((1:ℤ):ℝ) * 50)) + k.2.1 ∧
        jsRound (((d.idx / 10 : ℕ) : ℝ) + 1 * (((1:ℤ):ℝ) * 50)) + k.2.1 < 1 := hin
    rw [hcy] at hin2
    omega
  rcases List.mem_cons.1 hc with rfl | hc
  · -- first side center: 50 cells to the left
    have hgen1 : ∀ n : ℕ, ((n : ℕ) : ℝ) + (-1) * (((1:ℤ):ℝ) * 50) =
        (((n : ℤ) - 50 : ℤ) : ℝ) := fun n => by push_cast; ring
    have hcx : jsRound (((d.idx % 10 : ℕ) : ℝ) + (-1) * (((1:ℤ):ℝ) * 50)) =
        ((d.idx % 10 : ℕ) : ℤ) - 50 := by
      rw [hgen1 (d.idx % 10), jsRound_intCast]
    refine centerContrib_skip cfg10 _ _ (fun k hk hin => ?_)
    obtain ⟨hb1, hb2, hb3, hb4⟩ := hbound k hk
    have hin2 : (0:ℤ) ≤ jsRound (((d.idx % 10 : ℕ) : ℝ) + (-1) * (((1:ℤ):ℝ) * 50)) + k.1 ∧
        jsRound (((d.idx % 10 : ℕ) : ℝ) + (-1) * (((1:ℤ):ℝ) * 50)) + k.1 < 10 ∧
        (0:ℤ) ≤ jsRound (((d.idx / 10 : ℕ) : ℝ) + 0 * (((1:ℤ):ℝ) * 50)) + k.2.1 ∧
        jsRound (((d.idx / 10 : ℕ) : ℝ) + 0 * (((1:ℤ):ℝ) * 50)) + k.2.1 < 1 := hin
    rw [hcx] at hin2
    omega
  rcases List.mem_cons.1 hc with rfl | hc
  · -- second side center: 50 cells to the right
    have hgen2 : ∀ n : ℕ, ((n : ℕ) : ℝ) - (-1) * (((1:ℤ):ℝ) * 50) =
        (((n : ℤ) + 50 : ℤ) : ℝ) := fun n => by push_cast; ring
    have hcx : jsRound (((d.idx % 10 : ℕ) : ℝ) - (-1) * (((1:ℤ):ℝ) * 50)) =
        ((d.idx % 10 : ℕ) : ℤ) + 50 := by
      rw [hgen2 (d.idx % 10), jsRound_intCast]
    refine centerContrib_skip cfg10 _ _ (fun k hk hin => ?_)
    obtain ⟨hb1, hb2, hb3, hb4⟩ := hbound k hk
    have hin2 : (0:ℤ) ≤ jsRound (((d.idx % 10 : ℕ) : ℝ) - (-1) * (((1:ℤ):ℝ) * 50)) + k.1 ∧
        jsRound (((d.idx % 10 : ℕ) : ℝ) - (-1) * (((1:ℤ):ℝ) * 50)) + k.1 < 10 ∧
        (0:ℤ) ≤ jsRound (((d.idx / 10 : ℕ) : ℝ) - 0 * (((1:ℤ):ℝ) * 50)) + k.2.1 ∧
        jsRound (((d.idx / 10 : ℕ) : ℝ) - 0 * (((1:ℤ):ℝ) * 50)) + k.2.1 < 1 := hin
    rw [hcx] at hin2
    omega
  cases hc

theorem C7_p1_A :
    (carvePass1 cfg10 false flat3 1 1 0).1.sandHeight 1 = 0.7 := by
  have hin : inB 10 1 1 0 := by decide
  have hkey := carvePass1_at cfg10 false 1 1 0 flat3 1 0 hin
  rw [if_pos (by decide : ((1:ℤ) - 1, (0:ℤ) - 0) ∈ boxCells 1)] at hkey
  have hh : (carvePass1 cfg10 false flat3 1 1 0).1.sandHeight 1 =
      (pass1Cell cfg10 false 1 ((1:ℤ) - 1, (0:ℤ) - 0)
        (cellIdx 10 1 0 ((1:ℤ) - 1, (0:ℤ) - 0)) 1 210 190 160).1 :=
    congrArg Prod.fst hkey
  rw [hh]
  unfold pass1Cell
  dsimp only [cfg10]
  rw [show ((1:ℤ) - 1) = 0 by norm_num, show ((0:ℤ) - 0) = 0 by norm_num,
    tineProfileVal_r1_center]
  norm_num

theorem C7_p1_B :
    (carvePass1 cfg10 false flat3 1 9 0).1.sandHeight 8 = 1 := by
  have hin : inB 10 1 8 0 := by decide
  have hkey := carvePass1_at cfg10 false 1 9 0 flat3 8 0 hin
  rw [if_pos (by decide : ((8:ℤ) - 9, (0:ℤ) - 0) ∈ boxCells 1)] at hkey
  have hh : (carvePass1 cfg10 false flat3 1 9 0).1.sandHeight 8 =
      (pass1Cell cfg10 false 1 ((8:ℤ) - 9, (0:ℤ) - 0)
        (cellIdx 10 9 0 ((8:ℤ) - 9, (0:ℤ) - 0)) 1 210 190 160).1 :=
    congrArg Prod.fst hkey
  rw [hh]
  unfold pass1Cell
  dsimp only [cfg10]
  rw [show ((8:ℤ) - 9) = -1 by norm_num, show ((0:ℤ) - 0) = 0 by norm_num,
    tineProfileVal_r1_edge]
  norm_num

/-- C7 counterexample: on a flat 10 by 1 strip, carving at x = 0.5 and
the mirrored carve at x = (W-1) - 0.5 = 9 - 0.5 with the mirrored
direction do not produce mirror-image grids: Math.round breaks the tie at
half-integers toward plus infinity on both sides, so the first carve digs
cell 1 to 0.7 while the mirrored carve leaves the mirror cell 8 at height
1 (its groove lands at cell 9 instead). -/
theorem C7_counterexample :
    (carveTine cfg10 false (flat3, ⟨0, 0, 0, 0, true⟩) 0.5 0 1 0 1).1.sandHeight 1
        = 0.7 ∧
      (carveTine cfg10 false (flat3, ⟨0, 0, 0, 0, true⟩) (9 - 0.5) 0 1 (-0) 1).1.sandHeight 8
        = 1 ∧
      (carveTine cfg10 false (flat3, ⟨0, 0, 0, 0, true⟩) (9 - 0.5) 0 1 (-0) 1).1.sandHeight 8
        ≠ (carveTine cfg10 false (flat3, ⟨0, 0, 0, 0, true⟩) 0.5 0 1 0 1).1.sandHeight 1 := by
  have hjs05 : jsRound 0.5 = 1 := by
    unfold jsRound
    norm_num
  have hjs85 : jsRound (9 - 0.5) = 9 := by
    unfold jsRound
    norm_num
  have hperpA : (-(normalizeDir (0:ℝ) 1).2, (normalizeDir (0:ℝ) 1).1) =
      ((-1:ℝ), (0:ℝ)) := by
    rw [normalizeDir_unitY]
  have hperpB : (-(normalizeDir (-0:ℝ) 1).2, (normalizeDir (-0:ℝ) 1).1) =
      ((-1:ℝ), (0:ℝ)) := by
    rw [normalizeDir_negZeroY]
  have hidxA : ∀ d ∈ (carvePass1 cfg10 false flat3 1 1 0).2, d.idx < 10 :=
    fun d hd => carvePass1_disp_idx cfg10 false flat3 1 1 0 d hd
  have hidxB : ∀ d ∈ (carvePass1 cfg10 false flat3 1 9 0).2, d.idx < 10 :=
    fun d hd => carvePass1_disp_idx cfg10 false flat3 1 9 0 d hd
  have h1 : (carveTine cfg10 false (flat3, ⟨0, 0, 0, 0, true⟩) 0.5 0 1 0 1).1.sandHeight 1
      = 0.7 := by
    rw [carveTine_normal_height cfg10 flat3 ⟨0, 0, 0, 0, true⟩ 0.5 0 1 0 1 1,
      Int.floor_one, hjs05, jsRound_zero, hperpA, normalizeDir_unitY]
    show applyD ((carvePass1 cfg10 false flat3 1 1 0).1.sandHeight 1)
      (pass2Contrib cfg10 (rebuildGaussKernel 1) ((0:ℝ), (1:ℝ)) ((-1:ℝ), (0:ℝ))
        (((1:ℤ):ℝ) * 50) (((1:ℤ):ℝ) * 50)
        (carvePass1 cfg10 false flat3 1 1 0).2 1) = 0.7
    rw [C7_contrib_zero _ hidxA 1, applyD_zero]
    exact C7_p1_A
  have h2 : (carveTine cfg10 false (flat3, ⟨0, 0, 0, 0, true⟩) (9 - 0.5) 0 1 (-0) 1).1.sandHeight 8
      = 1 := by
    rw [carveTine_normal_height cfg10 flat3 ⟨0, 0, 0, 0, true⟩ (9 - 0.5) 0 1 (-0) 1 8,
      Int.floor_one, hjs85, jsRound_zero, hperpB, normalizeDir_negZeroY]
    show applyD ((carvePass1 cfg10 false flat3 1 9 0).1.sandHeight 8)
      (pass2Contrib cfg10 (rebuildGaussKernel 1) ((0:ℝ), (1:ℝ)) ((-1:ℝ), (0:ℝ))
        (((1:ℤ):ℝ) * 50) (((1:ℤ):ℝ) * 50)
        (carvePass1 cfg10 false flat3 1 9 0).2 8) = 1
    rw [C7_contrib_zero _ hidxB 8, applyD_zero]
    exact C7_p1_B
  exact ⟨h1, h2, by rw [h1, h2]; norm_num⟩

/-- Mirror of a flat cell index across the vertical symmetry axis
(x goes to W-1-x, y is kept). -/
def mirrorIdx (W i : ℕ) : ℕ := (i / W) * W + (W - 1 - i % W)

/-- A displacement record re-addressed to the vertically mirrored cell. -/
def mirrorDisp (W : ℕ) (d : Disp) : Disp :=
  ⟨mirrorIdx W d.idx, d.amount, d.sR, d.sG, d.sB⟩

theorem inB_mirror {W H : ℕ} {px py : ℤ} :
    inB W H ((W : ℤ) - 1 - px) py ↔ inB W H px py := by
  unfold inB
  omega

theorem flatIdx_eval {W H : ℕ} {px py : ℤ} (h : inB W H px py) :
    flatIdx W px py = py.toNat * W + px.toNat := by
  obtain ⟨h1, h2, h3, h4⟩ := h
  unfold flatIdx
  have hcast : py * (W : ℤ) + px = ((py.toNat * W + px.toNat : ℕ) : ℤ) := by
    push_cast
    rw [Int.toNat_of_nonneg h1, Int.toNat_of_nonneg h3]
  rw [hcast, Int.toNat_natCast]

theorem flatIdx_mod {W H : ℕ} {px py : ℤ} (h : inB W H px py) :
    flatIdx W px py % W = px.toNat := by
  rw [flatIdx_eval h, Nat.add_comm, Nat.add_mul_mod_self_right]
  obtain ⟨h1, h2, h3, h4⟩ := h
  exact Nat.mod_eq_of_lt (by omega)

theorem flatIdx_div {W H : ℕ} {px py : ℤ} (h : inB W H px py) :
    flatIdx W px py / W = py.toNat := by
  obtain ⟨h1, h2, h3, h4⟩ := h
  have hW : 0 < W := by omega
  rw [flatIdx_eval ⟨h1, h2, h3, h4⟩, Nat.add_comm, Nat.add_mul_div_right _ _ hW,
    Nat.div_eq_of_lt (by omega)]
  omega

theorem mirrorIdx_flatIdx {W H : ℕ} {px py : ℤ} (h : inB W H px py) :
    mirrorIdx W (flatIdx W px py) = flatIdx W ((W : ℤ) - 1 - px) py := by
  have hm := flatIdx_mod h
  have hd := flatIdx_div h
  have h2 : inB W H ((W : ℤ) - 1 - px) py := inB_mirror.2 h
  rw [flatIdx_eval h2]
  unfold mirrorIdx
  rw [hm, hd]
  obtain ⟨ha1, ha2, ha3, ha4⟩ := h
  congr 1
  omega

theorem tineProfileVal_negx (depth rim : ℝ) (r dx dy : ℤ) :
    tineProfileVal depth rim r (-dx) dy = tineProfileVal depth rim r dx dy := by
  unfold tineProfileVal
  rw [neg_mul_neg]

theorem normalizeDir_negX (a b : ℝ) :
    normalizeDir (-a) b = (-(normalizeDir a b).1, (normalizeDir a b).2) := by
  unfold normalizeDir
  dsimp only
  rw [show -a * -a = a * a by ring]
  split_ifs with h
  · rw [Prod.mk.injEq]
    exact ⟨neg_div _ a, rfl⟩
  · rw [Prod.mk.injEq]
    exact ⟨neg_zero.symm, rfl⟩

theorem pass1Cell_val_eq (C : Cfg) (dig : Bool) (r : ℤ) (c1 c2 : ℤ × ℤ)
    (htv : tineProfileVal C.depth C.rim r c1.1 c1.2 =
      tineProfileVal C.depth C.rim r c2.1 c2.2) (j1 j2 : ℕ) (h cR cG cB : ℝ) :
    (pass1Cell C dig r c1 j1 h cR cG cB).1 = (pass1Cell C dig r c2 j2 h cR cG cB).1 := by
  unfold pass1Cell
  dsimp only
  rw [htv]
  split_ifs <;> rfl

theorem pass1Cell_disp_mirrorIdx (C : Cfg) (r : ℤ) (c1 c2 : ℤ × ℤ)
    (htv : tineProfileVal C.depth C.rim r c1.1 c1.2 =
      tineProfileVal C.depth C.rim r c2.1 c2.2) (W' j : ℕ) (h cR cG cB : ℝ) :
    (pass1Cell C false r c1 (mirrorIdx W' j) h cR cG cB).2.2 =
      Option.map (mirrorDisp W') ((pass1Cell C false r c2 j h cR cG cB).2.2) := by
  unfold pass1Cell
  dsimp only
  rw [htv, if_neg Bool.false_ne_true]
  split_ifs <;> simp_all [mirrorDisp]

theorem tineProfileVal_negx_symm (depth rim : ℝ) (r : ℤ) (c : ℤ × ℤ) :
    tineProfileVal depth rim r c.1 c.2 =
      tineProfileVal depth rim r ((-c.1, c.2) : ℤ × ℤ).1 ((-c.1, c.2) : ℤ × ℤ).2 := by
  have h := tineProfileVal_negx depth rim r (-c.1) c.2
  rw [neg_neg] at h
  exact h

theorem pass1DispAt_mirror (C : Cfg) (r ix iy : ℤ) (g : Grid)
    (hsym : ∀ px py : ℤ, inB C.W C.H px py →
      gridAt g (flatIdx C.W ((C.W : ℤ) - 1 - px) py) = gridAt g (flatIdx C.W px py))
    (c : ℤ × ℤ) :
    pass1DispAt C false r ((C.W : ℤ) - 1 - ix) iy g c =
      Option.map (mirrorDisp C.W) (pass1DispAt C false r ix iy g (-c.1, c.2)) := by
  have hiff : cellIn C.W C.H ((C.W : ℤ) - 1 - ix) iy c ↔
      cellIn C.W C.H ix iy (-c.1, c.2) := by
    unfold cellIn
    rw [show (C.W : ℤ) - 1 - ix + c.1 = (C.W : ℤ) - 1 - (ix + (-c.1, c.2).1) by
      dsimp only; ring]
    exact inB_mirror
  unfold pass1DispAt
  by_cases hcin : cellIn C.W C.H ix iy (-c.1, c.2)
  · rw [if_pos (hiff.2 hcin), if_pos hcin]
    have hinA : inB C.W C.H (ix + -c.1) (iy + c.2) := hcin
    unfold pass1CellAt
    rw [show cellIdx C.W ((C.W : ℤ) - 1 - ix) iy c =
        flatIdx C.W ((C.W : ℤ) - 1 - (ix + -c.1)) (iy + c.2) from by
      show flatIdx C.W ((C.W : ℤ) - 1 - ix + c.1) (iy + c.2) =
        flatIdx C.W ((C.W : ℤ) - 1 - (ix + -c.1)) (iy + c.2)
      congr 1
      ring]
    rw [show cellIdx C.W ix iy (-c.1, c.2) = flatIdx C.W (ix + -c.1) (iy + c.2)
      from rfl]
    have hg := hsym (ix + -c.1) (iy + c.2) hinA
    have hgh : g.sandHeight (flatIdx C.W ((C.W : ℤ) - 1 - (ix + -c.1)) (iy + c.2)) =
        g.sandHeight (flatIdx C.W (ix + -c.1) (iy + c.2)) := congrArg (fun t => t.1) hg
    have hgr : g.sandR (flatIdx C.W ((C.W : ℤ) - 1 - (ix + -c.1)) (iy + c.2)) =
        g.sandR (flatIdx C.W (ix + -c.1) (iy + c.2)) := congrArg (fun t => t.2.1) hg
    have hgg : g.sandG (flatIdx C.W ((C.W : ℤ) - 1 - (ix + -c.1)) (iy + c.2)) =
        g.sandG (flatIdx C.W (ix + -c.1) (iy + c.2)) := congrArg (fun t => t.2.2.1) hg
    have hgb : g.sandB (flatIdx C.W ((C.W : ℤ) - 1 - (ix + -c.1)) (iy + c.2)) =
        g.sandB (flatIdx C.W (ix + -c.1) (iy + c.2)) := congrArg (fun t => t.2.2.2) hg
    rw [hgh, hgr, hgg, hgb,
      show flatIdx C.W ((C.W : ℤ) - 1 - (ix + -c.1)) (iy + c.2) =
        mirrorIdx C.W (flatIdx C.W (ix + -c.1) (iy + c.2)) from
          (mirrorIdx_flatIdx hinA).symm]
    exact pass1Cell_disp_mirrorIdx C r c (-c.1, c.2)
      (tineProfileVal_negx_symm C.depth C.rim r c) C.W _ _ _ _ _
  · rw [if_neg (fun hh => hcin (hiff.1 hh)), if_neg hcin]
    rfl

theorem boxCells_negx_perm (r : ℤ) :
    ((boxCells r).map (fun c : ℤ × ℤ => (-c.1, c.2))).Perm (boxCells r) := by
  refine (List.perm_ext_iff_of_nodup ?_ (boxCells_nodup r)).2 ?_
  · refine (boxCells_nodup r).map ?_
    intro a b hab
    have h1 : -a.1 = -b.1 := congrArg (fun t => t.1) hab
    have h2 : a.2 = b.2 := congrArg (fun t => t.2) hab
    exact Prod.ext (by omega) h2
  · intro a
    simp only [List.mem_map]
    constructor
    · rintro ⟨c, hc, rfl⟩
      rw [mem_boxCells] at hc ⊢
      dsimp only
      omega
    · intro ha
      refine ⟨(-a.1, a.2), ?_, ?_⟩
      · rw [mem_boxCells] at ha ⊢
        dsimp only
        omega
      · dsimp only
        rw [neg_neg]

theorem carvePass1_mirror_disps (C : Cfg) (g : Grid) (r ix iy : ℤ)
    (hsym : ∀ px py : ℤ, inB C.W C.H px py →
      gridAt g (flatIdx C.W ((C.W : ℤ) - 1 - px) py) = gridAt g (flatIdx C.W px py)) :
    ((carvePass1 C false g r ((C.W : ℤ) - 1 - ix) iy).2).Perm
      (((carvePass1 C false g r ix iy).2).map (mirrorDisp C.W)) := by
  rw [(carvePass1_spec C false r ((C.W : ℤ) - 1 - ix) iy g).1,
    (carvePass1_spec C false r ix iy g).1, List.map_filterMap]
  have h1 : (boxCells r).filterMap (pass1DispAt C false r ((C.W : ℤ) - 1 - ix) iy g) =
      ((boxCells r).map (fun c : ℤ × ℤ => (-c.1, c.2))).filterMap
        (fun c => Option.map (mirrorDisp C.W) (pass1DispAt C false r ix iy g c)) := by
    rw [List.filterMap_map]
    exact List.filterMap_congr (fun c _ => pass1DispAt_mirror C r ix iy g hsym c)
  rw [h1]
  exact List.Perm.filterMap _ (boxCells_negx_perm r)

theorem carvePass1_mirror_height (C : Cfg) (g : Grid) (r ix iy : ℤ)
    (hsym : ∀ px py : ℤ, inB C.W C.H px py →
      gridAt g (flatIdx C.W ((C.W : ℤ) - 1 - px) py) = gridAt g (flatIdx C.W px py))
    (px py : ℤ) (hin : inB C.W C.H px py) :
    (carvePass1 C false g r ((C.W : ℤ) - 1 - ix) iy).1.sandHeight
        (flatIdx C.W ((C.W : ℤ) - 1 - px) py) =
      (carvePass1 C false g r ix iy).1.sandHeight (flatIdx C.W px py) := by
  have hinB : inB C.W C.H ((C.W : ℤ) - 1 - px) py := inB_mirror.2 hin
  have hkeyA := carvePass1_at C false r ix iy g px py hin
  have hkeyB := carvePass1_at C false r ((C.W : ℤ) - 1 - ix) iy g
    ((C.W : ℤ) - 1 - px) py hinB
  have hoff : (((C.W : ℤ) - 1 - px) - ((C.W : ℤ) - 1 - ix), py - iy) =
      ((-(px - ix), py - iy) : ℤ × ℤ) := by
    rw [Prod.mk.injEq]
    exact ⟨by ring, rfl⟩
  rw [hoff] at hkeyB
  have hmem : (-(px - ix), py - iy) ∈ boxCells r ↔ (px - ix, py - iy) ∈ boxCells r := by
    rw [mem_boxCells, mem_boxCells]
    dsimp only
    omega
  by_cases hbox : (px - ix, py - iy) ∈ boxCells r
  · rw [if_pos (hmem.2 hbox)] at hkeyB
    rw [if_pos hbox] at hkeyA
    have hhB : (carvePass1 C false g r ((C.W : ℤ) - 1 - ix) iy).1.sandHeight
        (flatIdx C.W ((C.W : ℤ) - 1 - px) py) =
        (pass1CellAt C false r ((C.W : ℤ) - 1 - ix) iy g (-(px - ix), py - iy)).1 :=
      congrArg Prod.fst hkeyB
    have hhA : (carvePass1 C false g r ix iy).1.sandHeight (flatIdx C.W px py) =
        (pass1CellAt C false r ix iy g (px - ix, py - iy)).1 :=
      congrArg Prod.fst hkeyA
    rw [hhB, hhA]
    unfold pass1CellAt
    rw [show cellIdx C.W ((C.W : ℤ) - 1 - ix) iy (-(px - ix), py - iy) =
        flatIdx C.W ((C.W : ℤ) - 1 - px) py from by
      show flatIdx C.W ((C.W : ℤ) - 1 - ix + -(px - ix)) (iy + (py - iy)) =
        flatIdx C.W ((C.W : ℤ) - 1 - px) py
      congr 1 <;> ring]
    rw [show cellIdx C.W ix iy (px - ix, py - iy) = flatIdx C.W px py from
      cellIdx_sub C.W ix iy px py]
    have hg := hsym px py hin
    have hgh : g.sandHeight (flatIdx C.W ((C.W : ℤ) - 1 - px) py) =
        g.sandHeight (flatIdx C.W px py) := congrArg (fun t => t.1) hg
    have hgr : g.sandR (flatIdx C.W ((C.W : ℤ) - 1 - px) py) =
        g.sandR (flatIdx C.W px py) := congrArg (fun t => t.2.1) hg
    have hgg : g.sandG (flatIdx C.W ((C.W : ℤ) - 1 - px) py) =
        g.sandG (flatIdx C.W px py) := congrArg (fun t => t.2.2.1) hg
    have hgb : g.sandB (flatIdx C.W ((C.W : ℤ) - 1 - px) py) =
        g.sandB (flatIdx C.W px py) := congrArg (fun t => t.2.2.2) hg
    rw [hgh, hgr, hgg, hgb]
    exact pass1Cell_val_eq C false r (-(px - ix), py - iy) (px - ix, py - iy)
      (by
        have h := tineProfileVal_negx C.depth C.rim r (px - ix) (py - iy)
        exact h) _ _ _ _ _ _
  · rw [if_neg (fun hh => hbox (hmem.1 hh))] at hkeyB
    rw [if_neg hbox] at hkeyA
    have hhB : (carvePass1 C false g r ((C.W : ℤ) - 1 - ix) iy).1.sandHeight
        (flatIdx C.W ((C.W : ℤ) - 1 - px) py) =
        g.sandHeight (flatIdx C.W ((C.W : ℤ) - 1 - px) py) :=
      congrArg Prod.fst hkeyB
    have hhA : (carvePass1 C false g r ix iy).1.sandHeight (flatIdx C.W px py) =
        g.sandHeight (flatIdx C.W px py) := congrArg Prod.fst hkeyA
    have hgh : g.sandHeight (flatIdx C.W ((C.W : ℤ) - 1 - px) py) =
        g.sandHeight (flatIdx C.W px py) := congrArg (fun t => t.1) (hsym px py hin)
    rw [hhB, hhA, hgh]

theorem gaussRaw_nodup (r : ℕ) : (gaussRaw r).Nodup := by
  unfold gaussRaw
  rw [List.nodup_flatMap]
  constructor
  · intro sy _
    refine List.Nodup.filterMap ?_ (offsetRange_nodup r)
    intro a a' b hb hb'
    split_ifs at hb hb' <;> simp_all
    exact congrArg (fun t => t.1) (hb.trans hb'.symm)
  · refine (offsetRange_nodup r).imp ?_
    intro a b hab x hxa hxb
    obtain ⟨dxa, -, ha⟩ := List.mem_filterMap.1 hxa
    obtain ⟨dxb, -, hb⟩ := List.mem_filterMap.1 hxb
    split_ifs at ha hb
    simp_all
    exact absurd (congrArg (fun t => t.2.1) (ha.trans hb.symm)) hab

theorem rebuildGaussKernel_nodup (r : ℕ) : (rebuildGaussKernel r).Nodup := by
  unfold rebuildGaussKernel
  refine (gaussRaw_nodup r).map ?_
  intro e e' he
  have h1 : e.1 = e'.1 := congrArg (fun t => t.1) he
  have h2 : e.2.1 = e'.2.1 := congrArg (fun t => t.2.1) he
  have h3 : e.2.2 * (1 / gaussTotal r) = e'.2.2 * (1 / gaussTotal r) :=
    congrArg (fun t => t.2.2) he
  have hinv : (1 / gaussTotal r : ℝ) ≠ 0 := one_div_ne_zero (gaussTotal_pos r).ne'
  exact Prod.ext h1 (Prod.ext h2 (mul_right_cancel₀ hinv h3))

theorem kernel_negx_perm (r : ℕ) :
    ((rebuildGaussKernel r).map
      (fun k : ℤ × ℤ × ℝ => ((-k.1, k.2.1, k.2.2) : ℤ × ℤ × ℝ))).Perm
      (rebuildGaussKernel r) := by
  refine (List.perm_ext_iff_of_nodup ?_ (rebuildGaussKernel_nodup r)).2 ?_
  · refine (rebuildGaussKernel_nodup r).map ?_
    intro a b hab
    have h1 : -a.1 = -b.1 := congrArg (fun t => t.1) hab
    have h2 : a.2.1 = b.2.1 := congrArg (fun t => t.2.1) hab
    have h3 : a.2.2 = b.2.2 := congrArg (fun t => t.2.2) hab
    exact Prod.ext (by omega) (Prod.ext h2 h3)
  · intro a
    simp only [List.mem_map]
    constructor
    · rintro ⟨⟨kx, ky, kw⟩, hk, rfl⟩
      rw [mem_rebuildGaussKernel] at hk ⊢
      obtain ⟨w0, hw0, rfl⟩ := hk
      refine ⟨w0, ?_, rfl⟩
      rw [mem_gaussRaw] at hw0 ⊢
      exact ⟨by rw [neg_mul_neg]; exact hw0.1, by rw [neg_mul_neg]; exact hw0.2⟩
    · intro ha
      obtain ⟨ax, ay, aw⟩ := a
      refine ⟨(-ax, ay, aw), ?_, ?_⟩
      · rw [mem_rebuildGaussKernel] at ha ⊢
        obtain ⟨w0, hw0, rfl⟩ := ha
        refine ⟨w0, ?_, rfl⟩
        rw [mem_gaussRaw] at hw0 ⊢
        exact ⟨by rw [neg_mul_neg]; exact hw0.1, by rw [neg_mul_neg]; exact hw0.2⟩
      · dsimp only
        rw [neg_neg]

theorem entryContrib_mirror (C : Cfg) (cx cy : ℤ) (invC amount : ℝ)
    (k : ℤ × ℤ × ℝ) (px py : ℤ) (hin : inB C.W C.H px py) :
    entryContrib C ((C.W : ℤ) - 1 - cx) cy invC amount k
        (flatIdx C.W ((C.W : ℤ) - 1 - px) py) =
      entryContrib C cx cy invC amount ((-k.1, k.2.1, k.2.2) : ℤ × ℤ × ℝ)
        (flatIdx C.W px py) := by
  unfold entryContrib
  dsimp only
  rw [show (C.W : ℤ) - 1 - cx + k.1 = (C.W : ℤ) - 1 - (cx + -k.1) by ring]
  have hiff : (inB C.W C.H ((C.W : ℤ) - 1 - (cx + -k.1)) (cy + k.2.1) ∧
      flatIdx C.W ((C.W : ℤ) - 1 - (cx + -k.1)) (cy + k.2.1) =
        flatIdx C.W ((C.W : ℤ) - 1 - px) py) ↔
      (inB C.W C.H (cx + -k.1) (cy + k.2.1) ∧
        flatIdx C.W (cx + -k.1) (cy + k.2.1) = flatIdx C.W px py) := by
    constructor
    · rintro ⟨hb, he⟩
      refine ⟨inB_mirror.1 hb, ?_⟩
      obtain ⟨h1, h2⟩ := flatIdx_inj hb (inB_mirror.2 hin) he
      rw [show cx + -k.1 = px by omega, h2]
    · rintro ⟨hb, he⟩
      refine ⟨inB_mirror.2 hb, ?_⟩
      obtain ⟨h1, h2⟩ := flatIdx_inj hb hin he
      rw [h1, h2]
  by_cases hcond : inB C.W C.H (cx + -k.1) (cy + k.2.1) ∧
      flatIdx C.W (cx + -k.1) (cy + k.2.1) = flatIdx C.W px py
  · rw [if_pos (hiff.2 hcond), if_pos hcond]
  · rw [if_neg (fun hh => hcond (hiff.1 hh)), if_neg hcond]

theorem kernelContrib_mirror (C : Cfg) (cx cy : ℤ) (invC amount : ℝ)
    (px py : ℤ) (hin : inB C.W C.H px py) :
    kernelContrib C ((C.W : ℤ) - 1 - cx) cy invC amount (rebuildGaussKernel C.spread)
        (flatIdx C.W ((C.W : ℤ) - 1 - px) py) =
      kernelContrib C cx cy invC amount (rebuildGaussKernel C.spread)
        (flatIdx C.W px py) := by
  unfold kernelContrib
  have hpt : ∀ k ∈ rebuildGaussKernel C.spread,
      entryContrib C ((C.W : ℤ) - 1 - cx) cy invC amount k
        (flatIdx C.W ((C.W : ℤ) - 1 - px) py) =
      ((fun k2 => entryContrib C cx cy invC amount k2 (flatIdx C.W px py)) ∘
        (fun k2 : ℤ × ℤ × ℝ => ((-k2.1, k2.2.1, k2.2.2) : ℤ × ℤ × ℝ))) k :=
    fun k _ => entryContrib_mirror C cx cy invC amount k px py hin
  rw [List.map_congr_left hpt, ← List.map_map]
  exact ((kernel_negx_perm C.spread).map _).sum_eq

theorem clippedTotal_mirror (C : Cfg) (cx cy : ℤ) :
    clippedTotal C (rebuildGaussKernel C.spread) ((C.W : ℤ) - 1 - cx) cy =
      clippedTotal C (rebuildGaussKernel C.spread) cx cy := by
  unfold clippedTotal
  have h1 : ((((rebuildGaussKernel C.spread).map
        (fun k : ℤ × ℤ × ℝ => ((-k.1, k.2.1, k.2.2) : ℤ × ℤ × ℝ))).filter
      (fun k => decide (inB C.W C.H (cx + k.1) (cy + k.2.1)))).map
        (fun k => k.2.2)).sum =
      (((rebuildGaussKernel C.spread).filter
        (fun k => decide (inB C.W C.H (cx + k.1) (cy + k.2.1)))).map
          (fun k => k.2.2)).sum :=
    (((kernel_negx_perm C.spread).filter _).map _).sum_eq
  rw [← h1, List.filter_map, List.map_map]
  have hflt : ∀ k ∈ rebuildGaussKernel C.spread,
      decide (inB C.W C.H ((C.W : ℤ) - 1 - cx + k.1) (cy + k.2.1)) =
        ((fun k2 : ℤ × ℤ × ℝ => decide (inB C.W C.H (cx + k2.1) (cy + k2.2.1))) ∘
          (fun k2 : ℤ × ℤ × ℝ => ((-k2.1, k2.2.1, k2.2.2) : ℤ × ℤ × ℝ))) k := by
    intro k _
    show decide (inB C.W C.H ((C.W : ℤ) - 1 - cx + k.1) (cy + k.2.1)) =
      decide (inB C.W C.H (cx + -k.1) (cy + k.2.1))
    refine decide_eq_decide.2 ?_
    rw [show (C.W : ℤ) - 1 - cx + k.1 = (C.W : ℤ) - 1 - (cx + -k.1) by ring]
    exact inB_mirror
  rw [List.filter_congr hflt]
  rfl

theorem centerContrib_mirror (C : Cfg) (c : ℤ × ℤ × ℝ) (px py : ℤ)
    (hin : inB C.W C.H px py) :
    centerContrib C (rebuildGaussKernel C.spread)
        (((C.W : ℤ) - 1 - c.1, c.2.1, c.2.2) : ℤ × ℤ × ℝ)
        (flatIdx C.W ((C.W : ℤ) - 1 - px) py) =
      centerContrib C (rebuildGaussKernel C.spread) c (flatIdx C.W px py) := by
  unfold centerContrib
  dsimp only
  have hint_iff : ((C.spread : ℤ) ≤ (C.W : ℤ) - 1 - c.1 ∧
      (C.W : ℤ) - 1 - c.1 ≤ (C.W : ℤ) - 1 - C.spread ∧
      (C.spread : ℤ) ≤ c.2.1 ∧ c.2.1 ≤ (C.H : ℤ) - 1 - C.spread) ↔
      ((C.spread : ℤ) ≤ c.1 ∧ c.1 ≤ (C.W : ℤ) - 1 - C.spread ∧
      (C.spread : ℤ) ≤ c.2.1 ∧ c.2.1 ≤ (C.H : ℤ) - 1 - C.spread) := by
    omega
  rw [clippedTotal_mirror]
  by_cases hint : (C.spread : ℤ) ≤ c.1 ∧ c.1 ≤ (C.W : ℤ) - 1 - C.spread ∧
      (C.spread : ℤ) ≤ c.2.1 ∧ c.2.1 ≤ (C.H : ℤ) - 1 - C.spread
  · rw [if_pos (hint_iff.2 hint), if_pos hint]
    exact kernelContrib_mirror C c.1 c.2.1 1.0 c.2.2 px py hin
  · rw [if_neg (fun hh => hint (hint_iff.1 hh)), if_neg hint]
    by_cases hskip : clippedTotal C (rebuildGaussKernel C.spread) c.1 c.2.1 < 0.001
    · rw [if_pos hskip, if_pos hskip]
    · rw [if_neg hskip, if_neg hskip]
      exact kernelContrib_mirror C c.1 c.2.1 _ c.2.2 px py hin

theorem mirrorIdx_mod {W : ℕ} (hW : 0 < W) (i : ℕ) :
    mirrorIdx W i % W = W - 1 - i % W := by
  unfold mirrorIdx
  rw [Nat.add_comm, Nat.add_mul_mod_self_right]
  exact Nat.mod_eq_of_lt (by omega)

theorem mirrorIdx_div {W : ℕ} (hW : 0 < W) (i : ℕ) :
    mirrorIdx W i / W = i / W := by
  unfold mirrorIdx
  rw [Nat.add_comm, Nat.add_mul_div_right _ _ hW, Nat.div_eq_of_lt (by omega)]
  omega

theorem dispContrib_mirror (C : Cfg) (nd : ℝ × ℝ) (fwdDist sideDist : ℝ)
    (d : Disp) (hW : 0 < C.W)
    (hf : ∀ n : ℕ, n < C.W →
      jsRound ((C.W : ℝ) - 1 - ((n : ℝ) + nd.1 * fwdDist)) =
        (C.W : ℤ) - 1 - jsRound ((n : ℝ) + nd.1 * fwdDist))
    (hsp : ∀ n : ℕ, n < C.W →
      jsRound ((C.W : ℝ) - 1 - ((n : ℝ) + nd.2 * sideDist)) =
        (C.W : ℤ) - 1 - jsRound ((n : ℝ) + nd.2 * sideDist))
    (hsm : ∀ n : ℕ, n < C.W →
      jsRound ((C.W : ℝ) - 1 - ((n : ℝ) - nd.2 * sideDist)) =
        (C.W : ℤ) - 1 - jsRound ((n : ℝ) - nd.2 * sideDist))
    (px py : ℤ) (hin : inB C.W C.H px py) :
    dispContrib C (rebuildGaussKernel C.spread) ((-nd.1, nd.2) : ℝ × ℝ)
        ((-nd.2, -nd.1) : ℝ × ℝ) fwdDist sideDist (mirrorDisp C.W d)
        (flatIdx C.W ((C.W : ℤ) - 1 - px) py) =
      dispContrib C (rebuildGaussKernel C.spread) nd ((-nd.2, nd.1) : ℝ × ℝ)
        fwdDist sideDist d (flatIdx C.W px py) := by
  have hmlt : d.idx % C.W < C.W := Nat.mod_lt _ hW
  have hcm : ((C.W - 1 - d.idx % C.W : ℕ) : ℝ) =
      (C.W : ℝ) - 1 - ((d.idx % C.W : ℕ) : ℝ) := by
    rw [Nat.cast_sub (by omega), Nat.cast_sub (by omega), Nat.cast_one]
  have hm := mirrorIdx_mod hW d.idx
  have hq := mirrorIdx_div hW d.idx
  have hBfwd : centerContrib C (rebuildGaussKernel C.spread)
      (jsRound (((mirrorIdx C.W d.idx % C.W : ℕ) : ℝ) + -nd.1 * fwdDist),
       jsRound (((mirrorIdx C.W d.idx / C.W : ℕ) : ℝ) + nd.2 * fwdDist),
       d.amount * 0.70)
      (flatIdx C.W ((C.W : ℤ) - 1 - px) py) =
    centerContrib C (rebuildGaussKernel C.spread)
      (jsRound (((d.idx % C.W : ℕ) : ℝ) + nd.1 * fwdDist),
       jsRound (((d.idx / C.W : ℕ) : ℝ) + nd.2 * fwdDist), d.amount * 0.70)
      (flatIdx C.W px py) := by
    rw [hm, hcm, hq,
      show (C.W : ℝ) - 1 - ((d.idx % C.W : ℕ) : ℝ) + -nd.1 * fwdDist =
        (C.W : ℝ) - 1 - (((d.idx % C.W : ℕ) : ℝ) + nd.1 * fwdDist) by ring,
      hf (d.idx % C.W) hmlt]
    exact centerContrib_mirror C
      (jsRound (((d.idx % C.W : ℕ) : ℝ) + nd.1 * fwdDist),
       jsRound (((d.idx / C.W : ℕ) : ℝ) + nd.2 * fwdDist), d.amount * 0.70)
      px py hin
  have hBs1 : centerContrib C (rebuildGaussKernel C.spread)
      (jsRound (((mirrorIdx C.W d.idx % C.W : ℕ) : ℝ) + -nd.2 * sideDist),
       jsRound (((mirrorIdx C.W d.idx / C.W : ℕ) : ℝ) + -nd.1 * sideDist),
       d.amount * 0.15)
      (flatIdx C.W ((C.W : ℤ) - 1 - px) py) =
    centerContrib C (rebuildGaussKernel C.spread)
      (jsRound (((d.idx % C.W : ℕ) : ℝ) - -nd.2 * sideDist),
       jsRound (((d.idx / C.W : ℕ) : ℝ) - nd.1 * sideDist), d.amount * 0.15)
      (flatIdx C.W px py) := by
    rw [hm, hcm, hq,
      show (C.W : ℝ) - 1 - ((d.idx % C.W : ℕ) : ℝ) + -nd.2 * sideDist =
        (C.W : ℝ) - 1 - (((d.idx % C.W : ℕ) : ℝ) + nd.2 * sideDist) by ring,
      hsp (d.idx % C.W) hmlt,
      show ((d.idx % C.W : ℕ) : ℝ) + nd.2 * sideDist =
        ((d.idx % C.W : ℕ) : ℝ) - -nd.2 * sideDist by ring,
      show ((d.idx / C.W : ℕ) : ℝ) + -nd.1 * sideDist =
        ((d.idx / C.W : ℕ) : ℝ) - nd.1 * sideDist by ring]
    exact centerContrib_mirror C
      (jsRound (((d.idx % C.W : ℕ) : ℝ) - -nd.2 * sideDist),
       jsRound (((d.idx / C.W : ℕ) : ℝ) - nd.1 * sideDist), d.amount * 0.15)
      px py hin
  have hBs2 : centerContrib C (rebuildGaussKernel C.spread)
      (jsRound (((mirrorIdx C.W d.idx % C.W : ℕ) : ℝ) - -nd.2 * sideDist),
       jsRound (((mirrorIdx C.W d.idx / C.W : ℕ) : ℝ) - -nd.1 * sideDist),
       d.amount * 0.15)
      (flatIdx C.W ((C.W : ℤ) - 1 - px) py) =
    centerContrib C (rebuildGaussKernel C.spread)
      (jsRound (((d.idx % C.W : ℕ) : ℝ) + -nd.2 * sideDist),
       jsRound (((d.idx / C.W : ℕ) : ℝ) + nd.1 * sideDist), d.amount * 0.15)
      (flatIdx C.W px py) := by
    rw [hm, hcm, hq,
      show (C.W : ℝ) - 1 - ((d.idx % C.W : ℕ) : ℝ) - -nd.2 * sideDist =
        (C.W : ℝ) - 1 - (((d.idx % C.W : ℕ) : ℝ) - nd.2 * sideDist) by ring,
      hsm (d.idx % C.W) hmlt,
      show ((d.idx % C.W : ℕ) : ℝ) - nd.2 * sideDist =
        ((d.idx % C.W : ℕ) : ℝ) + -nd.2 * sideDist by ring,
      show ((d.idx / C.W : ℕ) : ℝ) - -nd.1 * sideDist =
        ((d.idx / C.W : ℕ) : ℝ) + nd.1 * sideDist by ring]
    exact centerContrib_mirror C
      (jsRound (((d.idx % C.W : ℕ) : ℝ) + -nd.2 * sideDist),
       jsRound (((d.idx / C.W : ℕ) : ℝ) + nd.1 * sideDist), d.amount * 0.15)
      px py hin
  unfold dispContrib depositCenters mirrorDisp
  dsimp only
  simp only [List.map_cons, List.map_nil, List.sum_cons, List.sum_nil]
  rw [hBfwd, hBs1, hBs2]
  ring

/-- C7 amended: for a single Normal-mode carveTine on a left-right
mirror-symmetric grid, the mirrored call (center (W-1)-x, direction
(-dirX, dirY), exactly the reflection getSymmetryPoints generates for
mirrorV) produces the mirrored height field, provided the finitely many
Math.round calls involved (the tine center and the three deposit-center
x coordinates for every source column) commute with the reflection, i.e.
none of them lands on a rounding tie.  Colors are not covered: the
deposit order at a shared cell differs between the two calls and the
sequential color mix is order-dependent. -/
theorem C7_mirrorV_heights (C : Cfg) (g : Grid) (dA dB : DirtyRect)
    (x y radius dirX dirY : ℝ)
    (hsym : ∀ px py : ℤ, inB C.W C.H px py →
      gridAt g (flatIdx C.W ((C.W : ℤ) - 1 - px) py) = gridAt g (flatIdx C.W px py))
    (hix : jsRound ((C.W : ℝ) - 1 - x) = (C.W : ℤ) - 1 - jsRound x)
    (hf : ∀ n : ℕ, n < C.W →
      jsRound ((C.W : ℝ) - 1 -
          ((n : ℝ) + (normalizeDir dirX dirY).1 * ((⌊radius⌋ : ℝ) * C.fwdD))) =
        (C.W : ℤ) - 1 -
          jsRound ((n : ℝ) + (normalizeDir dirX dirY).1 * ((⌊radius⌋ : ℝ) * C.fwdD)))
    (hsp : ∀ n : ℕ, n < C.W →
      jsRound ((C.W : ℝ) - 1 -
          ((n : ℝ) + (normalizeDir dirX dirY).2 * ((⌊radius⌋ : ℝ) * C.sideD))) =
        (C.W : ℤ) - 1 -
          jsRound ((n : ℝ) + (normalizeDir dirX dirY).2 * ((⌊radius⌋ : ℝ) * C.sideD)))
    (hsm : ∀ n : ℕ, n < C.W →
      jsRound ((C.W : ℝ) - 1 -
          ((n : ℝ) - (normalizeDir dirX dirY).2 * ((⌊radius⌋ : ℝ) * C.sideD))) =
        (C.W : ℤ) - 1 -
          jsRound ((n : ℝ) - (normalizeDir dirX dirY).2 * ((⌊radius⌋ : ℝ) * C.sideD)))
    (px py : ℤ) (hin : inB C.W C.H px py) :
    (carveTine C false (g, dB) ((C.W : ℝ) - 1 - x) y radius (-dirX) dirY).1.sandHeight
        (flatIdx C.W ((C.W : ℤ) - 1 - px) py) =
      (carveTine C false (g, dA) x y radius dirX dirY).1.sandHeight
        (flatIdx C.W px py) := by
  have hW : 0 < C.W := by
    obtain ⟨h1, h2, -, -⟩ := hin
    omega
  rw [carveTine_normal_height C g dB ((C.W : ℝ) - 1 - x) y radius (-dirX) dirY
      (flatIdx C.W ((C.W : ℤ) - 1 - px) py),
    carveTine_normal_height C g dA x y radius dirX dirY (flatIdx C.W px py),
    hix, normalizeDir_negX]
  dsimp only
  rw [carvePass1_mirror_height C g ⌊radius⌋ (jsRound x) (jsRound y) hsym px py hin]
  have hcontrib : pass2Contrib C (rebuildGaussKernel C.spread)
      ((-(normalizeDir dirX dirY).1, (normalizeDir dirX dirY).2) : ℝ × ℝ)
      ((-(normalizeDir dirX dirY).2, -(normalizeDir dirX dirY).1) : ℝ × ℝ)
      ((⌊radius⌋ : ℝ) * C.fwdD) ((⌊radius⌋ : ℝ) * C.sideD)
      (carvePass1 C false g ⌊radius⌋ ((C.W : ℤ) - 1 - jsRound x) (jsRound y)).2
      (flatIdx C.W ((C.W : ℤ) - 1 - px) py) =
    pass2Contrib C (rebuildGaussKernel C.spread) (normalizeDir dirX dirY)
      ((-(normalizeDir dirX dirY).2, (normalizeDir dirX dirY).1) : ℝ × ℝ)
      ((⌊radius⌋ : ℝ) * C.fwdD) ((⌊radius⌋ : ℝ) * C.sideD)
      (carvePass1 C false g ⌊radius⌋ (jsRound x) (jsRound y)).2
      (flatIdx C.W px py) := by
    unfold pass2Contrib
    rw [((carvePass1_mirror_disps C g ⌊radius⌋ (jsRound x) (jsRound y) hsym).map _).sum_eq,
      List.map_map]
    refine congrArg List.sum (List.map_congr_left ?_)
    intro d _
    exact dispContrib_mirror C (normalizeDir dirX dirY)
      ((⌊radius⌋ : ℝ) * C.fwdD) ((⌊radius⌋ : ℝ) * C.sideD) d hW hf hsp hsm px py hin
  rw [hcontrib]

theorem C7_mirrorV_heights_witness :
    jsRound ((cfg3.W : ℝ) - 1 - 1) = (cfg3.W : ℤ) - 1 - jsRound 1 ∧
      (carveTine cfg3 false (flat3, ⟨0, 0, 0, 0, true⟩)
          ((cfg3.W : ℝ) - 1 - 1) 0 1 (-0) 1).1.sandHeight
          (flatIdx cfg3.W ((cfg3.W : ℤ) - 1 - 0) 0) =
        (carveTine cfg3 false (flat3, ⟨0, 0, 0, 0, true⟩) 1 0 1 0 1).1.sandHeight
          (flatIdx cfg3.W 0 0) := by
  have hix : jsRound ((cfg3.W : ℝ) - 1 - 1) = (cfg3.W : ℤ) - 1 - jsRound 1 := by
    rw [jsRound_one]
    show jsRound (((3:ℕ) : ℝ) - 1 - 1) = ((3:ℕ) : ℤ) - 1 - 1
    norm_num [jsRound]
  refine ⟨hix, C7_mirrorV_heights cfg3 flat3 ⟨0, 0, 0, 0, true⟩ ⟨0, 0, 0, 0, true⟩
    1 0 1 0 1 (fun _ _ _ => rfl) hix ?_ ?_ ?_ 0 0 (by decide)⟩
  · intro n hn
    rw [normalizeDir_unitY]
    have hn3 : n < 3 := hn
    interval_cases n <;> norm_num [cfg3, jsRound, Int.floor_one]
  · intro n hn
    rw [normalizeDir_unitY]
    have hn3 : n < 3 := hn
    interval_cases n <;> norm_num [cfg3, jsRound, Int.floor_one]
  · intro n hn
    rw [normalizeDir_unitY]
    have hn3 : n < 3 := hn
    interval_cases n <;> norm_num [cfg3, jsRound, Int.floor_one]

end

end SilentSand
